import Mathlib

/-!
# BusTub buffer pool: a shallow embedding

Embedding of `src/buffer/lru_replacer.cpp`, `src/buffer/buffer_pool_manager_instance.cpp`,
the routing function and `NewPgImp` of `src/buffer/parallel_buffer_pool_manager.cpp`, and
`src/storage/page/hash_table_bucket_page.cpp`.

Conventions.
* `frame_id_t` is a signed 32-bit integer in the source.  Every frame id the pool handles is an
  index into `pages_`, and the replacer only compares ids for equality, so ids are naturals here.
* `page_id_t` is a signed 32-bit integer in the source; it is an `Int` here.  Signed overflow of
  `next_page_id_` and of `pin_count_` is undefined behaviour in the source and is not modelled.
* `size_t` counters wrap modulo `2 ^ 64`.
* `std::list` is a `List` whose head is the front of the list.
* `std::unordered_map` is an association list with at most one entry per key; `find` is a lookup,
  `erase` removes the entries of a key, `m[k] = v` replaces the entry of `k`.
* The latch is not modelled: every operation holds it from entry to exit, so operations of one
  instance are atomic steps on the instance state.
* A returned `Page *` is represented by the index of the frame it points to.
-/

namespace bustub

/-- Index of a frame in `pages_`. -/
abbrev frame_id_t := Nat

/-- Identifier of a page on disk. -/
abbrev page_id_t := Int

/-- The bytes of one page. -/
abbrev PageData := List Nat

/-! ## `LRUReplacer` (lru_replacer.cpp) -/

/-- Decrement of a `size_t` counter. -/
def size_t_dec (n : Nat) : Nat := (n + (2 ^ 64 - 1)) % 2 ^ 64

/-- Increment of a `size_t` counter. -/
def size_t_inc (n : Nat) : Nat := (n + 1) % 2 ^ 64

/-- State of the replacer: `lists_` is the linked list (front first), `frames_` holds the keys of
the side table from frame id to list node, `num_pages_` is the counter returned by `Size`. -/
structure LRUReplacer where
  lists_ : List frame_id_t
  frames_ : List frame_id_t
  num_pages_ : Nat
  max_pages_ : Nat
deriving DecidableEq

namespace LRUReplacer

/-- Constructor `LRUReplacer(num_pages)`. -/
def create (num_pages : Nat) : LRUReplacer :=
  { lists_ := [], frames_ := [], num_pages_ := 0, max_pages_ := num_pages }

/-- `Victim`: fails on an empty list, otherwise pops the back of the list, erases its key and
decrements the counter. -/
def Victim (r : LRUReplacer) : Option frame_id_t × LRUReplacer :=
  match r.lists_.getLast? with
  | none => (none, r)
  | some victim_frame_id =>
    (some victim_frame_id,
      { r with
        lists_ := r.lists_.dropLast
        frames_ := r.frames_.filter (fun k => k ≠ victim_frame_id)
        num_pages_ := size_t_dec r.num_pages_ })

/-- `Pin`: nothing when the key is absent, otherwise unlinks the node of the frame, erases the key
and decrements the counter.  The stored iterator designates the node that holds `frame_id`. -/
def Pin (r : LRUReplacer) (frame_id : frame_id_t) : LRUReplacer :=
  if frame_id ∈ r.frames_ then
    { r with
      lists_ := r.lists_.erase frame_id
      frames_ := r.frames_.filter (fun k => k ≠ frame_id)
      num_pages_ := size_t_dec r.num_pages_ }
  else r

/-- `Unpin`: when the key is absent, pushes the frame at the front, records the key and increments
the counter; nothing otherwise. -/
def Unpin (r : LRUReplacer) (frame_id : frame_id_t) : LRUReplacer :=
  if frame_id ∈ r.frames_ then r
  else
    { r with
      lists_ := frame_id :: r.lists_
      frames_ := frame_id :: r.frames_
      num_pages_ := size_t_inc r.num_pages_ }

/-- `Size`. -/
def Size (r : LRUReplacer) : Nat := r.num_pages_

end LRUReplacer

/-- A call on the replacer. -/
inductive ReplacerOp where
  | victim : ReplacerOp
  | pin : frame_id_t → ReplacerOp
  | unpin : frame_id_t → ReplacerOp
deriving DecidableEq

/-- One call on the replacer: the new state and the frame handed out by `Victim`, if any. -/
def LRUReplacer.apply (r : LRUReplacer) : ReplacerOp → Option frame_id_t × LRUReplacer
  | .victim => r.Victim
  | .pin f => (none, r.Pin f)
  | .unpin f => (none, r.Unpin f)

/-- Runs a sequence of calls, collecting the result of every call in order. -/
def LRUReplacer.run (r : LRUReplacer) : List ReplacerOp → List (Option frame_id_t) × LRUReplacer
  | [] => ([], r)
  | op :: ops =>
    let step := r.apply op
    let rest := LRUReplacer.run step.2 ops
    (step.1 :: rest.1, rest.2)

/-! ## Pages and the disk -/

/-- The reserved page id of a frame that holds no page. -/
def INVALID_PAGE_ID : page_id_t := -1

/-- A frame: byte buffer and metadata. -/
structure Page where
  data_ : PageData
  page_id_ : page_id_t
  pin_count_ : Int
  is_dirty_ : Bool
deriving DecidableEq

/-- Modelled from the spec: the `Page` class (page.h) is not among the sources.  A frame is born
holding no page: zeroed bytes, `INVALID_PAGE_ID`, pin count zero, clean. -/
def Page.create (PAGE_SIZE : Nat) : Page :=
  { data_ := List.replicate PAGE_SIZE 0, page_id_ := INVALID_PAGE_ID, pin_count_ := 0,
    is_dirty_ := false }

/-- Modelled from the spec: the disk manager is an external collaborator.  The disk is the
history of page writes, most recent first. -/
structure DiskManager where
  writes : List (page_id_t × PageData)
deriving DecidableEq

/-- Modelled from the spec: `write_page` durably persists the bytes under the page id. -/
def DiskManager.WritePage (d : DiskManager) (page_id : page_id_t) (bytes : PageData) :
    DiskManager :=
  { writes := (page_id, bytes) :: d.writes }

/-- Most recent bytes written under a page id, if any. -/
def DiskManager.lastWrite : List (page_id_t × PageData) → page_id_t → Option PageData
  | [], _ => none
  | (k, b) :: rest, page_id => if k = page_id then some b else DiskManager.lastWrite rest page_id

/-- Modelled from the spec: `read_page` loads the page bytes, or zeros if the page was never
written. -/
def DiskManager.ReadPage (PAGE_SIZE : Nat) (d : DiskManager) (page_id : page_id_t) : PageData :=
  (DiskManager.lastWrite d.writes page_id).getD (List.replicate PAGE_SIZE 0)

/-! ## The page table (`std::unordered_map<page_id_t, frame_id_t>`) -/

/-- The page table as an association list. -/
abbrev PageTable := List (page_id_t × frame_id_t)

/-- `find`: the frame mapped from a page id. -/
def PageTable.find : PageTable → page_id_t → Option frame_id_t
  | [], _ => none
  | (k, v) :: rest, page_id => if k = page_id then some v else PageTable.find rest page_id

/-- `erase(page_id)`. -/
def PageTable.erase (t : PageTable) (page_id : page_id_t) : PageTable :=
  t.filter (fun e => e.1 ≠ page_id)

/-- Assignment `page_table_[page_id] = frame_id`. -/
def PageTable.assign (t : PageTable) (page_id : page_id_t) (frame_id : frame_id_t) : PageTable :=
  (page_id, frame_id) :: PageTable.erase t page_id

/-! ## `BufferPoolManagerInstance` (buffer_pool_manager_instance.cpp) -/

/-- State of one pool instance.  `pages_` is the array `new Page[pool_size_]`. -/
structure BufferPoolManagerInstance where
  pool_size_ : Nat
  num_instances_ : Nat
  instance_index_ : Nat
  next_page_id_ : page_id_t
  pages_ : List Page
  page_table_ : PageTable
  replacer_ : LRUReplacer
  free_list_ : List frame_id_t
  disk_manager_ : DiskManager
deriving DecidableEq

namespace BufferPoolManagerInstance

/-- Constructor.  The source asserts `num_instances > 0` and `instance_index < num_instances`.
Every frame starts on the free list, in index order. -/
def create (PAGE_SIZE pool_size num_instances instance_index : Nat) (disk_manager : DiskManager) :
    BufferPoolManagerInstance :=
  { pool_size_ := pool_size
    num_instances_ := num_instances
    instance_index_ := instance_index
    next_page_id_ := (instance_index : Int)
    pages_ := List.replicate pool_size (Page.create PAGE_SIZE)
    page_table_ := []
    replacer_ := LRUReplacer.create pool_size
    free_list_ := List.range pool_size
    disk_manager_ := disk_manager }

/-- The frame `pages_[frame_id]`. -/
def pageAt (s : BufferPoolManagerInstance) (frame_id : frame_id_t) : Page :=
  s.pages_.getD frame_id { data_ := [], page_id_ := INVALID_PAGE_ID, pin_count_ := 0,
                           is_dirty_ := false }

/-- Store into `pages_[frame_id]`. -/
def setPage (s : BufferPoolManagerInstance) (frame_id : frame_id_t) (page : Page) :
    BufferPoolManagerInstance :=
  { s with pages_ := s.pages_.set frame_id page }

/-- The condition asserted by `ValidatePageId`: the page id, converted to the unsigned 32-bit type
of `num_instances_`, is congruent to the instance index. -/
def ValidatePageId (s : BufferPoolManagerInstance) (page_id : page_id_t) : Bool :=
  decide ((page_id % 2 ^ 32).toNat % s.num_instances_ = s.instance_index_)

/-- `AllocatePage`: hands out `next_page_id_` and advances it by `num_instances_`.  The assertion
of `ValidatePageId` is stated separately. -/
def AllocatePage (s : BufferPoolManagerInstance) : page_id_t × BufferPoolManagerInstance :=
  (s.next_page_id_, { s with next_page_id_ := s.next_page_id_ + (s.num_instances_ : Int) })

/-- The scan at the top of `NewPgImp`: true when no frame has pin count zero. -/
def pin_all (s : BufferPoolManagerInstance) : Bool :=
  (List.range s.pool_size_).all (fun i => decide ((s.pageAt i).pin_count_ ≠ 0))

/-- `NewPgImp`.  Returns the frame and the new page id, or nothing. -/
def NewPgImp (s : BufferPoolManagerInstance) :
    Option (frame_id_t × page_id_t) × BufferPoolManagerInstance :=
  if s.pin_all then (none, s)
  else
    match s.free_list_ with
    | frame_id :: rest =>
      let alloc := s.AllocatePage
      let page_id := alloc.1
      let s1 := { alloc.2 with free_list_ := rest }
      let page := s1.pageAt frame_id
      let page1 := { page with page_id_ := page_id, pin_count_ := page.pin_count_ + 1,
                               is_dirty_ := false }
      let s2 := s1.setPage frame_id page1
      let s3 := { s2 with disk_manager_ := s2.disk_manager_.WritePage page1.page_id_ page1.data_ }
      (some (frame_id, page_id), { s3 with page_table_ := s3.page_table_.assign page_id frame_id })
    | [] =>
      match s.replacer_.Victim with
      | (some frame_id, r) =>
        let s0 := { s with replacer_ := r }
        let alloc := s0.AllocatePage
        let page_id := alloc.1
        let s1 := alloc.2
        let page := s1.pageAt frame_id
        let disk1 := if page.is_dirty_ then s1.disk_manager_.WritePage page.page_id_ page.data_
                     else s1.disk_manager_
        let page1 := if page.is_dirty_ then { page with is_dirty_ := false } else page
        let table1 := (s1.page_table_.erase page1.page_id_).assign page_id frame_id
        let page2 := { page1 with page_id_ := page_id, pin_count_ := page1.pin_count_ + 1 }
        let s2 := { s1 with page_table_ := table1 }.setPage frame_id page2
        (some (frame_id, page_id),
          { s2 with disk_manager_ := disk1.WritePage page2.page_id_ page2.data_ })
      | (none, r) => (none, { s with replacer_ := r })

/-- `FetchPgImp`.  Returns the frame of the page, or nothing. -/
def FetchPgImp (PAGE_SIZE : Nat) (s : BufferPoolManagerInstance) (page_id : page_id_t) :
    Option frame_id_t × BufferPoolManagerInstance :=
  match s.page_table_.find page_id with
  | some frame_id =>
    let s1 := { s with replacer_ := s.replacer_.Pin frame_id }
    let page := s1.pageAt frame_id
    (some frame_id, s1.setPage frame_id { page with pin_count_ := page.pin_count_ + 1 })
  | none =>
    match s.free_list_ with
    | frame_id :: rest =>
      let s1 := { s with free_list_ := rest }
      let page := s1.pageAt frame_id
      let page1 := { page with page_id_ := page_id, pin_count_ := page.pin_count_ + 1,
                               is_dirty_ := false }
      let page2 := { page1 with data_ := s1.disk_manager_.ReadPage PAGE_SIZE page_id }
      let s2 := s1.setPage frame_id page2
      (some frame_id, { s2 with page_table_ := s2.page_table_.assign page_id frame_id })
    | [] =>
      match s.replacer_.Victim with
      | (some frame_id, r) =>
        let s1 := { s with replacer_ := r }
        let page := s1.pageAt frame_id
        let disk1 := if page.is_dirty_ then s1.disk_manager_.WritePage page.page_id_ page.data_
                     else s1.disk_manager_
        let page1 := if page.is_dirty_ then { page with is_dirty_ := false } else page
        let table1 := s1.page_table_.erase page1.page_id_
        let page2 := { page1 with page_id_ := page_id, pin_count_ := page1.pin_count_ + 1 }
        let page3 := { page2 with data_ := disk1.ReadPage PAGE_SIZE page_id }
        let s2 := { s1 with disk_manager_ := disk1, page_table_ := table1 }.setPage frame_id page3
        (some frame_id, { s2 with page_table_ := s2.page_table_.assign page_id frame_id })
      | (none, r) => (none, { s with replacer_ := r })

/-- `DeletePgImp`. -/
def DeletePgImp (PAGE_SIZE : Nat) (s : BufferPoolManagerInstance) (page_id : page_id_t) :
    Bool × BufferPoolManagerInstance :=
  match s.page_table_.find page_id with
  | some frame_id =>
    if (s.pageAt frame_id).pin_count_ ≠ 0 then (false, s)
    else
      let page := s.pageAt frame_id
      let page1 := { page with data_ := List.replicate PAGE_SIZE 0, pin_count_ := 0 }
      let disk1 := if page1.is_dirty_ then s.disk_manager_.WritePage page_id page1.data_
                   else s.disk_manager_
      let page2 := if page1.is_dirty_ then { page1 with is_dirty_ := false } else page1
      let s1 := { s with disk_manager_ := disk1 }.setPage frame_id page2
      (true, { s1 with free_list_ := s1.free_list_ ++ [frame_id],
                       page_table_ := s1.page_table_.erase page_id })
  | none => (true, s)

/-- `UnpinPgImp`. -/
def UnpinPgImp (s : BufferPoolManagerInstance) (page_id : page_id_t) (is_dirty : Bool) :
    Bool × BufferPoolManagerInstance :=
  match s.page_table_.find page_id with
  | some frame_id =>
    let page := s.pageAt frame_id
    let page1 := if is_dirty then { page with is_dirty_ := true } else page
    if page1.pin_count_ ≤ 0 then (false, s.setPage frame_id page1)
    else
      let page2 := { page1 with pin_count_ := page1.pin_count_ - 1 }
      let s1 := s.setPage frame_id page2
      if page2.pin_count_ = 0 then
        (true, { s1 with replacer_ := s1.replacer_.Unpin frame_id })
      else (true, s1)
  | none => (false, s)

/-- `FlushPgImp`. -/
def FlushPgImp (s : BufferPoolManagerInstance) (page_id : page_id_t) :
    Bool × BufferPoolManagerInstance :=
  match s.page_table_.find page_id with
  | some frame_id =>
    let page := s.pageAt frame_id
    (true, { s with disk_manager_ := s.disk_manager_.WritePage page_id page.data_ })
  | none => (false, s)

end BufferPoolManagerInstance

/-- A call on a pool instance. -/
inductive PoolOp where
  | new_page : PoolOp
  | fetch_page : page_id_t → PoolOp
  | unpin_page : page_id_t → Bool → PoolOp
  | flush_page : page_id_t → PoolOp
  | delete_page : page_id_t → PoolOp
deriving DecidableEq

/-- What a call returns to its caller. -/
inductive PoolResult where
  | new_page : Option (frame_id_t × page_id_t) → PoolResult
  | fetch_page : Option frame_id_t → PoolResult
  | flag : Bool → PoolResult
deriving DecidableEq

/-- The state after one call. -/
def BufferPoolManagerInstance.step (PAGE_SIZE : Nat) (s : BufferPoolManagerInstance) :
    PoolOp → BufferPoolManagerInstance
  | .new_page => s.NewPgImp.2
  | .fetch_page p => (s.FetchPgImp PAGE_SIZE p).2
  | .unpin_page p d => (s.UnpinPgImp p d).2
  | .flush_page p => (s.FlushPgImp p).2
  | .delete_page p => (s.DeletePgImp PAGE_SIZE p).2

/-- The result of one call. -/
def BufferPoolManagerInstance.result (PAGE_SIZE : Nat) (s : BufferPoolManagerInstance) :
    PoolOp → PoolResult
  | .new_page => .new_page s.NewPgImp.1
  | .fetch_page p => .fetch_page (s.FetchPgImp PAGE_SIZE p).1
  | .unpin_page p d => .flag (s.UnpinPgImp p d).1
  | .flush_page p => .flag (s.FlushPgImp p).1
  | .delete_page p => .flag (s.DeletePgImp PAGE_SIZE p).1

/-- The state after a sequence of calls. -/
def BufferPoolManagerInstance.run (PAGE_SIZE : Nat) (s : BufferPoolManagerInstance) :
    List PoolOp → BufferPoolManagerInstance
  | [] => s
  | op :: ops => BufferPoolManagerInstance.run PAGE_SIZE (s.step PAGE_SIZE op) ops

/-- The results of a sequence of calls, in order. -/
def BufferPoolManagerInstance.results (PAGE_SIZE : Nat) (s : BufferPoolManagerInstance) :
    List PoolOp → List PoolResult
  | [] => []
  | op :: ops =>
    s.result PAGE_SIZE op :: BufferPoolManagerInstance.results PAGE_SIZE (s.step PAGE_SIZE op) ops

/-- States reachable from a freshly constructed instance by calls of the five operations. -/
inductive Reachable (PAGE_SIZE pool_size num_instances instance_index : Nat)
    (disk_manager : DiskManager) : BufferPoolManagerInstance → Prop where
  | init : Reachable PAGE_SIZE pool_size num_instances instance_index disk_manager
      (BufferPoolManagerInstance.create PAGE_SIZE pool_size num_instances instance_index
        disk_manager)
  | step (s : BufferPoolManagerInstance) (op : PoolOp) :
      Reachable PAGE_SIZE pool_size num_instances instance_index disk_manager s →
      Reachable PAGE_SIZE pool_size num_instances instance_index disk_manager
        (s.step PAGE_SIZE op)

/-! ## Routing of the parallel pool (parallel_buffer_pool_manager.cpp) -/

/-- The index `page_id % num_instances_` computed by `GetBufferPoolManager`.  The declaration of
`num_instances_` is in a header that is not among the sources: `w` is the bit width of its
unsigned type, to which the page id is converted before the division. -/
def GetBufferPoolManager (w : Nat) (num_instances_ : Nat) (page_id : page_id_t) : Nat :=
  (page_id % 2 ^ w).toNat % num_instances_

/-- Representation invariant of the replacer: no frame is linked twice and the keys of the side
table are the linked frames. -/
def LRUReplacer.WF (r : LRUReplacer) : Prop :=
  r.lists_.Nodup ∧ ∀ f, f ∈ r.frames_ ↔ f ∈ r.lists_

/-! ## Insertion record of the replacer

The specification speaks of the member "whose insertion is the oldest".  The record below is kept
beside a run of the replacer: a pair `(f, t)` says that frame `f` is a member and that call number
`t`, an unpin, is the call that added it. -/

/-- The record after call number `t`: an unpin of a frame that is not a member adds the frame
with stamp `t`, an unpin of a member changes nothing, a pin removes the frame, and a victim call
removes the frame that the replacer hands out. -/
def LRUReplacer.record (r : LRUReplacer) (t : Nat) (log : List (frame_id_t × Nat)) :
    ReplacerOp → List (frame_id_t × Nat)
  | .victim =>
    match r.Victim.1 with
    | none => log
    | some v => log.filter (fun e => e.1 ≠ v)
  | .pin f => log.filter (fun e => e.1 ≠ f)
  | .unpin f => if f ∈ log.map Prod.fst then log else (f, t) :: log

/-- Runs a sequence of calls, numbered from `t`, keeping the insertion record. -/
def LRUReplacer.runRecorded (r : LRUReplacer) (t : Nat) (log : List (frame_id_t × Nat)) :
    List ReplacerOp → LRUReplacer × List (frame_id_t × Nat)
  | [] => (r, log)
  | op :: ops => LRUReplacer.runRecorded (r.apply op).2 (t + 1) (r.record t log op) ops

/-- Link between a replacer state and its insertion record at call number `t`: the linked list
is the record read from the newest insertion to the oldest. -/
def LRUReplacer.Recorded (r : LRUReplacer) (t : Nat) (log : List (frame_id_t × Nat)) : Prop :=
  r.WF ∧ r.lists_ = log.map Prod.fst ∧ log.Pairwise (fun a b => b.2 < a.2) ∧
    ∀ e ∈ log, e.2 < t

/-! ## Invariant of the reachable states of an instance -/

/-- Facts that hold in every reachable state: the frame array has `pool_size_` frames; every
frame id in the page table, the free list and the replacer is a valid index; pin counts are not
negative; the replacer is well formed; every frame with pin count zero is on the free list or in
the replacer. -/
structure BufferPoolManagerInstance.Inv (s : BufferPoolManagerInstance) : Prop where
  len : s.pages_.length = s.pool_size_
  table : ∀ e ∈ s.page_table_, e.2 < s.pool_size_
  free : ∀ f ∈ s.free_list_, f < s.pool_size_
  repl : ∀ f ∈ s.replacer_.lists_, f < s.pool_size_
  pin : ∀ f, 0 ≤ (s.pageAt f).pin_count_
  wf : s.replacer_.WF
  cover : ∀ f, f < s.pool_size_ → (s.pageAt f).pin_count_ = 0 →
    f ∈ s.free_list_ ∨ f ∈ s.replacer_.lists_

/-- The page ids handed out by the successful `new_page` calls among a list of results, in
order. -/
def newPageIds : List PoolResult → List page_id_t
  | [] => []
  | .new_page (some (_, page_id)) :: rest => page_id :: newPageIds rest
  | .new_page none :: rest => newPageIds rest
  | .fetch_page _ :: rest => newPageIds rest
  | .flag _ :: rest => newPageIds rest

/-! ## Concrete instances used in the scenarios (page size 4) -/

/-- A fresh single instance with one frame over an empty disk. -/
def pool1 : BufferPoolManagerInstance :=
  BufferPoolManagerInstance.create 4 1 1 0 { writes := [] }

/-- Instance `pool1` after `new_page`: page 0 sits in frame 0 with pin count 1. -/
def pool1_new : BufferPoolManagerInstance :=
  pool1.run 4 [.new_page]

/-- Instance `pool1` after `new_page` and `unpin_page(0, false)`: page 0 is resident, clean, with
pin count 0. -/
def pool1_new_unpin : BufferPoolManagerInstance :=
  pool1.run 4 [.new_page, .unpin_page 0 false]

/-- Instance `pool1` after `fetch_page(0)` and `unpin_page(0, false)`: page 0, never allocated by
`new_page`, sits clean and unpinned in frame 0, which is in the replacer; the free list is
empty. -/
def pool1_fetch_unpin : BufferPoolManagerInstance :=
  pool1.run 4 [.fetch_page 0, .unpin_page 0 false]

/-- A fresh single instance with one frame over a disk that already holds page 7. -/
def pool1_disk7 : BufferPoolManagerInstance :=
  BufferPoolManagerInstance.create 4 1 1 0 { writes := [(7, [1, 2, 3, 4])] }

/-- Instance `pool1_disk7` after `fetch_page(7)` and `unpin_page(7, true)`: frame 0 holds page 7
with bytes 1, 2, 3, 4, is dirty and unpinned, and is in the replacer. -/
def pool1_disk7_dirty : BufferPoolManagerInstance :=
  pool1_disk7.run 4 [.fetch_page 7, .unpin_page 7 true]

/-- A fresh single instance with ten frames over an empty disk. -/
def pool10 : BufferPoolManagerInstance :=
  BufferPoolManagerInstance.create 4 10 1 0 { writes := [] }

/-- Instance `pool10` after ten `new_page` calls: pages 0 to 9 are pinned in frames 0 to 9. -/
def pool10_full : BufferPoolManagerInstance :=
  pool10.run 4 (List.replicate 10 .new_page)

/-- Instance number 1 of 4, with two frames, over an empty disk. -/
def pool2_of4 : BufferPoolManagerInstance :=
  BufferPoolManagerInstance.create 4 2 4 1 { writes := [] }

/-- Calls in which the third `new_page` fails (both frames pinned) and the fourth succeeds. -/
def stripe_ops : List PoolOp :=
  [.new_page, .new_page, .new_page, .unpin_page 1 false, .new_page]

/-- Instance `pool1` after `new_page`, `unpin_page(0, false)`, `delete_page(0)` and a second
`new_page`: frame 0 holds page 1, pinned once. -/
def pool1_reused_after_delete : BufferPoolManagerInstance :=
  pool1.run 4 [.new_page, .unpin_page 0 false, .delete_page 0, .new_page]

/-- A fresh single instance with two frames over an empty disk. -/
def pool2 : BufferPoolManagerInstance :=
  BufferPoolManagerInstance.create 4 2 1 0 { writes := [] }

/-- Instance `pool2` after two `new_page` calls, `unpin_page(0, false)`, `delete_page(0)`, a
third `new_page` (page 2 in frame 0, pinned) and `unpin_page(1, false)`. -/
def pool2_stale : BufferPoolManagerInstance :=
  pool2.run 4 [.new_page, .new_page, .unpin_page 0 false, .delete_page 0, .new_page,
    .unpin_page 1 false]

/-- Instance `pool1_disk7` after `fetch_page(7)` and `unpin_page(7, false)`: frame 0 holds page 7
with bytes 1, 2, 3, 4, clean and unpinned. -/
def pool1_disk7_clean : BufferPoolManagerInstance :=
  pool1_disk7.run 4 [.fetch_page 7, .unpin_page 7 false]

/-! ## `HashTableBucketPage` (hash_table_bucket_page.cpp)

The page is generic in the key type `K`, the value type `V` and the comparator, a function `cmp`
whose result is zero on keys that compare equal.  `BUCKET_ARRAY_SIZE`, computed in a header from
the page size and the entry size, is a parameter.  The member `next_occupied_index_` and the bit
accessors are declared in that header, which is not among the sources. -/

/-- The bucket page: one occupied bit and one readable bit per slot, the array of entries, and
the cursor `next_occupied_index_`. -/
structure HashTableBucketPage (K V : Type) where
  occupied_ : List Bool
  readable_ : List Bool
  array_ : List (K × V)
  next_occupied_index_ : Nat
deriving DecidableEq

namespace HashTableBucketPage

variable {K V : Type}

/-- Modelled from the spec: an all-zero page of `BUCKET_ARRAY_SIZE` slots, as handed out by the
buffer pool; every bit is clear, every entry is the zero value and the cursor is zero. -/
def zeroed [Inhabited K] [Inhabited V] (BUCKET_ARRAY_SIZE : Nat) : HashTableBucketPage K V :=
  { occupied_ := List.replicate BUCKET_ARRAY_SIZE false
    readable_ := List.replicate BUCKET_ARRAY_SIZE false
    array_ := List.replicate BUCKET_ARRAY_SIZE default
    next_occupied_index_ := 0 }

/-- Modelled from the spec: the accessor `GetOccupiedBit` is declared in the header; it reads the
occupied bit of a slot. -/
def GetOccupiedBit (p : HashTableBucketPage K V) (bucket_idx : Nat) : Bool :=
  p.occupied_.getD bucket_idx false

/-- Modelled from the spec: `SetOccupiedBit` writes the occupied bit of a slot. -/
def SetOccupiedBit (p : HashTableBucketPage K V) (bucket_idx : Nat) (bit : Bool) :
    HashTableBucketPage K V :=
  { p with occupied_ := p.occupied_.set bucket_idx bit }

/-- Modelled from the spec: `GetReadableBit` reads the readable bit of a slot. -/
def GetReadableBit (p : HashTableBucketPage K V) (bucket_idx : Nat) : Bool :=
  p.readable_.getD bucket_idx false

/-- Modelled from the spec: `SetReadableBit` writes the readable bit of a slot. -/
def SetReadableBit (p : HashTableBucketPage K V) (bucket_idx : Nat) (bit : Bool) :
    HashTableBucketPage K V :=
  { p with readable_ := p.readable_.set bucket_idx bit }

/-- The entry `array_[bucket_idx]`. -/
def entryAt [Inhabited K] [Inhabited V] (p : HashTableBucketPage K V) (bucket_idx : Nat) :
    K × V :=
  p.array_.getD bucket_idx default

/-- `GetValue`: scans the slots below `next_occupied_index_` and appends to `result` the value of
every slot whose key compares equal; returns whether `result` is non-empty afterwards. -/
def GetValue [Inhabited K] [Inhabited V] (p : HashTableBucketPage K V) (key : K)
    (cmp : K → K → Int) (result : List V) : Bool × List V :=
  let found := ((List.range p.next_occupied_index_).filter
    (fun bucket_idx => decide (cmp key (p.entryAt bucket_idx).1 = 0))).map
    (fun bucket_idx => (p.entryAt bucket_idx).2)
  (decide ((result ++ found).length ≠ 0), result ++ found)

/-- `Insert`: fails when the cursor has reached `BUCKET_ARRAY_SIZE`; otherwise sets both bits of
the slot at the cursor, stores the pair there, and advances the cursor unless the stored key does
not compare equal to `key`. -/
def Insert [Inhabited K] [Inhabited V] (BUCKET_ARRAY_SIZE : Nat) (p : HashTableBucketPage K V)
    (key : K) (value : V) (cmp : K → K → Int) : Bool × HashTableBucketPage K V :=
  if p.next_occupied_index_ ≥ BUCKET_ARRAY_SIZE then (false, p)
  else
    let p1 := p.SetOccupiedBit p.next_occupied_index_ true
    let p2 := p1.SetReadableBit p1.next_occupied_index_ true
    let p3 := { p2 with array_ := p2.array_.set p2.next_occupied_index_ (key, value) }
    if cmp key (p3.entryAt p3.next_occupied_index_).1 ≠ 0 then (false, p3)
    else (true, { p3 with next_occupied_index_ := p3.next_occupied_index_ + 1 })

/-- `Remove`: scans all slots in index order; at the first slot that is occupied and readable and
whose key compares equal it clears the readable bit and returns true.  The parameter `value` is
not used by the source. -/
def Remove [Inhabited K] [Inhabited V] (BUCKET_ARRAY_SIZE : Nat) (p : HashTableBucketPage K V)
    (key : K) (value : V) (cmp : K → K → Int) : Bool × HashTableBucketPage K V :=
  match (List.range BUCKET_ARRAY_SIZE).find? (fun bucket_idx =>
      p.GetOccupiedBit bucket_idx && p.GetReadableBit bucket_idx &&
        decide (cmp key (p.entryAt bucket_idx).1 = 0)) with
  | some bucket_idx => (true, p.SetReadableBit bucket_idx false)
  | none => (false, p)

/-- `KeyAt`: the key of a slot that is occupied and readable, the zero value otherwise. -/
def KeyAt [Inhabited K] [Inhabited V] (p : HashTableBucketPage K V) (bucket_idx : Nat) : K :=
  if p.GetOccupiedBit bucket_idx && p.GetReadableBit bucket_idx then (p.entryAt bucket_idx).1
  else default

/-- `ValueAt`: the value of a slot that is occupied and readable, the zero value otherwise. -/
def ValueAt [Inhabited K] [Inhabited V] (p : HashTableBucketPage K V) (bucket_idx : Nat) : V :=
  if p.GetOccupiedBit bucket_idx && p.GetReadableBit bucket_idx then (p.entryAt bucket_idx).2
  else default

/-- `RemoveAt`: clears the readable bit of a slot that is occupied and readable. -/
def RemoveAt (p : HashTableBucketPage K V) (bucket_idx : Nat) : HashTableBucketPage K V :=
  if p.GetOccupiedBit bucket_idx && p.GetReadableBit bucket_idx then
    p.SetReadableBit bucket_idx false
  else p

/-- `IsOccupied`. -/
def IsOccupied (p : HashTableBucketPage K V) (bucket_idx : Nat) : Bool :=
  p.GetOccupiedBit bucket_idx

/-- `IsReadable`. -/
def IsReadable (p : HashTableBucketPage K V) (bucket_idx : Nat) : Bool :=
  p.GetReadableBit bucket_idx

end HashTableBucketPage

/-- A call on a bucket page. -/
inductive BucketOp (K V : Type) where
  | insert : K → V → BucketOp K V
  | remove : K → V → BucketOp K V
  | remove_at : Nat → BucketOp K V

/-- The page after one call, with comparator `cmp`. -/
def HashTableBucketPage.step {K V : Type} [Inhabited K] [Inhabited V] (BUCKET_ARRAY_SIZE : Nat)
    (cmp : K → K → Int) (p : HashTableBucketPage K V) : BucketOp K V → HashTableBucketPage K V
  | .insert key value => (p.Insert BUCKET_ARRAY_SIZE key value cmp).2
  | .remove key value => (p.Remove BUCKET_ARRAY_SIZE key value cmp).2
  | .remove_at bucket_idx => p.RemoveAt bucket_idx

/-- The page after a sequence of calls. -/
def HashTableBucketPage.run {K V : Type} [Inhabited K] [Inhabited V] (BUCKET_ARRAY_SIZE : Nat)
    (cmp : K → K → Int) (p : HashTableBucketPage K V) :
    List (BucketOp K V) → HashTableBucketPage K V
  | [] => p
  | op :: ops =>
    HashTableBucketPage.run BUCKET_ARRAY_SIZE cmp (p.step BUCKET_ARRAY_SIZE cmp op) ops

/-- A comparator on integer keys for the scenarios: negative, zero or positive. -/
def compareInt (a b : Int) : Int :=
  if a < b then -1 else if b < a then 1 else 0

/-- Scenario page of capacity 4 after inserting (1, 10), (1, 20) and (2, 30). -/
def bucket3 : HashTableBucketPage Int Int :=
  (HashTableBucketPage.zeroed 4).run 4 compareInt [.insert 1 10, .insert 1 20, .insert 2 30]

/-- Page `bucket3` after `remove(1, 10)`: slot 0 is a tombstone. -/
def bucket3_removed : HashTableBucketPage Int Int :=
  (bucket3.Remove 4 1 10 compareInt).2

/-- Scenario page of capacity 4 after inserting (1, 10). -/
def bucket1 : HashTableBucketPage Int Int :=
  (HashTableBucketPage.zeroed 4).run 4 compareInt [.insert 1 10]

/-- Scenario page of capacity 2 after inserting (1, 10) and (2, 20) and removing (1, 10): slot 0
is a tombstone, slot 1 is live. -/
def bucket_tombstone : HashTableBucketPage Int Int :=
  (HashTableBucketPage.zeroed 2).run 2 compareInt [.insert 1 10, .insert 2 20, .remove 1 10]

/-- Facts that hold for every page reached from an all-zero page when the comparator is
reflexive: the three arrays have `BUCKET_ARRAY_SIZE` slots, the cursor is within the page, and
the occupied slots are exactly the slots below the cursor. -/
structure HashTableBucketPage.Cursor {K V : Type} (BUCKET_ARRAY_SIZE : Nat)
    (p : HashTableBucketPage K V) : Prop where
  occ_len : p.occupied_.length = BUCKET_ARRAY_SIZE
  read_len : p.readable_.length = BUCKET_ARRAY_SIZE
  arr_len : p.array_.length = BUCKET_ARRAY_SIZE
  bound : p.next_occupied_index_ ≤ BUCKET_ARRAY_SIZE
  occ : ∀ i, p.GetOccupiedBit i = true ↔ i < p.next_occupied_index_

/-- Bitmap facts that hold for every page reached from an all-zero page: the two bitmaps have
the same number of slots and every readable slot is occupied. -/
structure HashTableBucketPage.Bits {K V : Type} (p : HashTableBucketPage K V) : Prop where
  len : p.occupied_.length = p.readable_.length
  sub : ∀ i, p.GetReadableBit i = true → p.GetOccupiedBit i = true

/-! ## Agreement of the page table with the frames -/

/-- Facts that hold in every reachable state: the invariant `Inv`; no page id has two entries in
the page table; the frame of every entry carries the page id of the entry; no frame index occurs
twice among the free list and the frames of the page table. -/
structure BufferPoolManagerInstance.Agree (s : BufferPoolManagerInstance) : Prop where
  inv : s.Inv
  keys : (s.page_table_.map Prod.fst).Nodup
  ids : ∀ e ∈ s.page_table_, (s.pageAt e.2).page_id_ = e.1
  frames : (s.free_list_ ++ s.page_table_.map Prod.snd).Nodup

/-- States reachable from a freshly constructed instance by calls in which `fetch_page` is only
applied to page ids below `next_page_id_`, the id that `new_page` would allocate next.  Every id
that `new_page` has handed out is below it. -/
inductive ReachableAllocated (PAGE_SIZE pool_size num_instances instance_index : Nat)
    (disk_manager : DiskManager) : BufferPoolManagerInstance → Prop where
  | init : ReachableAllocated PAGE_SIZE pool_size num_instances instance_index disk_manager
      (BufferPoolManagerInstance.create PAGE_SIZE pool_size num_instances instance_index
        disk_manager)
  | step (s : BufferPoolManagerInstance) (op : PoolOp) :
      ReachableAllocated PAGE_SIZE pool_size num_instances instance_index disk_manager s →
      (∀ p, op = .fetch_page p → p < s.next_page_id_) →
      ReachableAllocated PAGE_SIZE pool_size num_instances instance_index disk_manager
        (s.step PAGE_SIZE op)

/-- Facts that hold in the states of `ReachableAllocated`: the facts of `Agree`; the instance
count is positive; every resident page id is below `next_page_id_`; the free list and the page
table together hold `pool_size_` entries. -/
structure BufferPoolManagerInstance.Accounted (s : BufferPoolManagerInstance) : Prop where
  agree : s.Agree
  pos : 0 < s.num_instances_
  below : ∀ e ∈ s.page_table_, e.1 < s.next_page_id_
  count : s.free_list_.length + s.page_table_.length = s.pool_size_

/-- Instance `pool2` after `fetch_page(0)` and `new_page`: page 0 was fetched into frame 0
without being allocated, then `new_page` allocated id 0 and put it in frame 1. -/
def pool2_collision : BufferPoolManagerInstance :=
  pool2.run 4 [.fetch_page 0, .new_page]

/-- Instance `pool2` after `new_page`, `unpin_page(0, false)`, `delete_page(0)` and
`fetch_page(0)`: page 0 is resident in frame 1 and frame 0 is on the free list. -/
def pool2_refetched : BufferPoolManagerInstance :=
  pool2.run 4 [.new_page, .unpin_page 0 false, .delete_page 0, .fetch_page 0]

/-! ## `ParallelBufferPoolManager` (parallel_buffer_pool_manager.cpp)

Every instance of the model carries its own view of the disk.  Instance `i` only ever reads and
writes pages whose id it allocated or that are routed to it, so the views do not interact. -/

/-- State of the parallel pool: the instances `bpis_` and the rotating cursor `start_index_`. -/
structure ParallelBufferPoolManager where
  num_instances_ : Nat
  pool_size_ : Nat
  start_index_ : Nat
  bpis_ : List BufferPoolManagerInstance

namespace ParallelBufferPoolManager

/-- Constructor: instance `i` is built with `(pool_size, num_instances, i)`.  The member
`start_index_` is declared in the header, which is not among the sources; its initial value is
the parameter `start_index`. -/
def create (PAGE_SIZE num_instances pool_size start_index : Nat) (disk_manager : DiskManager) :
    ParallelBufferPoolManager :=
  { num_instances_ := num_instances
    pool_size_ := pool_size
    start_index_ := start_index
    bpis_ := (List.range num_instances).map (fun i =>
      BufferPoolManagerInstance.create PAGE_SIZE pool_size num_instances i disk_manager) }

/-- `GetPoolSize`. -/
def GetPoolSize (p : ParallelBufferPoolManager) : Nat :=
  p.num_instances_ * p.pool_size_

/-- The instance `bpis_[i]` of a list of instances. -/
def bpiAt (bpis : List BufferPoolManagerInstance) (i : Nat) : BufferPoolManagerInstance :=
  bpis.getD i (BufferPoolManagerInstance.create 0 0 0 0 { writes := [] })

/-- The loop of `NewPgImp`, entered at loop index `i` with `remaining` iterations to go: calls
`NewPage` on instance `(i + start_index_) % num_instances_` and stops at the first success,
returning the loop index, the frame and the page id. -/
def probe (num_instances_ start_index_ : Nat) :
    Nat → Nat → List BufferPoolManagerInstance →
      Option (Nat × frame_id_t × page_id_t) × List BufferPoolManagerInstance
  | 0, _, bpis => (none, bpis)
  | remaining + 1, i, bpis =>
    let res := (bpiAt bpis ((i + start_index_) % num_instances_)).NewPgImp
    match res.1 with
    | some (frame_id, page_id) =>
      (some (i, frame_id, page_id), bpis.set ((i + start_index_) % num_instances_) res.2)
    | none =>
      probe num_instances_ start_index_ remaining (i + 1)
        (bpis.set ((i + start_index_) % num_instances_) res.2)

/-- `NewPgImp`.  On success returns the index of the instance that holds the new page, the
frame and the page id, and sets `start_index_` to `(i + 1) % num_instances_` for the loop index
`i` at which the loop stopped; on failure advances `start_index_` by one. -/
def NewPgImp (p : ParallelBufferPoolManager) :
    Option (Nat × frame_id_t × page_id_t) × ParallelBufferPoolManager :=
  match probe p.num_instances_ p.start_index_ p.num_instances_ 0 p.bpis_ with
  | (some (i, frame_id, page_id), bpis) =>
    (some ((i + p.start_index_) % p.num_instances_, frame_id, page_id),
      { p with bpis_ := bpis, start_index_ := (i + 1) % p.num_instances_ })
  | (none, bpis) =>
    (none, { p with bpis_ := bpis, start_index_ := (p.start_index_ + 1) % p.num_instances_ })

/-- The results of `n` consecutive `new_page` calls and the state after them. -/
def newPages : Nat → ParallelBufferPoolManager →
    List (Option (Nat × frame_id_t × page_id_t)) × ParallelBufferPoolManager
  | 0, p => ([], p)
  | n + 1, p =>
    let first := p.NewPgImp
    let rest := newPages n first.2
    (first.1 :: rest.1, rest.2)

end ParallelBufferPoolManager

/-- A fresh parallel pool of two instances with two frames each, cursor at 0. -/
def ppool2x2 : ParallelBufferPoolManager :=
  ParallelBufferPoolManager.create 4 2 2 0 { writes := [] }

/-- A fresh parallel pool of four instances with one frame each, cursor at 0. -/
def ppool4x1 : ParallelBufferPoolManager :=
  ParallelBufferPoolManager.create 4 4 1 0 { writes := [] }

/-- Instance `j` of `N`, with `s` frames, after `k` pages were created and none unpinned: frames
below `k` are pinned, the others are on the free list in index order, and the id counter stands
at `j + k * N`. -/
structure BufferPoolManagerInstance.Filled (N s j k : Nat) (st : BufferPoolManagerInstance) :
    Prop where
  size : st.pool_size_ = s
  len : st.pages_.length = s
  num : st.num_instances_ = N
  next : st.next_page_id_ = (j : Int) + (k : Int) * (N : Int)
  free : st.free_list_ = List.range' k (s - k)
  pinned : ∀ f, f < k → (st.pageAt f).pin_count_ ≠ 0
  unpinned : ∀ f, k ≤ f → (st.pageAt f).pin_count_ = 0
  bound : k ≤ s

/-- A list of `N` instances in which instance `j` has created `ks j` pages. -/
def ParallelBufferPoolManager.Filled (N s : Nat) (ks : Nat → Nat)
    (bpis : List BufferPoolManagerInstance) : Prop :=
  bpis.length = N ∧
    ∀ j, j < N → BufferPoolManagerInstance.Filled N s j (ks j)
      (ParallelBufferPoolManager.bpiAt bpis j)

/-! ## Counter of the replacer -/

/-- A call whose frame id, if it has one, is among the `2 ^ 32` values of the 32-bit type
`frame_id_t` of the source. -/
def ReplacerOp.representable : ReplacerOp → Bool
  | .victim => true
  | .pin f => decide (f < 2 ^ 32)
  | .unpin f => decide (f < 2 ^ 32)

/-- Representation facts of the replacer: it is well formed, the side table has no key twice,
and the `size_t` counter is the length of the list modulo `2 ^ 64`. -/
def LRUReplacer.Counted (r : LRUReplacer) : Prop :=
  r.WF ∧ r.frames_.Nodup ∧ r.num_pages_ = r.lists_.length % 2 ^ 64

/-! # Properties -/

/-! ## Facts about the replacer -/

theorem LRUReplacer.WF_create (n : Nat) : (LRUReplacer.create n).WF := by
  simp [LRUReplacer.WF, LRUReplacer.create]

theorem LRUReplacer.Victim_fst (r : LRUReplacer) : r.Victim.1 = r.lists_.getLast? := by
  unfold LRUReplacer.Victim
  cases h : r.lists_.getLast? <;> simp

theorem LRUReplacer.Victim_none_iff (r : LRUReplacer) : r.Victim.1 = none ↔ r.lists_ = [] := by
  rw [LRUReplacer.Victim_fst]
  exact List.getLast?_eq_none_iff

theorem LRUReplacer.Victim_none_state (r : LRUReplacer) (h : r.Victim.1 = none) :
    r.Victim.2 = r := by
  rw [LRUReplacer.Victim_fst] at h
  unfold LRUReplacer.Victim
  simp [h]

theorem LRUReplacer.Victim_some_lists (r : LRUReplacer) (v : frame_id_t)
    (h : r.Victim.1 = some v) : r.Victim.2.lists_ = r.lists_.dropLast := by
  rw [LRUReplacer.Victim_fst] at h
  unfold LRUReplacer.Victim
  simp [h]

theorem LRUReplacer.Victim_some_frames (r : LRUReplacer) (v : frame_id_t)
    (h : r.Victim.1 = some v) : r.Victim.2.frames_ = r.frames_.filter (fun k => k ≠ v) := by
  rw [LRUReplacer.Victim_fst] at h
  unfold LRUReplacer.Victim
  simp [h]

theorem LRUReplacer.Victim_some_split (r : LRUReplacer) (v : frame_id_t)
    (h : r.Victim.1 = some v) : r.lists_ = r.Victim.2.lists_ ++ [v] := by
  rw [LRUReplacer.Victim_some_lists r v h]
  rw [LRUReplacer.Victim_fst] at h
  exact (List.dropLast_append_getLast? v h).symm

theorem LRUReplacer.Victim_mem (r : LRUReplacer) (hr : r.WF) (v : frame_id_t)
    (h : r.Victim.1 = some v) (g : frame_id_t) :
    g ∈ r.Victim.2.lists_ ↔ g ∈ r.lists_ ∧ g ≠ v := by
  have hs := LRUReplacer.Victim_some_split r v h
  have hnd := hr.1
  rw [hs] at hnd
  rw [List.nodup_append] at hnd
  constructor
  · intro hg
    refine ⟨by rw [hs]; exact List.mem_append_left _ hg, ?_⟩
    intro hgv
    exact hnd.2.2 hg (by simp [hgv])
  · rintro ⟨hg, hgv⟩
    rw [hs] at hg
    rcases List.mem_append.mp hg with h1 | h1
    · exact h1
    · simp at h1; exact absurd h1 hgv

theorem LRUReplacer.WF_Victim (r : LRUReplacer) (hr : r.WF) : r.Victim.2.WF := by
  cases h : r.Victim.1 with
  | none => rw [LRUReplacer.Victim_none_state r h]; exact hr
  | some v =>
    refine ⟨?_, ?_⟩
    · rw [LRUReplacer.Victim_some_lists r v h]
      exact hr.1.sublist (List.dropLast_sublist _)
    · intro f
      rw [LRUReplacer.Victim_mem r hr v h f, LRUReplacer.Victim_some_frames r v h]
      simp [hr.2 f]

theorem LRUReplacer.Pin_mem (r : LRUReplacer) (hr : r.WF) (f g : frame_id_t) :
    g ∈ (r.Pin f).lists_ ↔ g ∈ r.lists_ ∧ g ≠ f := by
  unfold LRUReplacer.Pin
  by_cases hf : f ∈ r.frames_
  · simp only [hf, if_true]
    rw [hr.1.mem_erase_iff]
    tauto
  · simp only [hf, if_false]
    have : f ∉ r.lists_ := fun h => hf ((hr.2 f).2 h)
    constructor
    · intro hg
      exact ⟨hg, fun e => this (e ▸ hg)⟩
    · exact fun h => h.1

theorem LRUReplacer.WF_Pin (r : LRUReplacer) (hr : r.WF) (f : frame_id_t) : (r.Pin f).WF := by
  refine ⟨?_, ?_⟩
  · unfold LRUReplacer.Pin
    split
    · exact hr.1.erase f
    · exact hr.1
  · intro g
    rw [LRUReplacer.Pin_mem r hr f g]
    unfold LRUReplacer.Pin
    by_cases hf : f ∈ r.frames_
    · simp [hf, hr.2 g]
    · simp only [hf, if_false]
      rw [hr.2 g]
      have : f ∉ r.lists_ := fun h => hf ((hr.2 f).2 h)
      constructor
      · intro hg
        exact ⟨hg, fun e => this (e ▸ hg)⟩
      · exact fun h => h.1

theorem LRUReplacer.Unpin_mem (r : LRUReplacer) (hr : r.WF) (f g : frame_id_t) :
    g ∈ (r.Unpin f).lists_ ↔ g = f ∨ g ∈ r.lists_ := by
  unfold LRUReplacer.Unpin
  by_cases hf : f ∈ r.frames_
  · simp only [hf, if_true]
    constructor
    · exact fun h => Or.inr h
    · rintro (h | h)
      · rw [h]; exact (hr.2 f).1 hf
      · exact h
  · simp [hf]

theorem LRUReplacer.WF_Unpin (r : LRUReplacer) (hr : r.WF) (f : frame_id_t) :
    (r.Unpin f).WF := by
  unfold LRUReplacer.Unpin
  by_cases hf : f ∈ r.frames_
  · simp only [hf, if_true]; exact hr
  · simp only [hf, if_false]
    refine ⟨?_, ?_⟩
    · have : f ∉ r.lists_ := fun h => hf ((hr.2 f).2 h)
      exact List.nodup_cons.mpr ⟨this, hr.1⟩
    · intro g
      simp [hr.2 g]

theorem LRUReplacer.WF_apply (r : LRUReplacer) (hr : r.WF) (op : ReplacerOp) :
    (r.apply op).2.WF := by
  cases op with
  | victim => exact LRUReplacer.WF_Victim r hr
  | pin f => exact LRUReplacer.WF_Pin r hr f
  | unpin f => exact LRUReplacer.WF_Unpin r hr f

/-! ## Victim order of the replacer -/

theorem filter_ne_of_last {l : List frame_id_t} (hl : l.Nodup) {v : frame_id_t}
    (hv : l.getLast? = some v) : l.filter (fun k => decide (k ≠ v)) = l.dropLast := by
  have hs := List.dropLast_append_getLast? v hv
  have hnd := hl
  rw [← hs, List.nodup_append] at hnd
  conv_lhs => rw [← hs]
  rw [List.filter_append]
  have h1 : l.dropLast.filter (fun k => decide (k ≠ v)) = l.dropLast := by
    rw [List.filter_eq_self]
    intro a ha
    simp only [decide_eq_true_eq]
    intro e
    exact hnd.2.2 ha (by simp [e])
  rw [h1]
  simp

theorem map_fst_filter_ne (log : List (frame_id_t × Nat)) (f : frame_id_t) :
    (log.filter (fun e => decide (e.1 ≠ f))).map Prod.fst
      = (log.map Prod.fst).filter (fun k => decide (k ≠ f)) := by
  induction log with
  | nil => rfl
  | cons e rest ih =>
    by_cases h : e.1 = f <;> simp [List.filter_cons, h] <;> simpa using ih

theorem LRUReplacer.Recorded_step (r : LRUReplacer) (t : Nat) (log : List (frame_id_t × Nat))
    (h : r.Recorded t log) (op : ReplacerOp) :
    (r.apply op).2.Recorded (t + 1) (r.record t log op) := by
  obtain ⟨hwf, hl, hp, hb⟩ := h
  have hwf2 := LRUReplacer.WF_apply r hwf op
  have hb2 : ∀ e ∈ log, e.2 < t + 1 := fun e he => Nat.lt_succ_of_lt (hb e he)
  have hfilt : ∀ f : frame_id_t,
      (∀ e ∈ log.filter (fun e => decide (e.1 ≠ f)), e.2 < t + 1) ∧
      (log.filter (fun e => decide (e.1 ≠ f))).Pairwise (fun a b => b.2 < a.2) := by
    intro f
    exact ⟨fun e he => hb2 e (List.mem_of_mem_filter he), hp.sublist (List.filter_sublist _)⟩
  refine ⟨hwf2, ?_⟩
  cases op with
  | victim =>
    simp only [LRUReplacer.apply, LRUReplacer.record]
    cases hv : r.Victim.1 with
    | none =>
      simp only []
      rw [LRUReplacer.Victim_none_state r hv]
      exact ⟨hl, hp, hb2⟩
    | some v =>
      simp only []
      refine ⟨?_, (hfilt v).2, (hfilt v).1⟩
      rw [LRUReplacer.Victim_some_lists r v hv, map_fst_filter_ne, ← hl]
      rw [LRUReplacer.Victim_fst] at hv
      exact (filter_ne_of_last hwf.1 hv).symm
  | pin f =>
    simp only [LRUReplacer.apply, LRUReplacer.record]
    refine ⟨?_, (hfilt f).2, (hfilt f).1⟩
    rw [map_fst_filter_ne, ← hl]
    unfold LRUReplacer.Pin
    by_cases hf : f ∈ r.frames_
    · simp only [hf, if_true]
      rw [hwf.1.erase_eq_filter]
      congr 1
      funext k
      by_cases hk : k = f <;> simp [hk]
    · simp only [hf, if_false]
      have : f ∉ r.lists_ := fun h => hf ((hwf.2 f).2 h)
      symm
      rw [List.filter_eq_self]
      intro a ha
      simp only [decide_eq_true_eq]
      exact fun e => this (e ▸ ha)
  | unpin f =>
    simp only [LRUReplacer.apply, LRUReplacer.record]
    unfold LRUReplacer.Unpin
    by_cases hf : f ∈ r.frames_
    · have hm : f ∈ log.map Prod.fst := by rw [← hl]; exact (hwf.2 f).1 hf
      simp only [hf, hm, if_true]
      exact ⟨hl, hp, hb2⟩
    · have hm : f ∉ log.map Prod.fst := by rw [← hl]; exact fun h => hf ((hwf.2 f).2 h)
      simp only [hf, hm, if_false]
      refine ⟨by simp [hl], ?_, ?_⟩
      · rw [List.pairwise_cons]
        exact ⟨fun e he => hb e he, hp⟩
      · intro e he
        rcases List.mem_cons.mp he with h1 | h1
        · rw [h1]; exact Nat.lt_succ_self t
        · exact hb2 e h1

theorem LRUReplacer.Recorded_run (ops : List ReplacerOp) :
    ∀ (r : LRUReplacer) (t : Nat) (log : List (frame_id_t × Nat)), r.Recorded t log →
      (r.runRecorded t log ops).1.Recorded (t + ops.length) (r.runRecorded t log ops).2 := by
  induction ops with
  | nil => intro r t log h; exact h
  | cons op ops ih =>
    intro r t log h
    have := ih _ _ _ (LRUReplacer.Recorded_step r t log h op)
    simp only [LRUReplacer.runRecorded, List.length_cons]
    rw [show t + (ops.length + 1) = t + 1 + ops.length by omega]
    exact this

theorem LRUReplacer.runRecorded_fst (ops : List ReplacerOp) :
    ∀ (r : LRUReplacer) (t : Nat) (log : List (frame_id_t × Nat)),
      (r.runRecorded t log ops).1 = (r.run ops).2 := by
  induction ops with
  | nil => intro r t log; rfl
  | cons op ops ih =>
    intro r t log
    simp only [LRUReplacer.runRecorded, LRUReplacer.run]
    exact ih _ _ _

theorem LRUReplacer.Recorded_oldest (r : LRUReplacer) (t : Nat) (log : List (frame_id_t × Nat))
    (h : r.Recorded t log) (v : frame_id_t) (hv : r.Victim.1 = some v) :
    ∃ u, (v, u) ∈ log ∧ ∀ e ∈ log, e.1 ≠ v → u < e.2 := by
  obtain ⟨_, hl, hp, _⟩ := h
  rw [LRUReplacer.Victim_fst, hl, List.getLast?_map] at hv
  cases hlast : log.getLast? with
  | none => rw [hlast] at hv; simp at hv
  | some e =>
    rw [hlast] at hv
    simp only [Option.map_some', Option.some.injEq] at hv
    have hs := List.dropLast_append_getLast? e hlast
    refine ⟨e.2, ?_, ?_⟩
    · rw [← hv, ← hs]; simp
    · intro e2 he2 hne
      rw [← hs] at he2 hp
      rcases List.mem_append.mp he2 with h1 | h1
      · rw [List.pairwise_append] at hp
        exact hp.2.2 e2 h1 e (by simp)
      · simp at h1
        rw [h1] at hne
        exact absurd hv hne

/-- C4: after every sequence of unpin, pin and victim calls on an initially empty replacer, with
`log` the record of which unpin call added each member: the members are the recorded frames;
`Victim` fails exactly when there is no member, and then changes nothing; otherwise it hands out
the member `v` whose recorded insertion is older than that of every other member, removes it
from the list and from the side table, and keeps the other members in their order. -/
theorem lru_victim_order (num_pages : Nat) (ops : List ReplacerOp) (r : LRUReplacer)
    (log : List (frame_id_t × Nat))
    (h : (LRUReplacer.create num_pages).runRecorded 0 [] ops = (r, log)) :
    r = ((LRUReplacer.create num_pages).run ops).2 ∧
    (∀ f, f ∈ r.lists_ ↔ ∃ t, (f, t) ∈ log) ∧
    (r.Victim.1 = none ↔ log = []) ∧
    (r.Victim.1 = none ↔ r.lists_ = []) ∧
    (r.Victim.1 = none → r.Victim.2 = r) ∧
    (∀ v, r.Victim.1 = some v →
      (∃ t, (v, t) ∈ log ∧ ∀ e ∈ log, e.1 ≠ v → t < e.2) ∧
      r.lists_ = r.Victim.2.lists_ ++ [v] ∧
      v ∉ r.Victim.2.lists_ ∧ v ∉ r.Victim.2.frames_ ∧
      (∀ f, f ≠ v → (f ∈ r.Victim.2.frames_ ↔ f ∈ r.frames_))) := by
  have hrec := LRUReplacer.Recorded_run ops (LRUReplacer.create num_pages) 0 []
    ⟨LRUReplacer.WF_create num_pages, rfl, List.Pairwise.nil, by simp⟩
  have hrun := LRUReplacer.runRecorded_fst ops (LRUReplacer.create num_pages) 0 []
  rw [h] at hrec hrun
  simp only at hrec hrun
  have hl := hrec.2.1
  refine ⟨hrun, ?_, ?_, LRUReplacer.Victim_none_iff r, LRUReplacer.Victim_none_state r, ?_⟩
  · intro f
    rw [hl]
    simp
  · rw [LRUReplacer.Victim_none_iff, hl]
    simp
  · intro v hv
    refine ⟨LRUReplacer.Recorded_oldest r _ log hrec v hv,
      LRUReplacer.Victim_some_split r v hv, ?_, ?_, ?_⟩
    · intro hmem
      exact ((LRUReplacer.Victim_mem r hrec.1 v hv v).1 hmem).2 rfl
    · rw [LRUReplacer.Victim_some_frames r v hv]
      simp
    · intro f hf
      rw [LRUReplacer.Victim_some_frames r v hv]
      simp [hf]

/-- Scenario of C4: after unpin(1), unpin(2), unpin(3), pin(2) the victims are 1, then 3, then
none; frame 1 was added by call 0 and frame 3 by call 2. -/
theorem lru_victim_order_witness :
    ((LRUReplacer.create 7).run
      [.unpin 1, .unpin 2, .unpin 3, .pin 2, .victim, .victim, .victim]).1
      = [none, none, none, none, some 1, some 3, none] ∧
    (LRUReplacer.create 7).runRecorded 0 [] [.unpin 1, .unpin 2, .unpin 3, .pin 2]
      = ({ lists_ := [3, 1], frames_ := [3, 1], num_pages_ := 2, max_pages_ := 7 },
          [(3, 2), (1, 0)]) ∧
    (∃ t, ((1 : frame_id_t), t) ∈ [((3 : frame_id_t), 2), (1, 0)] ∧
      ∀ e ∈ [((3 : frame_id_t), 2), (1, 0)], e.1 ≠ 1 → t < e.2) :=
  ⟨by decide, by decide,
    ((lru_victim_order 7 [.unpin 1, .unpin 2, .unpin 3, .pin 2]
      { lists_ := [3, 1], frames_ := [3, 1], num_pages_ := 2, max_pages_ := 7 }
      [(3, 2), (1, 0)] (by decide)).2.2.2.2.2 1 (by decide)).1⟩

/-! ## Frames of an instance -/

namespace BufferPoolManagerInstance

theorem pageAt_setPage_self (s : BufferPoolManagerInstance) (f : frame_id_t) (pg : Page)
    (h : f < s.pages_.length) : (s.setPage f pg).pageAt f = pg := by
  simp [pageAt, setPage, List.getD_eq_getElem?_getD, h]

theorem pageAt_setPage_ne (s : BufferPoolManagerInstance) (f g : frame_id_t) (pg : Page)
    (h : g ≠ f) : (s.setPage f pg).pageAt g = s.pageAt g := by
  simp [pageAt, setPage, List.getD_eq_getElem?_getD, List.getElem?_set_ne (Ne.symm h)]

theorem pageAt_of_length_le (s : BufferPoolManagerInstance) (f : frame_id_t)
    (h : s.pages_.length ≤ f) :
    s.pageAt f = { data_ := [], page_id_ := INVALID_PAGE_ID, pin_count_ := 0,
                   is_dirty_ := false } := by
  simp [pageAt, List.getD_eq_getElem?_getD, List.getElem?_eq_none h]

theorem lt_length_of_pin_ne_zero (s : BufferPoolManagerInstance) (f : frame_id_t)
    (h : (s.pageAt f).pin_count_ ≠ 0) : f < s.pages_.length := by
  by_contra hlt
  rw [pageAt_of_length_le s f (Nat.le_of_not_lt hlt)] at h
  exact h rfl

theorem setPage_pageAt (s : BufferPoolManagerInstance) (f : frame_id_t) :
    s.setPage f (s.pageAt f) = s := by
  have : s.pages_.set f (s.pageAt f) = s.pages_ := by
    by_cases h : f < s.pages_.length
    · apply List.ext_getElem?
      intro n
      by_cases hn : f = n
      · subst hn
        simp [pageAt, List.getD_eq_getElem?_getD, h]
      · simp [List.getElem?_set_ne hn]
    · exact List.set_eq_of_length_le (Nat.le_of_not_lt h)
  simp [setPage, this]

end BufferPoolManagerInstance

theorem PageTable.erase_cons (k : page_id_t) (v : frame_id_t) (rest : PageTable)
    (p : page_id_t) :
    PageTable.erase ((k, v) :: rest) p
      = if k = p then PageTable.erase rest p else (k, v) :: PageTable.erase rest p := by
  by_cases h : k = p <;> simp [PageTable.erase, List.filter_cons, h]

theorem PageTable.find_erase_self (t : PageTable) (p : page_id_t) :
    PageTable.find (PageTable.erase t p) p = none := by
  induction t with
  | nil => rfl
  | cons e rest ih =>
    obtain ⟨k, v⟩ := e
    rw [PageTable.erase_cons]
    by_cases h : k = p
    · simp only [h, if_true]; exact ih
    · simp only [h, if_false, PageTable.find]; exact ih

theorem PageTable.find_erase_ne (t : PageTable) (p q : page_id_t) (h : q ≠ p) :
    PageTable.find (PageTable.erase t p) q = PageTable.find t q := by
  induction t with
  | nil => rfl
  | cons e rest ih =>
    obtain ⟨k, v⟩ := e
    rw [PageTable.erase_cons]
    by_cases hk : k = p
    · have hkq : ¬ k = q := fun e => h (e.symm.trans hk)
      simp only [hk, if_true, PageTable.find]
      rw [hk] at hkq
      simp only [hkq, if_false]
      exact ih
    · simp only [hk, if_false, PageTable.find, ih]

theorem PageTable.find_assign_self (t : PageTable) (p : page_id_t) (f : frame_id_t) :
    PageTable.find (PageTable.assign t p f) p = some f := by
  simp [PageTable.assign, PageTable.find]

theorem PageTable.find_assign_ne (t : PageTable) (p q : page_id_t) (f : frame_id_t)
    (h : q ≠ p) : PageTable.find (PageTable.assign t p f) q = PageTable.find t q := by
  simp [PageTable.assign, PageTable.find, Ne.symm h, PageTable.find_erase_ne t p q h]

theorem PageTable.mem_of_find (t : PageTable) (p : page_id_t) (f : frame_id_t)
    (h : PageTable.find t p = some f) : (p, f) ∈ t := by
  induction t with
  | nil => simp [PageTable.find] at h
  | cons e rest ih =>
    obtain ⟨k, v⟩ := e
    by_cases hk : k = p
    · simp [PageTable.find, hk] at h
      simp [hk, h]
    · simp [PageTable.find, hk] at h
      exact List.mem_cons_of_mem _ (ih h)

/-! ## `UnpinPgImp` -/

theorem BufferPoolManagerInstance.UnpinPgImp_of_pos (s : BufferPoolManagerInstance)
    (page_id : page_id_t) (is_dirty : Bool) (f : frame_id_t)
    (hres : s.page_table_.find page_id = some f) (hpin : 0 < (s.pageAt f).pin_count_) :
    s.UnpinPgImp page_id is_dirty =
      (true,
        { s.setPage f { s.pageAt f with
                        pin_count_ := (s.pageAt f).pin_count_ - 1
                        is_dirty_ := ((s.pageAt f).is_dirty_ || is_dirty) } with
          replacer_ := if (s.pageAt f).pin_count_ - 1 = 0 then s.replacer_.Unpin f
                       else s.replacer_ }) := by
  unfold BufferPoolManagerInstance.UnpinPgImp
  simp only [hres]
  cases is_dirty
  · simp only [Bool.false_eq_true, if_false, not_le.mpr hpin, Bool.or_false]
    by_cases h0 : (s.pageAt f).pin_count_ - 1 = 0
    · simp [h0, BufferPoolManagerInstance.setPage]
    · simp [h0, BufferPoolManagerInstance.setPage]
  · simp only [if_true, not_le.mpr hpin, if_false, Bool.or_true]
    by_cases h0 : (s.pageAt f).pin_count_ - 1 = 0
    · simp [h0, BufferPoolManagerInstance.setPage]
    · simp [h0, BufferPoolManagerInstance.setPage]

theorem BufferPoolManagerInstance.UnpinPgImp_of_nonpos (s : BufferPoolManagerInstance)
    (page_id : page_id_t) (is_dirty : Bool) (f : frame_id_t)
    (hres : s.page_table_.find page_id = some f) (hpin : (s.pageAt f).pin_count_ ≤ 0) :
    s.UnpinPgImp page_id is_dirty =
      (false, s.setPage f (if is_dirty then { s.pageAt f with is_dirty_ := true }
                           else s.pageAt f)) := by
  unfold BufferPoolManagerInstance.UnpinPgImp
  simp only [hres]
  cases is_dirty
  · simp only [Bool.false_eq_true, if_false, hpin, if_true]
  · simp only [if_true, hpin]

theorem BufferPoolManagerInstance.UnpinPgImp_of_absent (s : BufferPoolManagerInstance)
    (page_id : page_id_t) (is_dirty : Bool) (hres : s.page_table_.find page_id = none) :
    s.UnpinPgImp page_id is_dirty = (false, s) := by
  unfold BufferPoolManagerInstance.UnpinPgImp
  simp only [hres]

/-- C6, as stated, fails: with page 0 resident, clean and unpinned, `unpin_page(0, true)` returns
false and yet changes the state, because it sets the frame's dirty flag. -/
theorem unpin_page_failure_changes_state :
    (pool1_new_unpin.pageAt 0).is_dirty_ = false ∧
    (pool1_new_unpin.UnpinPgImp 0 true).1 = false ∧
    ((pool1_new_unpin.UnpinPgImp 0 true).2.pageAt 0).is_dirty_ = true ∧
    (pool1_new_unpin.UnpinPgImp 0 true).2 ≠ pool1_new_unpin := by
  decide

/-- C6, amended: `unpin_page` returns false exactly when the page is not resident or the pin
count of its frame is at most zero; a call that returns false leaves the state unchanged when the
page is not resident or `dirty = false`; when the page is resident and `dirty = true` the only
change is that the dirty flag of the frame is set. -/
theorem unpin_page_failure (s : BufferPoolManagerInstance) (page_id : page_id_t)
    (is_dirty : Bool) :
    ((s.UnpinPgImp page_id is_dirty).1 = false ↔
      (s.page_table_.find page_id = none ∨
        ∃ f, s.page_table_.find page_id = some f ∧ (s.pageAt f).pin_count_ ≤ 0)) ∧
    ((s.UnpinPgImp page_id is_dirty).1 = false →
      (s.page_table_.find page_id = none ∨ is_dirty = false) →
      (s.UnpinPgImp page_id is_dirty).2 = s) ∧
    (∀ f, (s.UnpinPgImp page_id is_dirty).1 = false →
      s.page_table_.find page_id = some f → is_dirty = true →
      (s.UnpinPgImp page_id is_dirty).2
        = s.setPage f { s.pageAt f with is_dirty_ := true }) := by
  cases hres : s.page_table_.find page_id with
  | none =>
    rw [BufferPoolManagerInstance.UnpinPgImp_of_absent s page_id is_dirty hres]
    simp
  | some f =>
    by_cases hpin : (s.pageAt f).pin_count_ ≤ 0
    · rw [BufferPoolManagerInstance.UnpinPgImp_of_nonpos s page_id is_dirty f hres hpin]
      refine ⟨by simp [hpin], ?_, ?_⟩
      · intro _ hd
        rcases hd with hd | hd
        · simp at hd
        · simp [hd, BufferPoolManagerInstance.setPage_pageAt]
      · intro g _ hg hd
        simp only [Option.some.injEq] at hg
        simp [hd, hg]
    · rw [BufferPoolManagerInstance.UnpinPgImp_of_pos s page_id is_dirty f hres
        (not_le.mp hpin)]
      simp [hpin]

/-- Scenario of C6: with page 0 resident and unpinned, `unpin_page(0, false)` returns false and
changes nothing, and `unpin_page(0, true)` returns false and only sets the dirty flag. -/
theorem unpin_page_failure_witness :
    (pool1_new_unpin.UnpinPgImp 0 false).1 = false ∧
    (pool1_new_unpin.UnpinPgImp 0 false).2 = pool1_new_unpin ∧
    (pool1_new_unpin.UnpinPgImp 0 true).2
      = pool1_new_unpin.setPage 0 { pool1_new_unpin.pageAt 0 with is_dirty_ := true } :=
  ⟨by decide,
    (unpin_page_failure pool1_new_unpin 0 false).2.1 (by decide) (Or.inr rfl),
    (unpin_page_failure pool1_new_unpin 0 true).2.2 0 (by decide) (by decide) rfl⟩

/-- C7: for a resident page whose frame `f` has a positive pin count, `unpin_page` returns true,
decrements the pin count, ORs `dirty` into the dirty flag, applies the replacer's `Unpin` to `f`
exactly when the pin count reaches zero, and leaves the page id and bytes of the frame, the page
table, the free list, the disk, the id counter and every other frame unchanged. -/
theorem unpin_page_effect (s : BufferPoolManagerInstance) (page_id : page_id_t)
    (is_dirty : Bool) (f : frame_id_t) (hres : s.page_table_.find page_id = some f)
    (hpin : 0 < (s.pageAt f).pin_count_) :
    (s.UnpinPgImp page_id is_dirty).1 = true ∧
    ((s.UnpinPgImp page_id is_dirty).2.pageAt f).pin_count_ = (s.pageAt f).pin_count_ - 1 ∧
    ((s.UnpinPgImp page_id is_dirty).2.pageAt f).is_dirty_
      = ((s.pageAt f).is_dirty_ || is_dirty) ∧
    ((s.pageAt f).is_dirty_ = true →
      ((s.UnpinPgImp page_id is_dirty).2.pageAt f).is_dirty_ = true) ∧
    ((s.UnpinPgImp page_id is_dirty).2.pageAt f).data_ = (s.pageAt f).data_ ∧
    ((s.UnpinPgImp page_id is_dirty).2.pageAt f).page_id_ = (s.pageAt f).page_id_ ∧
    (s.UnpinPgImp page_id is_dirty).2.replacer_
      = (if (s.pageAt f).pin_count_ - 1 = 0 then s.replacer_.Unpin f else s.replacer_) ∧
    (s.UnpinPgImp page_id is_dirty).2.page_table_ = s.page_table_ ∧
    (s.UnpinPgImp page_id is_dirty).2.free_list_ = s.free_list_ ∧
    (s.UnpinPgImp page_id is_dirty).2.disk_manager_ = s.disk_manager_ ∧
    (s.UnpinPgImp page_id is_dirty).2.next_page_id_ = s.next_page_id_ ∧
    (∀ g, g ≠ f → (s.UnpinPgImp page_id is_dirty).2.pageAt g = s.pageAt g) := by
  have hlt : f < s.pages_.length :=
    BufferPoolManagerInstance.lt_length_of_pin_ne_zero s f (ne_of_gt hpin)
  rw [BufferPoolManagerInstance.UnpinPgImp_of_pos s page_id is_dirty f hres hpin]
  have hself : ∀ (pg : Page) (r : LRUReplacer),
      BufferPoolManagerInstance.pageAt { s.setPage f pg with replacer_ := r } f = pg := by
    intro pg r
    exact BufferPoolManagerInstance.pageAt_setPage_self s f pg hlt
  have hne : ∀ (pg : Page) (r : LRUReplacer) (g : frame_id_t), g ≠ f →
      BufferPoolManagerInstance.pageAt { s.setPage f pg with replacer_ := r } g
        = s.pageAt g := by
    intro pg r g hg
    exact BufferPoolManagerInstance.pageAt_setPage_ne s f g pg hg
  refine ⟨rfl, ?_, ?_, ?_, ?_, ?_, rfl, rfl, rfl, rfl, rfl, ?_⟩
  · simp only [hself]
  · simp only [hself]
  · intro hd
    simp only [hself, hd, Bool.true_or]
  · simp only [hself]
  · simp only [hself]
  · intro g hg
    simp only [hne _ _ g hg]

/-- Scenario of C7: page 0 is pinned once in frame 0; `unpin_page(0, true)` returns true, leaves
pin count 0 and a dirty frame, and the replacer now holds frame 0. -/
theorem unpin_page_effect_witness :
    pool1_new.page_table_.find 0 = some 0 ∧ 0 < (pool1_new.pageAt 0).pin_count_ ∧
    (pool1_new.UnpinPgImp 0 true).1 = true ∧
    ((pool1_new.UnpinPgImp 0 true).2.pageAt 0).pin_count_ = (pool1_new.pageAt 0).pin_count_ - 1 ∧
    (pool1_new.UnpinPgImp 0 true).2.replacer_.lists_ = [0] :=
  ⟨by decide, by decide, (unpin_page_effect pool1_new 0 true 0 (by decide) (by decide)).1,
    (unpin_page_effect pool1_new 0 true 0 (by decide) (by decide)).2.1, by decide⟩

/-! ## `DeletePgImp` -/

/-- C8: `delete_page` returns false exactly when the page is resident with a non-zero pin count,
and then changes nothing; on a non-resident page it returns true and changes nothing; after a
call that returns true the page is not resident and deleting it again returns true without
changing the state. -/
theorem delete_page_result (PAGE_SIZE : Nat) (s : BufferPoolManagerInstance)
    (page_id : page_id_t) :
    ((s.DeletePgImp PAGE_SIZE page_id).1 = false ↔
      ∃ f, s.page_table_.find page_id = some f ∧ (s.pageAt f).pin_count_ ≠ 0) ∧
    ((s.DeletePgImp PAGE_SIZE page_id).1 = false → (s.DeletePgImp PAGE_SIZE page_id).2 = s) ∧
    (s.page_table_.find page_id = none → s.DeletePgImp PAGE_SIZE page_id = (true, s)) ∧
    ((s.DeletePgImp PAGE_SIZE page_id).1 = true →
      (s.DeletePgImp PAGE_SIZE page_id).2.page_table_.find page_id = none ∧
      (s.DeletePgImp PAGE_SIZE page_id).2.DeletePgImp PAGE_SIZE page_id
        = (true, (s.DeletePgImp PAGE_SIZE page_id).2)) := by
  have habsent : ∀ t : BufferPoolManagerInstance, t.page_table_.find page_id = none →
      t.DeletePgImp PAGE_SIZE page_id = (true, t) := by
    intro t ht
    unfold BufferPoolManagerInstance.DeletePgImp
    simp only [ht]
  have hgone : (s.DeletePgImp PAGE_SIZE page_id).1 = true →
      (s.DeletePgImp PAGE_SIZE page_id).2.page_table_.find page_id = none := by
    cases hres : s.page_table_.find page_id with
    | none => intro _; rw [habsent s hres]; exact hres
    | some f =>
      unfold BufferPoolManagerInstance.DeletePgImp
      simp only [hres]
      by_cases hpin : (s.pageAt f).pin_count_ ≠ 0
      · simp [hpin]
      · simp only [hpin, if_false]
        intro _
        exact PageTable.find_erase_self _ page_id
  refine ⟨?_, ?_, habsent s, fun h => ⟨hgone h, habsent _ (hgone h)⟩⟩
  · cases hres : s.page_table_.find page_id with
    | none => rw [habsent s hres]; simp
    | some f =>
      unfold BufferPoolManagerInstance.DeletePgImp
      simp only [hres]
      by_cases hpin : (s.pageAt f).pin_count_ ≠ 0
      · simp [hpin]
      · simp only [hpin, if_false]
        simp
        exact not_not.mp hpin
  · cases hres : s.page_table_.find page_id with
    | none => rw [habsent s hres]; simp
    | some f =>
      unfold BufferPoolManagerInstance.DeletePgImp
      simp only [hres]
      by_cases hpin : (s.pageAt f).pin_count_ ≠ 0
      · simp [hpin]
      · simp [hpin]

/-- Scenario of C8: `new_page` gives page 0, pinned; `delete_page(0)` returns false and changes
nothing; after `unpin_page(0, false)`, `delete_page(0)` returns true and page 0 is gone. -/
theorem delete_page_result_witness :
    (pool1_new.DeletePgImp 4 0).1 = false ∧
    (pool1_new.DeletePgImp 4 0).2 = pool1_new ∧
    (pool1_new_unpin.DeletePgImp 4 0).1 = true ∧
    (pool1_new_unpin.DeletePgImp 4 0).2.page_table_.find 0 = none :=
  ⟨by decide, (delete_page_result 4 pool1_new 0).2.1 (by decide), by decide,
    ((delete_page_result 4 pool1_new_unpin 0).2.2.2 (by decide)).1⟩

/-! ## Reuse of a victim frame -/

theorem DiskManager.ReadPage_WritePage_self (PAGE_SIZE : Nat) (d : DiskManager)
    (p : page_id_t) (b : PageData) : (d.WritePage p b).ReadPage PAGE_SIZE p = b := by
  simp [DiskManager.ReadPage, DiskManager.WritePage, DiskManager.lastWrite]

theorem DiskManager.ReadPage_WritePage_ne (PAGE_SIZE : Nat) (d : DiskManager)
    (p q : page_id_t) (b : PageData) (h : q ≠ p) :
    (d.WritePage p b).ReadPage PAGE_SIZE q = d.ReadPage PAGE_SIZE q := by
  simp [DiskManager.ReadPage, DiskManager.WritePage, DiskManager.lastWrite, Ne.symm h]

theorem BufferPoolManagerInstance.NewPgImp_of_victim (s : BufferPoolManagerInstance)
    (f : frame_id_t) (hpin : s.pin_all = false) (hfree : s.free_list_ = [])
    (hv : s.replacer_.Victim.1 = some f) :
    s.NewPgImp =
      (some (f, s.next_page_id_),
        { s with
          replacer_ := s.replacer_.Victim.2
          next_page_id_ := s.next_page_id_ + (s.num_instances_ : Int)
          page_table_ :=
            (s.page_table_.erase (s.pageAt f).page_id_).assign s.next_page_id_ f
          pages_ := s.pages_.set f
            { s.pageAt f with
              page_id_ := s.next_page_id_
              pin_count_ := (s.pageAt f).pin_count_ + 1
              is_dirty_ := false }
          disk_manager_ :=
            (if (s.pageAt f).is_dirty_ then
              s.disk_manager_.WritePage (s.pageAt f).page_id_ (s.pageAt f).data_
             else s.disk_manager_).WritePage s.next_page_id_ (s.pageAt f).data_ }) := by
  have hpair : s.replacer_.Victim = (some f, s.replacer_.Victim.2) := by
    rw [← hv]
  unfold BufferPoolManagerInstance.NewPgImp
  rw [hpair]
  simp only [hpin, hfree, Bool.false_eq_true, if_false]
  cases hd : (s.pageAt f).is_dirty_ <;>
    simp [BufferPoolManagerInstance.AllocatePage, BufferPoolManagerInstance.setPage,
      BufferPoolManagerInstance.pageAt, hd] <;>
    simp [BufferPoolManagerInstance.pageAt] at hd <;> simp [hd]

theorem BufferPoolManagerInstance.FetchPgImp_of_victim (PAGE_SIZE : Nat)
    (s : BufferPoolManagerInstance) (page_id : page_id_t) (f : frame_id_t)
    (hres : s.page_table_.find page_id = none) (hfree : s.free_list_ = [])
    (hv : s.replacer_.Victim.1 = some f) :
    s.FetchPgImp PAGE_SIZE page_id =
      (some f,
        { s with
          replacer_ := s.replacer_.Victim.2
          page_table_ := (s.page_table_.erase (s.pageAt f).page_id_).assign page_id f
          pages_ := s.pages_.set f
            { data_ := (if (s.pageAt f).is_dirty_ then
                  s.disk_manager_.WritePage (s.pageAt f).page_id_ (s.pageAt f).data_
                 else s.disk_manager_).ReadPage PAGE_SIZE page_id
              page_id_ := page_id
              pin_count_ := (s.pageAt f).pin_count_ + 1
              is_dirty_ := false }
          disk_manager_ :=
            if (s.pageAt f).is_dirty_ then
              s.disk_manager_.WritePage (s.pageAt f).page_id_ (s.pageAt f).data_
            else s.disk_manager_ }) := by
  have hpair : s.replacer_.Victim = (some f, s.replacer_.Victim.2) := by
    rw [← hv]
  unfold BufferPoolManagerInstance.FetchPgImp
  rw [hpair]
  simp only [hres, hfree]
  cases hd : (s.pageAt f).is_dirty_ <;>
    simp [BufferPoolManagerInstance.setPage, BufferPoolManagerInstance.pageAt, hd] <;>
    simp [BufferPoolManagerInstance.pageAt] at hd <;> simp [hd]

theorem BufferPoolManagerInstance.pageAt_set_clean (s t : BufferPoolManagerInstance)
    (f : frame_id_t) (pg : Page) (hpg : pg.is_dirty_ = false)
    (ht : t.pages_ = s.pages_.set f pg) : (t.pageAt f).is_dirty_ = false := by
  by_cases h : f < s.pages_.length
  · simp [BufferPoolManagerInstance.pageAt, ht, List.getD_eq_getElem?_getD, h, hpg]
  · have hlen : t.pages_.length ≤ f := by
      rw [ht, List.length_set]; exact Nat.le_of_not_lt h
    rw [BufferPoolManagerInstance.pageAt_of_length_le t f hlen]

/-- C5, as stated, fails: page 0 was fetched without ever being allocated and sits unpinned in
frame 0; `new_page` reuses that frame as a victim while it holds page 0, allocates id 0 again,
and page 0 is still in the page table after the call. -/
theorem reuse_keeps_victim_id_resident :
    pool1_fetch_unpin.pin_all = false ∧
    pool1_fetch_unpin.free_list_ = [] ∧
    pool1_fetch_unpin.replacer_.Victim.1 = some 0 ∧
    (pool1_fetch_unpin.pageAt 0).page_id_ = 0 ∧
    pool1_fetch_unpin.NewPgImp.1 = some (0, 0) ∧
    pool1_fetch_unpin.NewPgImp.2.page_table_.find 0 = some 0 := by
  decide

/-- C5, amended: when `new_page` or `fetch_page` reuses the frame `f` handed out by the replacer
(empty free list), holding page `q` with bytes `B`: if the frame was dirty the disk image of `q`
after the call is `B`; if it was clean the disk image of `q` is unchanged, for `new_page` provided
`q` is not the id being allocated; `q` is no longer in the page table provided `q` is not the id
that the call installs (the allocated id for `new_page`, the requested id for `fetch_page`), and
the installed id is mapped to `f`; the frame is clean after the call. -/
theorem write_back_on_reuse (PAGE_SIZE : Nat) (s : BufferPoolManagerInstance) (f : frame_id_t)
    (hfree : s.free_list_ = []) (hv : s.replacer_.Victim.1 = some f) :
    (s.pin_all = false →
      s.NewPgImp.1 = some (f, s.next_page_id_) ∧
      ((s.pageAt f).is_dirty_ = true →
        s.NewPgImp.2.disk_manager_.ReadPage PAGE_SIZE (s.pageAt f).page_id_
          = (s.pageAt f).data_) ∧
      ((s.pageAt f).is_dirty_ = false → (s.pageAt f).page_id_ ≠ s.next_page_id_ →
        s.NewPgImp.2.disk_manager_.ReadPage PAGE_SIZE (s.pageAt f).page_id_
          = s.disk_manager_.ReadPage PAGE_SIZE (s.pageAt f).page_id_) ∧
      ((s.pageAt f).page_id_ ≠ s.next_page_id_ →
        s.NewPgImp.2.page_table_.find (s.pageAt f).page_id_ = none) ∧
      s.NewPgImp.2.page_table_.find s.next_page_id_ = some f ∧
      (s.NewPgImp.2.pageAt f).is_dirty_ = false) ∧
    (∀ page_id, s.page_table_.find page_id = none →
      (s.FetchPgImp PAGE_SIZE page_id).1 = some f ∧
      ((s.pageAt f).is_dirty_ = true →
        (s.FetchPgImp PAGE_SIZE page_id).2.disk_manager_.ReadPage PAGE_SIZE
          (s.pageAt f).page_id_ = (s.pageAt f).data_) ∧
      ((s.pageAt f).is_dirty_ = false →
        (s.FetchPgImp PAGE_SIZE page_id).2.disk_manager_ = s.disk_manager_) ∧
      ((s.pageAt f).page_id_ ≠ page_id →
        (s.FetchPgImp PAGE_SIZE page_id).2.page_table_.find (s.pageAt f).page_id_ = none) ∧
      (s.FetchPgImp PAGE_SIZE page_id).2.page_table_.find page_id = some f ∧
      ((s.FetchPgImp PAGE_SIZE page_id).2.pageAt f).is_dirty_ = false) := by
  refine ⟨?_, ?_⟩
  · intro hpin
    rw [BufferPoolManagerInstance.NewPgImp_of_victim s f hpin hfree hv]
    refine ⟨rfl, ?_, ?_, ?_, ?_, ?_⟩
    · intro hd
      simp only [hd, if_true]
      by_cases hq : (s.pageAt f).page_id_ = s.next_page_id_
      · rw [hq]; exact DiskManager.ReadPage_WritePage_self _ _ _ _
      · rw [DiskManager.ReadPage_WritePage_ne _ _ _ _ _ hq]
        exact DiskManager.ReadPage_WritePage_self _ _ _ _
    · intro hd hq
      simp only [hd, Bool.false_eq_true, if_false]
      exact DiskManager.ReadPage_WritePage_ne _ _ _ _ _ hq
    · intro hq
      simp only []
      rw [PageTable.find_assign_ne _ _ _ _ hq]
      exact PageTable.find_erase_self _ _
    · exact PageTable.find_assign_self _ _ _
    · exact BufferPoolManagerInstance.pageAt_set_clean s _ f _ rfl rfl
  · intro page_id hres
    rw [BufferPoolManagerInstance.FetchPgImp_of_victim PAGE_SIZE s page_id f hres hfree hv]
    refine ⟨rfl, ?_, ?_, ?_, ?_, ?_⟩
    · intro hd
      simp only [hd, if_true]
      exact DiskManager.ReadPage_WritePage_self _ _ _ _
    · intro hd
      simp only [hd, Bool.false_eq_true, if_false]
    · intro hq
      simp only []
      rw [PageTable.find_assign_ne _ _ _ _ hq]
      exact PageTable.find_erase_self _ _
    · exact PageTable.find_assign_self _ _ _
    · exact BufferPoolManagerInstance.pageAt_set_clean s _ f _ rfl rfl

/-- Scenario of C5: frame 0 holds page 7 with bytes 1, 2, 3, 4, dirty and unpinned; `new_page`
reuses it, the bytes are on disk under id 7, and page 7 has left the page table.  Also the
scenario with ten frames: all pinned, `unpin_page(0, true)`, then `new_page` succeeds with id 10
and the bytes of page 0 are on disk. -/
theorem write_back_on_reuse_witness :
    pool1_disk7_dirty.free_list_ = [] ∧
    pool1_disk7_dirty.replacer_.Victim.1 = some 0 ∧
    (pool1_disk7_dirty.pageAt 0).page_id_ = 7 ∧
    (pool1_disk7_dirty.pageAt 0).data_ = [1, 2, 3, 4] ∧
    pool1_disk7_dirty.NewPgImp.2.disk_manager_.ReadPage 4 (pool1_disk7_dirty.pageAt 0).page_id_
      = (pool1_disk7_dirty.pageAt 0).data_ ∧
    pool1_disk7_dirty.NewPgImp.2.page_table_.find (pool1_disk7_dirty.pageAt 0).page_id_
      = none ∧
    ((pool10_full.step 4 (.unpin_page 0 true)).NewPgImp.1 = some (0, 10) ∧
      (pool10_full.step 4 (.unpin_page 0 true)).NewPgImp.2.disk_manager_.ReadPage 4 0
        = (pool10_full.pageAt 0).data_) :=
  ⟨by decide, by decide, by decide, by decide,
    ((write_back_on_reuse 4 pool1_disk7_dirty 0 (by decide) (by decide)).1 (by decide)).2.1
      (by decide),
    ((write_back_on_reuse 4 pool1_disk7_dirty 0 (by decide) (by decide)).1 (by decide)).2.2.2.1
      (by decide),
    by decide⟩

/-! ## The paths of `NewPgImp`, `FetchPgImp`, `DeletePgImp` and `FlushPgImp` -/

theorem BufferPoolManagerInstance.NewPgImp_of_pin_all (s : BufferPoolManagerInstance)
    (hpin : s.pin_all = true) : s.NewPgImp = (none, s) := by
  unfold BufferPoolManagerInstance.NewPgImp
  simp only [hpin, if_true]

theorem BufferPoolManagerInstance.NewPgImp_of_free (s : BufferPoolManagerInstance)
    (f : frame_id_t) (rest : List frame_id_t) (hpin : s.pin_all = false)
    (hfree : s.free_list_ = f :: rest) :
    s.NewPgImp =
      (some (f, s.next_page_id_),
        { s with
          next_page_id_ := s.next_page_id_ + (s.num_instances_ : Int)
          free_list_ := rest
          pages_ := s.pages_.set f
            { s.pageAt f with
              page_id_ := s.next_page_id_
              pin_count_ := (s.pageAt f).pin_count_ + 1
              is_dirty_ := false }
          disk_manager_ := s.disk_manager_.WritePage s.next_page_id_ (s.pageAt f).data_
          page_table_ := s.page_table_.assign s.next_page_id_ f }) := by
  unfold BufferPoolManagerInstance.NewPgImp
  simp only [hpin, hfree, Bool.false_eq_true, if_false]
  simp [BufferPoolManagerInstance.AllocatePage, BufferPoolManagerInstance.setPage,
    BufferPoolManagerInstance.pageAt]

theorem BufferPoolManagerInstance.NewPgImp_of_empty (s : BufferPoolManagerInstance)
    (hfree : s.free_list_ = []) (hv : s.replacer_.Victim.1 = none) :
    s.NewPgImp = (none, s) := by
  have hpair : s.replacer_.Victim = (none, s.replacer_) :=
    Prod.ext hv (LRUReplacer.Victim_none_state s.replacer_ hv)
  unfold BufferPoolManagerInstance.NewPgImp
  rw [hpair]
  simp only [hfree]
  rw [← hfree]
  split <;> rfl

theorem BufferPoolManagerInstance.FetchPgImp_of_resident (PAGE_SIZE : Nat)
    (s : BufferPoolManagerInstance) (page_id : page_id_t) (f : frame_id_t)
    (hres : s.page_table_.find page_id = some f) :
    s.FetchPgImp PAGE_SIZE page_id =
      (some f,
        { s with
          replacer_ := s.replacer_.Pin f
          pages_ := s.pages_.set f
            { s.pageAt f with pin_count_ := (s.pageAt f).pin_count_ + 1 } }) := by
  unfold BufferPoolManagerInstance.FetchPgImp
  simp only [hres]
  simp [BufferPoolManagerInstance.setPage, BufferPoolManagerInstance.pageAt]

theorem BufferPoolManagerInstance.FetchPgImp_of_free (PAGE_SIZE : Nat)
    (s : BufferPoolManagerInstance) (page_id : page_id_t) (f : frame_id_t)
    (rest : List frame_id_t) (hres : s.page_table_.find page_id = none)
    (hfree : s.free_list_ = f :: rest) :
    s.FetchPgImp PAGE_SIZE page_id =
      (some f,
        { s with
          free_list_ := rest
          pages_ := s.pages_.set f
            { data_ := s.disk_manager_.ReadPage PAGE_SIZE page_id
              page_id_ := page_id
              pin_count_ := (s.pageAt f).pin_count_ + 1
              is_dirty_ := false }
          page_table_ := s.page_table_.assign page_id f }) := by
  unfold BufferPoolManagerInstance.FetchPgImp
  simp only [hres, hfree]
  simp [BufferPoolManagerInstance.setPage, BufferPoolManagerInstance.pageAt]

theorem BufferPoolManagerInstance.FetchPgImp_of_empty (PAGE_SIZE : Nat)
    (s : BufferPoolManagerInstance) (page_id : page_id_t)
    (hres : s.page_table_.find page_id = none) (hfree : s.free_list_ = [])
    (hv : s.replacer_.Victim.1 = none) :
    s.FetchPgImp PAGE_SIZE page_id = (none, s) := by
  have hpair : s.replacer_.Victim = (none, s.replacer_) :=
    Prod.ext hv (LRUReplacer.Victim_none_state s.replacer_ hv)
  unfold BufferPoolManagerInstance.FetchPgImp
  rw [hpair]
  simp only [hres, hfree]
  rw [← hfree]

theorem BufferPoolManagerInstance.DeletePgImp_of_absent (PAGE_SIZE : Nat)
    (s : BufferPoolManagerInstance) (page_id : page_id_t)
    (hres : s.page_table_.find page_id = none) :
    s.DeletePgImp PAGE_SIZE page_id = (true, s) := by
  unfold BufferPoolManagerInstance.DeletePgImp
  simp only [hres]

theorem BufferPoolManagerInstance.DeletePgImp_of_pinned (PAGE_SIZE : Nat)
    (s : BufferPoolManagerInstance) (page_id : page_id_t) (f : frame_id_t)
    (hres : s.page_table_.find page_id = some f) (hpin : (s.pageAt f).pin_count_ ≠ 0) :
    s.DeletePgImp PAGE_SIZE page_id = (false, s) := by
  unfold BufferPoolManagerInstance.DeletePgImp
  simp only [hres, hpin, ne_eq, not_false_eq_true, if_true]

theorem BufferPoolManagerInstance.DeletePgImp_of_unpinned (PAGE_SIZE : Nat)
    (s : BufferPoolManagerInstance) (page_id : page_id_t) (f : frame_id_t)
    (hres : s.page_table_.find page_id = some f) (hpin : (s.pageAt f).pin_count_ = 0) :
    s.DeletePgImp PAGE_SIZE page_id =
      (true,
        { s with
          disk_manager_ :=
            if (s.pageAt f).is_dirty_ then
              s.disk_manager_.WritePage page_id (List.replicate PAGE_SIZE 0)
            else s.disk_manager_
          pages_ := s.pages_.set f
            { data_ := List.replicate PAGE_SIZE 0
              page_id_ := (s.pageAt f).page_id_
              pin_count_ := 0
              is_dirty_ := false }
          free_list_ := s.free_list_ ++ [f]
          page_table_ := s.page_table_.erase page_id }) := by
  unfold BufferPoolManagerInstance.DeletePgImp
  simp only [hres, hpin, ne_eq, not_true_eq_false, if_false]
  cases hd : (s.pageAt f).is_dirty_ <;>
    simp [BufferPoolManagerInstance.setPage, BufferPoolManagerInstance.pageAt, hd]

theorem BufferPoolManagerInstance.FlushPgImp_of_resident (s : BufferPoolManagerInstance)
    (page_id : page_id_t) (f : frame_id_t) (hres : s.page_table_.find page_id = some f) :
    s.FlushPgImp page_id =
      (true, { s with disk_manager_ := s.disk_manager_.WritePage page_id (s.pageAt f).data_ }) := by
  unfold BufferPoolManagerInstance.FlushPgImp
  simp only [hres]

theorem BufferPoolManagerInstance.FlushPgImp_of_absent (s : BufferPoolManagerInstance)
    (page_id : page_id_t) (hres : s.page_table_.find page_id = none) :
    s.FlushPgImp page_id = (false, s) := by
  unfold BufferPoolManagerInstance.FlushPgImp
  simp only [hres]

/-! ## The invariant is kept by every operation -/

namespace BufferPoolManagerInstance

theorem pageAt_of_set (s t : BufferPoolManagerInstance) (f : frame_id_t) (pg : Page)
    (ht : t.pages_ = s.pages_.set f pg) (g : frame_id_t) :
    t.pageAt g = if g = f ∧ f < s.pages_.length then pg else s.pageAt g := by
  by_cases hg : g = f
  · subst hg
    by_cases hl : g < s.pages_.length
    · simp [pageAt, ht, List.getD_eq_getElem?_getD, hl]
    · simp only [hl, and_false, if_false]
      have h1 : t.pages_ = s.pages_ := by
        rw [ht]; exact List.set_eq_of_length_le (Nat.le_of_not_lt hl)
      simp [pageAt, h1]
  · simp only [hg, false_and, if_false]
    simp [pageAt, ht, List.getD_eq_getElem?_getD, List.getElem?_set_ne (Ne.symm hg)]

theorem Inv_create (PAGE_SIZE pool_size num_instances instance_index : Nat)
    (disk_manager : DiskManager) :
    (create PAGE_SIZE pool_size num_instances instance_index disk_manager).Inv := by
  refine ⟨by simp [create], by simp [create], ?_, by simp [create, LRUReplacer.create], ?_,
    LRUReplacer.WF_create pool_size, ?_⟩
  · intro f hf
    simpa [create] using hf
  · intro f
    simp only [pageAt, create, List.getD_eq_getElem?_getD]
    by_cases hf : f < pool_size
    · simp [List.getElem?_replicate, hf, Page.create]
    · simp [List.getElem?_replicate, hf]
  · intro f hf _
    left
    simpa [create] using hf

theorem Inv_of_fields (s t : BufferPoolManagerInstance) (hs : s.Inv)
    (h1 : t.pool_size_ = s.pool_size_) (h2 : t.pages_ = s.pages_)
    (h3 : t.page_table_ = s.page_table_) (h4 : t.free_list_ = s.free_list_)
    (h5 : t.replacer_ = s.replacer_) : t.Inv := by
  have hp : ∀ f, t.pageAt f = s.pageAt f := by
    intro f; simp [pageAt, h2]
  refine ⟨by rw [h1, h2]; exact hs.len, by rw [h1, h3]; exact hs.table,
    by rw [h1, h4]; exact hs.free, by rw [h1, h5]; exact hs.repl, ?_, by rw [h5]; exact hs.wf, ?_⟩
  · intro f; rw [hp]; exact hs.pin f
  · intro f hf h0
    rw [h1] at hf
    rw [hp] at h0
    rw [h4, h5]
    exact hs.cover f hf h0

theorem Inv_update (s t : BufferPoolManagerInstance) (hs : s.Inv) (f : frame_id_t) (pg : Page)
    (hf : f < s.pool_size_)
    (hpool : t.pool_size_ = s.pool_size_)
    (hpages : t.pages_ = s.pages_.set f pg)
    (hpin : 0 ≤ pg.pin_count_)
    (htable : ∀ e ∈ t.page_table_, e ∈ s.page_table_ ∨ e.2 = f)
    (hfree : ∀ g ∈ t.free_list_, g ∈ s.free_list_ ∨ g = f)
    (hwf : t.replacer_.WF)
    (hrepl : ∀ g ∈ t.replacer_.lists_, g ∈ s.replacer_.lists_ ∨ g = f)
    (hcover_f : pg.pin_count_ = 0 → f ∈ t.free_list_ ∨ f ∈ t.replacer_.lists_)
    (hcover : ∀ g, g ≠ f → (g ∈ s.free_list_ ∨ g ∈ s.replacer_.lists_) →
      (g ∈ t.free_list_ ∨ g ∈ t.replacer_.lists_)) : t.Inv := by
  have hlen : f < s.pages_.length := by rw [hs.len]; exact hf
  have hp := pageAt_of_set s t f pg hpages
  refine ⟨?_, ?_, ?_, ?_, ?_, hwf, ?_⟩
  · rw [hpages, List.length_set, hpool]; exact hs.len
  · intro e he
    rw [hpool]
    rcases htable e he with h | h
    · exact hs.table e h
    · rw [h]; exact hf
  · intro g hg
    rw [hpool]
    rcases hfree g hg with h | h
    · exact hs.free g h
    · rw [h]; exact hf
  · intro g hg
    rw [hpool]
    rcases hrepl g hg with h | h
    · exact hs.repl g h
    · rw [h]; exact hf
  · intro g
    rw [hp g]
    split
    · exact hpin
    · exact hs.pin g
  · intro g hg h0
    rw [hpool] at hg
    rw [hp g] at h0
    by_cases hgf : g = f
    · simp only [hgf, hlen, and_self, if_true] at h0
      rw [hgf]
      exact hcover_f h0
    · simp only [hgf, false_and, if_false] at h0
      exact hcover g hgf (hs.cover g hg h0)

theorem lt_of_find (s : BufferPoolManagerInstance) (hs : s.Inv) (page_id : page_id_t)
    (f : frame_id_t) (h : s.page_table_.find page_id = some f) : f < s.pool_size_ :=
  hs.table (page_id, f) (PageTable.mem_of_find _ _ _ h)

theorem mem_erase (t : PageTable) (p : page_id_t) (e : page_id_t × frame_id_t)
    (h : e ∈ PageTable.erase t p) : e ∈ t :=
  List.mem_of_mem_filter h

theorem mem_assign (t : PageTable) (p : page_id_t) (f : frame_id_t)
    (e : page_id_t × frame_id_t) (h : e ∈ PageTable.assign t p f) : e ∈ t ∨ e.2 = f := by
  rcases List.mem_cons.mp h with h1 | h1
  · right; rw [h1]
  · left; exact mem_erase t p e h1

theorem Inv_NewPgImp (s : BufferPoolManagerInstance) (hs : s.Inv) : s.NewPgImp.2.Inv := by
  by_cases hpa : s.pin_all = true
  · rw [NewPgImp_of_pin_all s hpa]; exact hs
  · have hpa2 : s.pin_all = false := by simpa using hpa
    cases hfree : s.free_list_ with
    | cons f rest =>
      rw [NewPgImp_of_free s f rest hpa2 hfree]
      have hf : f < s.pool_size_ := hs.free f (by rw [hfree]; exact List.mem_cons_self _ _)
      have hp0 := hs.pin f
      refine Inv_update s _ hs f _ hf rfl rfl ?_ ?_ ?_ hs.wf ?_ ?_ ?_
      · show 0 ≤ (s.pageAt f).pin_count_ + 1
        omega
      · intro e he
        exact mem_assign _ _ _ e he
      · intro g hg
        left; rw [hfree]; exact List.mem_cons_of_mem _ hg
      · intro g hg
        exact Or.inl hg
      · intro h0
        change (s.pageAt f).pin_count_ + 1 = 0 at h0
        omega
      · intro g hgf hg
        rcases hg with hg | hg
        · left
          rw [hfree] at hg
          rcases List.mem_cons.mp hg with h1 | h1
          · exact absurd h1 hgf
          · exact h1
        · exact Or.inr hg
    | nil =>
      cases hv : s.replacer_.Victim.1 with
      | none => rw [NewPgImp_of_empty s hfree hv]; exact hs
      | some f =>
        rw [NewPgImp_of_victim s f hpa2 hfree hv]
        have hfl : f ∈ s.replacer_.lists_ := by
          rw [LRUReplacer.Victim_some_split _ f hv]; simp
        have hf : f < s.pool_size_ := hs.repl f hfl
        have hp0 := hs.pin f
        refine Inv_update s _ hs f _ hf rfl rfl ?_ ?_ ?_ (LRUReplacer.WF_Victim _ hs.wf) ?_ ?_ ?_
        · show 0 ≤ (s.pageAt f).pin_count_ + 1
          omega
        · intro e he
          rcases mem_assign _ _ _ e he with h | h
          · exact Or.inl (mem_erase _ _ e h)
          · exact Or.inr h
        · intro g hg
          exact Or.inl hg
        · intro g hg
          exact Or.inl ((LRUReplacer.Victim_mem _ hs.wf f hv g).1 hg).1
        · intro h0
          change (s.pageAt f).pin_count_ + 1 = 0 at h0
          omega
        · intro g hgf hg
          rcases hg with hg | hg
          · rw [hfree] at hg; simp at hg
          · exact Or.inr ((LRUReplacer.Victim_mem _ hs.wf f hv g).2 ⟨hg, hgf⟩)

end BufferPoolManagerInstance

namespace BufferPoolManagerInstance

theorem Inv_FetchPgImp (PAGE_SIZE : Nat) (s : BufferPoolManagerInstance) (hs : s.Inv)
    (page_id : page_id_t) : (s.FetchPgImp PAGE_SIZE page_id).2.Inv := by
  cases hres : s.page_table_.find page_id with
  | some f =>
    rw [FetchPgImp_of_resident PAGE_SIZE s page_id f hres]
    have hf : f < s.pool_size_ := lt_of_find s hs page_id f hres
    have hp0 := hs.pin f
    refine Inv_update s _ hs f _ hf rfl rfl ?_ ?_ ?_ (LRUReplacer.WF_Pin _ hs.wf f) ?_ ?_ ?_
    · show 0 ≤ (s.pageAt f).pin_count_ + 1
      omega
    · intro e he
      exact Or.inl he
    · intro g hg
      exact Or.inl hg
    · intro g hg
      exact Or.inl ((LRUReplacer.Pin_mem _ hs.wf f g).1 hg).1
    · intro h0
      change (s.pageAt f).pin_count_ + 1 = 0 at h0
      omega
    · intro g hgf hg
      rcases hg with hg | hg
      · exact Or.inl hg
      · exact Or.inr ((LRUReplacer.Pin_mem _ hs.wf f g).2 ⟨hg, hgf⟩)
  | none =>
    cases hfree : s.free_list_ with
    | cons f rest =>
      rw [FetchPgImp_of_free PAGE_SIZE s page_id f rest hres hfree]
      have hf : f < s.pool_size_ := hs.free f (by rw [hfree]; exact List.mem_cons_self _ _)
      have hp0 := hs.pin f
      refine Inv_update s _ hs f _ hf rfl rfl ?_ ?_ ?_ hs.wf ?_ ?_ ?_
      · show 0 ≤ (s.pageAt f).pin_count_ + 1
        omega
      · intro e he
        exact mem_assign _ _ _ e he
      · intro g hg
        left; rw [hfree]; exact List.mem_cons_of_mem _ hg
      · intro g hg
        exact Or.inl hg
      · intro h0
        change (s.pageAt f).pin_count_ + 1 = 0 at h0
        omega
      · intro g hgf hg
        rcases hg with hg | hg
        · left
          rw [hfree] at hg
          rcases List.mem_cons.mp hg with h1 | h1
          · exact absurd h1 hgf
          · exact h1
        · exact Or.inr hg
    | nil =>
      cases hv : s.replacer_.Victim.1 with
      | none => rw [FetchPgImp_of_empty PAGE_SIZE s page_id hres hfree hv]; exact hs
      | some f =>
        rw [FetchPgImp_of_victim PAGE_SIZE s page_id f hres hfree hv]
        have hfl : f ∈ s.replacer_.lists_ := by
          rw [LRUReplacer.Victim_some_split _ f hv]; simp
        have hf : f < s.pool_size_ := hs.repl f hfl
        have hp0 := hs.pin f
        refine Inv_update s _ hs f _ hf rfl rfl ?_ ?_ ?_ (LRUReplacer.WF_Victim _ hs.wf) ?_ ?_ ?_
        · show 0 ≤ (s.pageAt f).pin_count_ + 1
          omega
        · intro e he
          rcases mem_assign _ _ _ e he with h | h
          · exact Or.inl (mem_erase _ _ e h)
          · exact Or.inr h
        · intro g hg
          exact Or.inl hg
        · intro g hg
          exact Or.inl ((LRUReplacer.Victim_mem _ hs.wf f hv g).1 hg).1
        · intro h0
          change (s.pageAt f).pin_count_ + 1 = 0 at h0
          omega
        · intro g hgf hg
          rcases hg with hg | hg
          · rw [hfree] at hg; simp at hg
          · exact Or.inr ((LRUReplacer.Victim_mem _ hs.wf f hv g).2 ⟨hg, hgf⟩)

theorem Inv_UnpinPgImp (s : BufferPoolManagerInstance) (hs : s.Inv) (page_id : page_id_t)
    (is_dirty : Bool) : (s.UnpinPgImp page_id is_dirty).2.Inv := by
  cases hres : s.page_table_.find page_id with
  | none => rw [UnpinPgImp_of_absent s page_id is_dirty hres]; exact hs
  | some f =>
    have hf : f < s.pool_size_ := lt_of_find s hs page_id f hres
    by_cases hpin : (s.pageAt f).pin_count_ ≤ 0
    · rw [UnpinPgImp_of_nonpos s page_id is_dirty f hres hpin]
      have h0 : (s.pageAt f).pin_count_ = 0 := le_antisymm hpin (hs.pin f)
      refine Inv_update s _ hs f _ hf rfl rfl ?_ (fun e he => Or.inl he)
        (fun g hg => Or.inl hg) hs.wf (fun g hg => Or.inl hg) ?_ (fun g _ hg => hg)
      · cases is_dirty <;> simp [h0]
      · intro _
        exact hs.cover f hf h0
    · rw [UnpinPgImp_of_pos s page_id is_dirty f hres (not_le.mp hpin)]
      by_cases hz : (s.pageAt f).pin_count_ - 1 = 0
      · simp only [hz, if_true]
        refine Inv_update s _ hs f _ hf rfl rfl ?_ (fun e he => Or.inl he)
          (fun g hg => Or.inl hg) (LRUReplacer.WF_Unpin _ hs.wf f) ?_ ?_ ?_
        · exact le_refl (0 : Int)
        · intro g hg
          rcases (LRUReplacer.Unpin_mem _ hs.wf f g).1 hg with h | h
          · exact Or.inr h
          · exact Or.inl h
        · intro _
          exact Or.inr ((LRUReplacer.Unpin_mem _ hs.wf f f).2 (Or.inl rfl))
        · intro g _ hg
          rcases hg with hg | hg
          · exact Or.inl hg
          · exact Or.inr ((LRUReplacer.Unpin_mem _ hs.wf f g).2 (Or.inr hg))
      · simp only [hz, if_false]
        refine Inv_update s _ hs f _ hf rfl rfl ?_ (fun e he => Or.inl he)
          (fun g hg => Or.inl hg) hs.wf (fun g hg => Or.inl hg) ?_ (fun g _ hg => hg)
        · show 0 ≤ (s.pageAt f).pin_count_ - 1
          omega
        · intro h0
          exact absurd h0 hz

theorem Inv_DeletePgImp (PAGE_SIZE : Nat) (s : BufferPoolManagerInstance) (hs : s.Inv)
    (page_id : page_id_t) : (s.DeletePgImp PAGE_SIZE page_id).2.Inv := by
  cases hres : s.page_table_.find page_id with
  | none => rw [DeletePgImp_of_absent PAGE_SIZE s page_id hres]; exact hs
  | some f =>
    have hf : f < s.pool_size_ := lt_of_find s hs page_id f hres
    by_cases hpin : (s.pageAt f).pin_count_ = 0
    · rw [DeletePgImp_of_unpinned PAGE_SIZE s page_id f hres hpin]
      refine Inv_update s _ hs f _ hf rfl rfl (le_refl 0) ?_ ?_ hs.wf
        (fun g hg => Or.inl hg) ?_ ?_
      · intro e he
        exact Or.inl (mem_erase _ _ e he)
      · intro g hg
        rcases List.mem_append.mp hg with h | h
        · exact Or.inl h
        · right; simpa using h
      · intro _
        left
        exact List.mem_append_right _ (List.mem_singleton_self f)
      · intro g _ hg
        rcases hg with hg | hg
        · exact Or.inl (List.mem_append_left _ hg)
        · exact Or.inr hg
    · rw [DeletePgImp_of_pinned PAGE_SIZE s page_id f hres hpin]; exact hs

theorem Inv_FlushPgImp (s : BufferPoolManagerInstance) (hs : s.Inv) (page_id : page_id_t) :
    (s.FlushPgImp page_id).2.Inv := by
  cases hres : s.page_table_.find page_id with
  | none => rw [FlushPgImp_of_absent s page_id hres]; exact hs
  | some f =>
    rw [FlushPgImp_of_resident s page_id f hres]
    exact Inv_of_fields s _ hs rfl rfl rfl rfl rfl

theorem Inv_step (PAGE_SIZE : Nat) (s : BufferPoolManagerInstance) (hs : s.Inv) (op : PoolOp) :
    (s.step PAGE_SIZE op).Inv := by
  cases op with
  | new_page => exact Inv_NewPgImp s hs
  | fetch_page p => exact Inv_FetchPgImp PAGE_SIZE s hs p
  | unpin_page p d => exact Inv_UnpinPgImp s hs p d
  | flush_page p => exact Inv_FlushPgImp s hs p
  | delete_page p => exact Inv_DeletePgImp PAGE_SIZE s hs p

end BufferPoolManagerInstance

theorem Reachable.inv {PAGE_SIZE pool_size num_instances instance_index : Nat}
    {disk_manager : DiskManager} {s : BufferPoolManagerInstance}
    (h : Reachable PAGE_SIZE pool_size num_instances instance_index disk_manager s) : s.Inv := by
  induction h with
  | init => exact BufferPoolManagerInstance.Inv_create _ _ _ _ _
  | step s op _ ih => exact BufferPoolManagerInstance.Inv_step PAGE_SIZE s ih op

theorem Reachable.after_run {PAGE_SIZE pool_size num_instances instance_index : Nat}
    {disk_manager : DiskManager} (ops : List PoolOp) :
    ∀ {s : BufferPoolManagerInstance},
      Reachable PAGE_SIZE pool_size num_instances instance_index disk_manager s →
      Reachable PAGE_SIZE pool_size num_instances instance_index disk_manager
        (s.run PAGE_SIZE ops) := by
  induction ops with
  | nil => intro s h; exact h
  | cons op ops ih => intro s h; exact ih (Reachable.step s op h)

/-! ## Exhaustion of the pool and the pin/unpin round trip -/

theorem BufferPoolManagerInstance.pin_all_iff (s : BufferPoolManagerInstance) :
    s.pin_all = true ↔ ∀ f, f < s.pool_size_ → (s.pageAt f).pin_count_ ≠ 0 := by
  simp [BufferPoolManagerInstance.pin_all, List.all_eq_true]

/-- C2: in every state reachable from a fresh instance, `new_page` returns nothing if and only if
every frame has a positive pin count, and a `new_page` that returns nothing leaves the whole
state (page table, free list, replacer, frames, disk, id counter) unchanged. -/
theorem new_page_none_iff_all_pinned (PAGE_SIZE pool_size num_instances instance_index : Nat)
    (disk_manager : DiskManager) (s : BufferPoolManagerInstance)
    (h : Reachable PAGE_SIZE pool_size num_instances instance_index disk_manager s) :
    (s.NewPgImp.1 = none ↔ ∀ f, f < s.pool_size_ → 0 < (s.pageAt f).pin_count_) ∧
    (s.NewPgImp.1 = none → s.NewPgImp.2 = s) := by
  have hs := h.inv
  by_cases hpa : s.pin_all = true
  · rw [BufferPoolManagerInstance.NewPgImp_of_pin_all s hpa]
    refine ⟨⟨fun _ f hf => ?_, fun _ => rfl⟩, fun _ => rfl⟩
    exact lt_of_le_of_ne (hs.pin f)
      (Ne.symm ((BufferPoolManagerInstance.pin_all_iff s).1 hpa f hf))
  · have hpa2 : s.pin_all = false := by simpa using hpa
    have hex : ¬ ∀ f, f < s.pool_size_ → 0 < (s.pageAt f).pin_count_ := by
      intro hall
      apply hpa
      rw [BufferPoolManagerInstance.pin_all_iff]
      exact fun f hf => ne_of_gt (hall f hf)
    cases hfree : s.free_list_ with
    | cons f rest =>
      rw [BufferPoolManagerInstance.NewPgImp_of_free s f rest hpa2 hfree]
      simp [hex]
    | nil =>
      cases hv : s.replacer_.Victim.1 with
      | some f =>
        rw [BufferPoolManagerInstance.NewPgImp_of_victim s f hpa2 hfree hv]
        simp [hex]
      | none =>
        exfalso
        apply hpa
        rw [BufferPoolManagerInstance.pin_all_iff]
        intro f hf h0
        rcases hs.cover f hf h0 with hmem | hmem
        · rw [hfree] at hmem; simp at hmem
        · rw [(LRUReplacer.Victim_none_iff _).1 hv] at hmem; simp at hmem

/-- Scenario of C2: with ten frames, ten `new_page` calls succeed and the eleventh returns
nothing and changes nothing. -/
theorem new_page_none_iff_all_pinned_witness :
    pool10.results 4 (List.replicate 11 .new_page)
      = [.new_page (some (0, 0)), .new_page (some (1, 1)), .new_page (some (2, 2)),
         .new_page (some (3, 3)), .new_page (some (4, 4)), .new_page (some (5, 5)),
         .new_page (some (6, 6)), .new_page (some (7, 7)), .new_page (some (8, 8)),
         .new_page (some (9, 9)), .new_page none] ∧
    pool10_full.NewPgImp.1 = none ∧
    (∀ f, f < pool10_full.pool_size_ → 0 < (pool10_full.pageAt f).pin_count_) ∧
    pool10_full.NewPgImp.2 = pool10_full :=
  ⟨by decide, by decide,
    (new_page_none_iff_all_pinned 4 10 1 0 { writes := [] } pool10_full
      (Reachable.after_run (List.replicate 10 .new_page) Reachable.init)).1.1 (by decide),
    (new_page_none_iff_all_pinned 4 10 1 0 { writes := [] } pool10_full
      (Reachable.after_run (List.replicate 10 .new_page) Reachable.init)).2 (by decide)⟩

/-- C9: in every reachable state, for a resident page in frame `f`, `fetch_page` returns `f` with
the pin count increased by exactly one; the following `unpin_page(p, false)` returns true, and
afterwards the page is still resident in `f` and the frame (pin count, dirty flag, bytes, page
id) is as before the fetch. -/
theorem fetch_unpin_round_trip (PAGE_SIZE pool_size num_instances instance_index : Nat)
    (disk_manager : DiskManager) (s : BufferPoolManagerInstance)
    (h : Reachable PAGE_SIZE pool_size num_instances instance_index disk_manager s)
    (page_id : page_id_t) (f : frame_id_t) (hres : s.page_table_.find page_id = some f) :
    (s.FetchPgImp PAGE_SIZE page_id).1 = some f ∧
    ((s.FetchPgImp PAGE_SIZE page_id).2.pageAt f).pin_count_ = (s.pageAt f).pin_count_ + 1 ∧
    ((s.FetchPgImp PAGE_SIZE page_id).2.UnpinPgImp page_id false).1 = true ∧
    ((s.FetchPgImp PAGE_SIZE page_id).2.UnpinPgImp page_id false).2.page_table_.find page_id
      = some f ∧
    (((s.FetchPgImp PAGE_SIZE page_id).2.UnpinPgImp page_id false).2.pageAt f).pin_count_
      = (s.pageAt f).pin_count_ ∧
    (((s.FetchPgImp PAGE_SIZE page_id).2.UnpinPgImp page_id false).2.pageAt f).is_dirty_
      = (s.pageAt f).is_dirty_ ∧
    (((s.FetchPgImp PAGE_SIZE page_id).2.UnpinPgImp page_id false).2.pageAt f).data_
      = (s.pageAt f).data_ ∧
    ((s.FetchPgImp PAGE_SIZE page_id).2.UnpinPgImp page_id false).2.pageAt f = s.pageAt f := by
  have hs := h.inv
  have hs1 := BufferPoolManagerInstance.Inv_FetchPgImp PAGE_SIZE s hs page_id
  have hf : f < s.pages_.length := by
    rw [hs.len]; exact BufferPoolManagerInstance.lt_of_find s hs page_id f hres
  have hp0 := hs.pin f
  generalize hs1def : (s.FetchPgImp PAGE_SIZE page_id).2 = s1 at hs1 ⊢
  have hfst : (s.FetchPgImp PAGE_SIZE page_id).1 = some f := by
    rw [BufferPoolManagerInstance.FetchPgImp_of_resident PAGE_SIZE s page_id f hres]
  have hpage1 : s1.pageAt f
      = { s.pageAt f with pin_count_ := (s.pageAt f).pin_count_ + 1 } := by
    rw [← hs1def, BufferPoolManagerInstance.FetchPgImp_of_resident PAGE_SIZE s page_id f hres]
    exact BufferPoolManagerInstance.pageAt_setPage_self s f _ hf
  have htab1 : s1.page_table_.find page_id = some f := by
    rw [← hs1def, BufferPoolManagerInstance.FetchPgImp_of_resident PAGE_SIZE s page_id f hres]
    exact hres
  have hlen1 : f < s1.pages_.length := by
    rw [hs1.len]; exact BufferPoolManagerInstance.lt_of_find s1 hs1 page_id f htab1
  have hpos : 0 < (s1.pageAt f).pin_count_ := by
    rw [hpage1]
    show 0 < (s.pageAt f).pin_count_ + 1
    omega
  have hfinal : ((s1.UnpinPgImp page_id false).2.pageAt f) = s.pageAt f := by
    rw [BufferPoolManagerInstance.UnpinPgImp_of_pos s1 page_id false f htab1 hpos]
    have := BufferPoolManagerInstance.pageAt_setPage_self s1 f
      { s1.pageAt f with
        pin_count_ := (s1.pageAt f).pin_count_ - 1
        is_dirty_ := ((s1.pageAt f).is_dirty_ || false) } hlen1
    refine Eq.trans this ?_
    rw [hpage1]
    simp
  refine ⟨hfst, ?_, ?_, ?_, ?_, ?_, ?_, hfinal⟩
  · rw [hpage1]
  · rw [BufferPoolManagerInstance.UnpinPgImp_of_pos s1 page_id false f htab1 hpos]
  · rw [BufferPoolManagerInstance.UnpinPgImp_of_pos s1 page_id false f htab1 hpos]
    exact htab1
  · rw [hfinal]
  · rw [hfinal]
  · rw [hfinal]

/-- Scenario of C9: page 0 is resident in frame 0 with pin count 0; `fetch_page(0)` pins it once
and `unpin_page(0, false)` brings the frame back to what it was. -/
theorem fetch_unpin_round_trip_witness :
    pool1_new_unpin.page_table_.find 0 = some 0 ∧
    ((pool1_new_unpin.FetchPgImp 4 0).2.pageAt 0).pin_count_ = 1 ∧
    ((pool1_new_unpin.FetchPgImp 4 0).2.UnpinPgImp 0 false).1 = true ∧
    ((pool1_new_unpin.FetchPgImp 4 0).2.UnpinPgImp 0 false).2.pageAt 0
      = pool1_new_unpin.pageAt 0 :=
  ⟨by decide, by decide,
    (fetch_unpin_round_trip 4 1 1 0 { writes := [] } pool1_new_unpin
      (Reachable.after_run [.new_page, .unpin_page 0 false] Reachable.init) 0 0 (by decide)).2.2.1,
    (fetch_unpin_round_trip 4 1 1 0 { writes := [] } pool1_new_unpin
      (Reachable.after_run [.new_page, .unpin_page 0 false] Reachable.init) 0 0
      (by decide)).2.2.2.2.2.2.2⟩

/-! ## Striped allocation of page ids -/

namespace BufferPoolManagerInstance

theorem NewPgImp_none_state (s : BufferPoolManagerInstance) (h : s.NewPgImp.1 = none) :
    s.NewPgImp.2 = s := by
  by_cases hpa : s.pin_all = true
  · rw [NewPgImp_of_pin_all s hpa]
  · have hpa2 : s.pin_all = false := by simpa using hpa
    cases hfree : s.free_list_ with
    | cons f rest =>
      rw [NewPgImp_of_free s f rest hpa2 hfree] at h
      simp at h
    | nil =>
      cases hv : s.replacer_.Victim.1 with
      | some f =>
        rw [NewPgImp_of_victim s f hpa2 hfree hv] at h
        simp at h
      | none => rw [NewPgImp_of_empty s hfree hv]

theorem NewPgImp_some (s : BufferPoolManagerInstance) (f : frame_id_t) (page_id : page_id_t)
    (h : s.NewPgImp.1 = some (f, page_id)) :
    page_id = s.next_page_id_ ∧
    s.NewPgImp.2.next_page_id_ = s.next_page_id_ + (s.num_instances_ : Int) := by
  by_cases hpa : s.pin_all = true
  · rw [NewPgImp_of_pin_all s hpa] at h
    simp at h
  · have hpa2 : s.pin_all = false := by simpa using hpa
    cases hfree : s.free_list_ with
    | cons g rest =>
      rw [NewPgImp_of_free s g rest hpa2 hfree] at h ⊢
      simp only [Option.some.injEq, Prod.mk.injEq] at h
      exact ⟨h.2.symm, rfl⟩
    | nil =>
      cases hv : s.replacer_.Victim.1 with
      | some g =>
        rw [NewPgImp_of_victim s g hpa2 hfree hv] at h ⊢
        simp only [Option.some.injEq, Prod.mk.injEq] at h
        exact ⟨h.2.symm, rfl⟩
      | none =>
        rw [NewPgImp_of_empty s hfree hv] at h
        simp at h

theorem NewPgImp_num_instances (s : BufferPoolManagerInstance) :
    s.NewPgImp.2.num_instances_ = s.num_instances_ := by
  by_cases hpa : s.pin_all = true
  · rw [NewPgImp_of_pin_all s hpa]
  · have hpa2 : s.pin_all = false := by simpa using hpa
    cases hfree : s.free_list_ with
    | cons g rest => rw [NewPgImp_of_free s g rest hpa2 hfree]
    | nil =>
      cases hv : s.replacer_.Victim.1 with
      | some g => rw [NewPgImp_of_victim s g hpa2 hfree hv]
      | none => rw [NewPgImp_of_empty s hfree hv]

theorem FetchPgImp_alloc (PAGE_SIZE : Nat) (s : BufferPoolManagerInstance)
    (page_id : page_id_t) :
    (s.FetchPgImp PAGE_SIZE page_id).2.num_instances_ = s.num_instances_ ∧
    (s.FetchPgImp PAGE_SIZE page_id).2.next_page_id_ = s.next_page_id_ := by
  cases hres : s.page_table_.find page_id with
  | some f => rw [FetchPgImp_of_resident PAGE_SIZE s page_id f hres]; exact ⟨rfl, rfl⟩
  | none =>
    cases hfree : s.free_list_ with
    | cons g rest => rw [FetchPgImp_of_free PAGE_SIZE s page_id g rest hres hfree]; exact ⟨rfl, rfl⟩
    | nil =>
      cases hv : s.replacer_.Victim.1 with
      | some g => rw [FetchPgImp_of_victim PAGE_SIZE s page_id g hres hfree hv]; exact ⟨rfl, rfl⟩
      | none => rw [FetchPgImp_of_empty PAGE_SIZE s page_id hres hfree hv]; exact ⟨rfl, rfl⟩

theorem UnpinPgImp_alloc (s : BufferPoolManagerInstance) (page_id : page_id_t)
    (is_dirty : Bool) :
    (s.UnpinPgImp page_id is_dirty).2.num_instances_ = s.num_instances_ ∧
    (s.UnpinPgImp page_id is_dirty).2.next_page_id_ = s.next_page_id_ := by
  cases hres : s.page_table_.find page_id with
  | none => rw [UnpinPgImp_of_absent s page_id is_dirty hres]; exact ⟨rfl, rfl⟩
  | some f =>
    by_cases hpin : (s.pageAt f).pin_count_ ≤ 0
    · rw [UnpinPgImp_of_nonpos s page_id is_dirty f hres hpin]; exact ⟨rfl, rfl⟩
    · rw [UnpinPgImp_of_pos s page_id is_dirty f hres (not_le.mp hpin)]; exact ⟨rfl, rfl⟩

theorem FlushPgImp_alloc (s : BufferPoolManagerInstance) (page_id : page_id_t) :
    (s.FlushPgImp page_id).2.num_instances_ = s.num_instances_ ∧
    (s.FlushPgImp page_id).2.next_page_id_ = s.next_page_id_ := by
  cases hres : s.page_table_.find page_id with
  | none => rw [FlushPgImp_of_absent s page_id hres]; exact ⟨rfl, rfl⟩
  | some f => rw [FlushPgImp_of_resident s page_id f hres]; exact ⟨rfl, rfl⟩

theorem DeletePgImp_alloc (PAGE_SIZE : Nat) (s : BufferPoolManagerInstance)
    (page_id : page_id_t) :
    (s.DeletePgImp PAGE_SIZE page_id).2.num_instances_ = s.num_instances_ ∧
    (s.DeletePgImp PAGE_SIZE page_id).2.next_page_id_ = s.next_page_id_ := by
  cases hres : s.page_table_.find page_id with
  | none => rw [DeletePgImp_of_absent PAGE_SIZE s page_id hres]; exact ⟨rfl, rfl⟩
  | some f =>
    by_cases hpin : (s.pageAt f).pin_count_ = 0
    · rw [DeletePgImp_of_unpinned PAGE_SIZE s page_id f hres hpin]; exact ⟨rfl, rfl⟩
    · rw [DeletePgImp_of_pinned PAGE_SIZE s page_id f hres hpin]; exact ⟨rfl, rfl⟩

theorem alloc_run (PAGE_SIZE : Nat) (ops : List PoolOp) :
    ∀ s : BufferPoolManagerInstance,
      newPageIds (s.results PAGE_SIZE ops)
        = (List.range (newPageIds (s.results PAGE_SIZE ops)).length).map
            (fun (k : Nat) => s.next_page_id_ + (k : Int) * (s.num_instances_ : Int)) ∧
      (s.run PAGE_SIZE ops).next_page_id_
        = s.next_page_id_
          + ((newPageIds (s.results PAGE_SIZE ops)).length : Int) * (s.num_instances_ : Int) ∧
      (s.run PAGE_SIZE ops).num_instances_ = s.num_instances_ := by
  induction ops with
  | nil => intro s; simp [results, run, newPageIds]
  | cons op ops ih =>
    intro s
    have hkeep : ∀ t : BufferPoolManagerInstance,
        t.num_instances_ = s.num_instances_ → t.next_page_id_ = s.next_page_id_ →
        newPageIds (t.results PAGE_SIZE ops)
          = (List.range (newPageIds (t.results PAGE_SIZE ops)).length).map
              (fun (k : Nat) => s.next_page_id_ + (k : Int) * (s.num_instances_ : Int)) ∧
        (t.run PAGE_SIZE ops).next_page_id_
          = s.next_page_id_
            + ((newPageIds (t.results PAGE_SIZE ops)).length : Int)
              * (s.num_instances_ : Int) ∧
        (t.run PAGE_SIZE ops).num_instances_ = s.num_instances_ := by
      intro t h1 h2
      have := ih t
      rw [h1, h2] at this
      exact this
    cases op with
    | new_page =>
      simp only [results, run, result, step]
      cases hr : s.NewPgImp.1 with
      | none =>
        simp only [newPageIds]
        rw [NewPgImp_none_state s hr]
        exact ih s
      | some x =>
        obtain ⟨f, page_id⟩ := x
        obtain ⟨hid, hnext⟩ := NewPgImp_some s f page_id hr
        have hnum := NewPgImp_num_instances s
        have := ih s.NewPgImp.2
        rw [hnum, hnext] at this
        obtain ⟨h1, h2, h3⟩ := this
        simp only [newPageIds, List.length_cons]
        refine ⟨?_, ?_, h3⟩
        · rw [List.range_succ_eq_map, List.map_cons, List.map_map]
          rw [hid]
          congr 1
          · simp
          · conv_lhs => rw [h1]
            apply List.map_congr_left
            intro k _
            simp only [Function.comp, Nat.succ_eq_add_one]
            push_cast
            ring
        · rw [h2]
          push_cast
          ring
    | fetch_page p =>
      simp only [results, run, result, step, newPageIds]
      exact hkeep _ (FetchPgImp_alloc PAGE_SIZE s p).1 (FetchPgImp_alloc PAGE_SIZE s p).2
    | unpin_page p d =>
      simp only [results, run, result, step, newPageIds]
      exact hkeep _ (UnpinPgImp_alloc s p d).1 (UnpinPgImp_alloc s p d).2
    | flush_page p =>
      simp only [results, run, result, step, newPageIds]
      exact hkeep _ (FlushPgImp_alloc s p).1 (FlushPgImp_alloc s p).2
    | delete_page p =>
      simp only [results, run, result, step, newPageIds]
      exact hkeep _ (DeletePgImp_alloc PAGE_SIZE s p).1 (DeletePgImp_alloc PAGE_SIZE s p).2

end BufferPoolManagerInstance

theorem stripe_residue (N i k : Nat) (hi : i < N) (w : Nat)
    (hlt : (i : Int) + (k : Int) * (N : Int) < 2 ^ w) :
    (((i : Int) + (k : Int) * (N : Int)) % 2 ^ w).toNat % N = i := by
  have hnn : (0 : Int) ≤ (i : Int) + (k : Int) * (N : Int) := by positivity
  rw [Int.emod_eq_of_lt hnn hlt]
  have : ((i : Int) + (k : Int) * (N : Int)) = ((i + k * N : Nat) : Int) := by push_cast; ring
  rw [this, Int.toNat_ofNat, Nat.add_mul_mod_self_right]
  exact Nat.mod_eq_of_lt hi

/-- C3: for instance `i` of `N` (`0 < N`, `i < N`) and any sequence of calls on a fresh instance,
the ids returned by the successful `new_page` calls are `i, i + N, i + 2N, ...` in order (the
`k`-th is `i + k * N`); the id counter ends at `i + m * N` for `m` successes, and a failed
`new_page` leaves the counter alone; every returned id is congruent to `i` modulo `N`, and,
below `2 ^ 31`, passes the assertion of `ValidatePageId` and is routed by
`GetBufferPoolManager` to instance `i`. -/
theorem striped_page_ids (PAGE_SIZE pool_size N i : Nat) (disk_manager : DiskManager)
    (hN : 0 < N) (hi : i < N) (ops : List PoolOp) :
    newPageIds
        ((BufferPoolManagerInstance.create PAGE_SIZE pool_size N i disk_manager).results
          PAGE_SIZE ops)
      = (List.range (newPageIds
          ((BufferPoolManagerInstance.create PAGE_SIZE pool_size N i disk_manager).results
            PAGE_SIZE ops)).length).map
          (fun (k : Nat) => (i : Int) + (k : Int) * (N : Int)) ∧
    ((BufferPoolManagerInstance.create PAGE_SIZE pool_size N i disk_manager).run
        PAGE_SIZE ops).next_page_id_
      = (i : Int) + ((newPageIds
          ((BufferPoolManagerInstance.create PAGE_SIZE pool_size N i disk_manager).results
            PAGE_SIZE ops)).length : Int) * (N : Int) ∧
    (∀ s : BufferPoolManagerInstance, s.NewPgImp.1 = none →
      s.NewPgImp.2.next_page_id_ = s.next_page_id_) ∧
    (∀ page_id ∈ newPageIds
        ((BufferPoolManagerInstance.create PAGE_SIZE pool_size N i disk_manager).results
          PAGE_SIZE ops),
      page_id % (N : Int) = (i : Int) ∧
      (page_id < 2 ^ 31 →
        (BufferPoolManagerInstance.create PAGE_SIZE pool_size N i disk_manager).ValidatePageId
          page_id = true ∧
        ∀ w, 31 ≤ w → GetBufferPoolManager w N page_id = i)) := by
  have hNpos : (0 : Int) < (N : Int) := by exact_mod_cast hN
  obtain ⟨h1, h2, _⟩ := BufferPoolManagerInstance.alloc_run PAGE_SIZE ops
    (BufferPoolManagerInstance.create PAGE_SIZE pool_size N i disk_manager)
  refine ⟨h1, h2, ?_, ?_⟩
  · intro s hs
    rw [BufferPoolManagerInstance.NewPgImp_none_state s hs]
  · intro page_id hmem
    rw [h1] at hmem
    obtain ⟨k, _, hk⟩ := List.mem_map.mp hmem
    have hk2 : page_id = (i : Int) + (k : Int) * (N : Int) := hk.symm
    refine ⟨?_, ?_⟩
    · rw [hk2, Int.add_mul_emod_self]
      exact Int.emod_eq_of_lt (by positivity) (by exact_mod_cast hi)
    · intro hlt
      rw [hk2] at hlt ⊢
      refine ⟨?_, ?_⟩
      · have h32 : (i : Int) + (k : Int) * (N : Int) < 2 ^ 32 :=
          lt_trans hlt (by norm_num)
        simp only [BufferPoolManagerInstance.ValidatePageId, decide_eq_true_eq]
        exact stripe_residue N i k hi 32 h32
      · intro w hw
        have hpow : (2 : Int) ^ 31 ≤ 2 ^ w := pow_le_pow_right₀ (by norm_num) hw
        exact stripe_residue N i k hi w (lt_of_lt_of_le hlt hpow)

/-- Scenario of C3: instance 1 of 4 with two frames hands out 1, 5 and 9; the failed third call
consumes no id, and the counter ends at `1 + 3 * 4`. -/
theorem striped_page_ids_witness :
    newPageIds (pool2_of4.results 4 stripe_ops) = [1, 5, 9] ∧
    pool2_of4.results 4 stripe_ops
      = [.new_page (some (0, 1)), .new_page (some (1, 5)), .new_page none, .flag true,
         .new_page (some (0, 9))] ∧
    (pool2_of4.run 4 stripe_ops).next_page_id_
      = ((1 : Nat) : Int)
        + ((newPageIds (pool2_of4.results 4 stripe_ops)).length : Int) * ((4 : Nat) : Int) ∧
    GetBufferPoolManager 64 4 9 = 1 :=
  ⟨by decide, by decide,
    (striped_page_ids 4 2 4 1 { writes := [] } (by decide) (by decide) stripe_ops).2.1,
    by decide⟩

/-! ## Defects found by evaluation -/

/-- C1 fails on the code: `DeletePgImp` puts frame 0 on the free list without taking it out of
the replacer, so after the next `new_page` the frame is pinned and still in the replacer.  With
two frames the stale entry makes a later `new_page` hand out frame 0 while page 2 is pinned in
it. -/
theorem pinned_frame_in_replacer :
    (pool1_new_unpin.DeletePgImp 4 0).1 = true ∧
    (pool1_new_unpin.DeletePgImp 4 0).2.free_list_ = [0] ∧
    (pool1_new_unpin.DeletePgImp 4 0).2.replacer_.lists_ = [0] ∧
    0 < (pool1_reused_after_delete.pageAt 0).pin_count_ ∧
    0 ∈ pool1_reused_after_delete.replacer_.lists_ ∧
    ((pool2_stale.pageAt 0).pin_count_ = 1 ∧ (pool2_stale.pageAt 0).page_id_ = 2 ∧
      pool2_stale.page_table_.find 2 = some 0 ∧
      pool2_stale.NewPgImp.1 = some (0, 3) ∧
      pool2_stale.NewPgImp.2.page_table_.find 2 = none) := by
  decide

/-- C10 fails on the code: frame 0 holds the bytes 1, 2, 3, 4 of page 7, clean and unpinned;
`new_page` takes it as a victim and returns it for page 0 with those bytes, not zeros, and writes
them to disk under the new id. -/
theorem new_page_keeps_victim_bytes :
    pool1_disk7_clean.free_list_ = [] ∧
    pool1_disk7_clean.NewPgImp.1 = some (0, 0) ∧
    (pool1_disk7_clean.NewPgImp.2.pageAt 0).data_ = [1, 2, 3, 4] ∧
    (pool1_disk7_clean.NewPgImp.2.pageAt 0).data_ ≠ List.replicate 4 0 ∧
    pool1_disk7_clean.NewPgImp.2.disk_manager_.ReadPage 4 0 = [1, 2, 3, 4] := by
  decide

/-! ## Redundant calls on the replacer -/

theorem LRUReplacer.WF_run (ops : List ReplacerOp) :
    ∀ r : LRUReplacer, r.WF → (r.run ops).2.WF := by
  induction ops with
  | nil => intro r h; exact h
  | cons op ops ih =>
    intro r h
    exact ih _ (LRUReplacer.WF_apply r h op)

/-- C16: after every sequence of calls on an initially empty replacer, `Unpin` of a frame that
the replacer contains leaves the whole replacer state unchanged (members, their order, the side
table and the size), and `Pin` of a frame that it does not contain leaves it unchanged too. -/
theorem redundant_replacer_calls (num_pages : Nat) (ops : List ReplacerOp) (f : frame_id_t) :
    (f ∈ ((LRUReplacer.create num_pages).run ops).2.lists_ →
      (((LRUReplacer.create num_pages).run ops).2.Unpin f
          = ((LRUReplacer.create num_pages).run ops).2 ∧
        (((LRUReplacer.create num_pages).run ops).2.Unpin f).lists_
          = ((LRUReplacer.create num_pages).run ops).2.lists_ ∧
        (((LRUReplacer.create num_pages).run ops).2.Unpin f).Size
          = ((LRUReplacer.create num_pages).run ops).2.Size)) ∧
    (f ∉ ((LRUReplacer.create num_pages).run ops).2.lists_ →
      (((LRUReplacer.create num_pages).run ops).2.Pin f
          = ((LRUReplacer.create num_pages).run ops).2 ∧
        (((LRUReplacer.create num_pages).run ops).2.Pin f).lists_
          = ((LRUReplacer.create num_pages).run ops).2.lists_ ∧
        (((LRUReplacer.create num_pages).run ops).2.Pin f).Size
          = ((LRUReplacer.create num_pages).run ops).2.Size)) := by
  have hwf := LRUReplacer.WF_run ops (LRUReplacer.create num_pages)
    (LRUReplacer.WF_create num_pages)
  generalize ((LRUReplacer.create num_pages).run ops).2 = r at hwf ⊢
  refine ⟨?_, ?_⟩
  · intro hf
    have hk : f ∈ r.frames_ := (hwf.2 f).2 hf
    have : r.Unpin f = r := by
      unfold LRUReplacer.Unpin
      simp only [hk, if_true]
    rw [this]
    exact ⟨rfl, rfl, rfl⟩
  · intro hf
    have hk : f ∉ r.frames_ := fun h => hf ((hwf.2 f).1 h)
    have : r.Pin f = r := by
      unfold LRUReplacer.Pin
      simp only [hk, if_false]
    rw [this]
    exact ⟨rfl, rfl, rfl⟩

/-- Scenario of C16: after unpin(1), unpin(2), unpin(3) the list is 3, 2, 1; a second unpin(1)
does not move frame 1 to the front, and pin(7) changes nothing. -/
theorem redundant_replacer_calls_witness :
    ((LRUReplacer.create 7).run [.unpin 1, .unpin 2, .unpin 3]).2.lists_ = [3, 2, 1] ∧
    (((LRUReplacer.create 7).run [.unpin 1, .unpin 2, .unpin 3]).2.Unpin 1).lists_
      = ((LRUReplacer.create 7).run [.unpin 1, .unpin 2, .unpin 3]).2.lists_ ∧
    ((LRUReplacer.create 7).run [.unpin 1, .unpin 2, .unpin 3]).2.Pin 7
      = ((LRUReplacer.create 7).run [.unpin 1, .unpin 2, .unpin 3]).2 :=
  ⟨by decide,
    ((redundant_replacer_calls 7 [.unpin 1, .unpin 2, .unpin 3] 1).1 (by decide)).2.1,
    ((redundant_replacer_calls 7 [.unpin 1, .unpin 2, .unpin 3] 7).2 (by decide)).1⟩

/-! ## The bucket page -/

theorem getD_set_eq {α : Type} (l : List α) (i j : Nat) (a d : α) :
    (l.set i a).getD j d = if i = j ∧ i < l.length then a else l.getD j d := by
  by_cases hij : i = j
  · subst hij
    by_cases hl : i < l.length
    · simp [List.getD_eq_getElem?_getD, hl]
    · simp [hl, List.set_eq_of_length_le (Nat.le_of_not_lt hl)]
  · simp [hij, List.getD_eq_getElem?_getD, List.getElem?_set_ne hij]

namespace HashTableBucketPage

variable {K V : Type}

theorem Insert_of_full [Inhabited K] [Inhabited V] (n : Nat) (p : HashTableBucketPage K V)
    (key : K) (value : V) (cmp : K → K → Int) (h : n ≤ p.next_occupied_index_) :
    p.Insert n key value cmp = (false, p) := by
  unfold Insert
  simp [h]

theorem Insert_of_room [Inhabited K] [Inhabited V] (n : Nat) (p : HashTableBucketPage K V)
    (key : K) (value : V) (cmp : K → K → Int) (h : p.next_occupied_index_ < n)
    (harr : p.next_occupied_index_ < p.array_.length) (hcmp : cmp key key = 0) :
    p.Insert n key value cmp =
      (true,
        { occupied_ := p.occupied_.set p.next_occupied_index_ true
          readable_ := p.readable_.set p.next_occupied_index_ true
          array_ := p.array_.set p.next_occupied_index_ (key, value)
          next_occupied_index_ := p.next_occupied_index_ + 1 }) := by
  unfold Insert
  have h1 : ¬ p.next_occupied_index_ ≥ n := Nat.not_le.mpr h
  simp [h1, SetOccupiedBit, SetReadableBit, entryAt, List.getD_eq_getElem?_getD, harr, hcmp]

theorem Remove_cases [Inhabited K] [Inhabited V] (n : Nat) (p : HashTableBucketPage K V)
    (key : K) (value : V) (cmp : K → K → Int) :
    p.Remove n key value cmp = (false, p) ∨
    ∃ i, p.Remove n key value cmp = (true, p.SetReadableBit i false) := by
  unfold Remove
  split
  · rename_i i _
    exact Or.inr ⟨i, rfl⟩
  · exact Or.inl rfl

theorem RemoveAt_cases (p : HashTableBucketPage K V) (i : Nat) :
    p.RemoveAt i = p ∨ p.RemoveAt i = p.SetReadableBit i false := by
  unfold RemoveAt
  split
  · exact Or.inr rfl
  · exact Or.inl rfl

theorem Cursor_zeroed [Inhabited K] [Inhabited V] (n : Nat) :
    Cursor n (zeroed n : HashTableBucketPage K V) := by
  refine ⟨by simp [zeroed], by simp [zeroed], by simp [zeroed], Nat.zero_le _, ?_⟩
  intro i
  simp [GetOccupiedBit, zeroed, List.getD_eq_getElem?_getD, List.getElem?_replicate]
  by_cases h : i < n <;> simp [h]

theorem Cursor_clear (n : Nat) (p : HashTableBucketPage K V) (h : Cursor n p) (i : Nat) :
    Cursor n (p.SetReadableBit i false) :=
  ⟨h.occ_len, by simp [SetReadableBit, h.read_len], h.arr_len, h.bound, h.occ⟩

theorem Cursor_step [Inhabited K] [Inhabited V] (n : Nat) (cmp : K → K → Int)
    (hcmp : ∀ k, cmp k k = 0) (p : HashTableBucketPage K V) (h : Cursor n p)
    (op : BucketOp K V) : Cursor n (p.step n cmp op) := by
  cases op with
  | insert key value =>
    simp only [step]
    by_cases hfull : n ≤ p.next_occupied_index_
    · rw [Insert_of_full n p key value cmp hfull]; exact h
    · have hlt : p.next_occupied_index_ < n := Nat.lt_of_not_le hfull
      rw [Insert_of_room n p key value cmp hlt (by rw [h.arr_len]; exact hlt) (hcmp key)]
      refine ⟨by simp [h.occ_len], by simp [h.read_len], by simp [h.arr_len], hlt, ?_⟩
      intro i
      have hocc := h.occ i
      simp only [GetOccupiedBit] at hocc ⊢
      rw [getD_set_eq]
      by_cases hi : p.next_occupied_index_ = i
      · subst hi
        simp [h.occ_len, hlt]
      · simp only [hi, false_and, if_false, hocc]
        omega
  | remove key value =>
    simp only [step]
    rcases Remove_cases n p key value cmp with hr | ⟨i, hr⟩
    · rw [hr]; exact h
    · rw [hr]; exact Cursor_clear n p h i
  | remove_at i =>
    simp only [step]
    rcases RemoveAt_cases p i with hr | hr
    · rw [hr]; exact h
    · rw [hr]; exact Cursor_clear n p h i

theorem Cursor_run [Inhabited K] [Inhabited V] (n : Nat) (cmp : K → K → Int)
    (hcmp : ∀ k, cmp k k = 0) (ops : List (BucketOp K V)) :
    ∀ p : HashTableBucketPage K V, Cursor n p → Cursor n (p.run n cmp ops) := by
  induction ops with
  | nil => intro p h; exact h
  | cons op ops ih => intro p h; exact ih _ (Cursor_step n cmp hcmp p h op)

end HashTableBucketPage

namespace HashTableBucketPage

variable {K V : Type}

theorem Insert_bitmaps [Inhabited K] [Inhabited V] (n : Nat) (p : HashTableBucketPage K V)
    (key : K) (value : V) (cmp : K → K → Int) :
    ((p.Insert n key value cmp).2.occupied_ = p.occupied_ ∧
      (p.Insert n key value cmp).2.readable_ = p.readable_) ∨
    ((p.Insert n key value cmp).2.occupied_ = p.occupied_.set p.next_occupied_index_ true ∧
      (p.Insert n key value cmp).2.readable_ = p.readable_.set p.next_occupied_index_ true) := by
  unfold Insert
  by_cases hfull : p.next_occupied_index_ ≥ n
  · rw [if_pos hfull]
    exact Or.inl ⟨rfl, rfl⟩
  · rw [if_neg hfull]
    right
    dsimp only []
    split_ifs <;> exact ⟨rfl, rfl⟩

theorem step_bitmaps [Inhabited K] [Inhabited V] (n : Nat) (cmp : K → K → Int)
    (p : HashTableBucketPage K V) (op : BucketOp K V) :
    ((p.step n cmp op).occupied_ = p.occupied_ ∧
      ((p.step n cmp op).readable_ = p.readable_ ∨
        ∃ i, (p.step n cmp op).readable_ = p.readable_.set i false)) ∨
    ((p.step n cmp op).occupied_ = p.occupied_.set p.next_occupied_index_ true ∧
      (p.step n cmp op).readable_ = p.readable_.set p.next_occupied_index_ true) := by
  cases op with
  | insert key value =>
    simp only [step]
    rcases Insert_bitmaps n p key value cmp with h | h
    · exact Or.inl ⟨h.1, Or.inl h.2⟩
    · exact Or.inr h
  | remove key value =>
    simp only [step]
    rcases Remove_cases n p key value cmp with hr | ⟨i, hr⟩
    · rw [hr]; exact Or.inl ⟨rfl, Or.inl rfl⟩
    · rw [hr]; exact Or.inl ⟨rfl, Or.inr ⟨i, rfl⟩⟩
  | remove_at i =>
    simp only [step]
    rcases RemoveAt_cases p i with hr | hr
    · rw [hr]; exact Or.inl ⟨rfl, Or.inl rfl⟩
    · rw [hr]; exact Or.inl ⟨rfl, Or.inr ⟨i, rfl⟩⟩

theorem step_occupied [Inhabited K] [Inhabited V] (n : Nat) (cmp : K → K → Int)
    (p : HashTableBucketPage K V) (op : BucketOp K V) (i : Nat)
    (h : p.GetOccupiedBit i = true) : (p.step n cmp op).GetOccupiedBit i = true := by
  simp only [GetOccupiedBit] at h ⊢
  rcases step_bitmaps n cmp p op with hs | hs
  · rw [hs.1]; exact h
  · rw [hs.1, getD_set_eq]
    split
    · rfl
    · exact h

theorem Bits_zeroed [Inhabited K] [Inhabited V] (n : Nat) :
    Bits (zeroed n : HashTableBucketPage K V) := by
  refine ⟨by simp [zeroed], ?_⟩
  intro i hi
  simp only [GetReadableBit, zeroed, List.getD_eq_getElem?_getD, List.getElem?_replicate] at hi
  by_cases h : i < n <;> simp [h] at hi

theorem Bits_step [Inhabited K] [Inhabited V] (n : Nat) (cmp : K → K → Int)
    (p : HashTableBucketPage K V) (h : Bits p) (op : BucketOp K V) :
    Bits (p.step n cmp op) := by
  have hsub := h.sub
  simp only [GetReadableBit, GetOccupiedBit] at hsub
  rcases step_bitmaps n cmp p op with hs | hs
  · rcases hs.2 with hr | ⟨j, hr⟩
    · refine ⟨by rw [hs.1, hr]; exact h.len, ?_⟩
      intro i hi
      simp only [GetReadableBit, GetOccupiedBit] at hi ⊢
      rw [hs.1]; rw [hr] at hi
      exact hsub i hi
    · refine ⟨by rw [hs.1, hr, List.length_set]; exact h.len, ?_⟩
      intro i hi
      simp only [GetReadableBit, GetOccupiedBit] at hi ⊢
      rw [hs.1]; rw [hr, getD_set_eq] at hi
      split at hi
      · exact absurd hi (by simp)
      · exact hsub i hi
  · refine ⟨by rw [hs.1, hs.2, List.length_set, List.length_set]; exact h.len, ?_⟩
    intro i hi
    simp only [GetReadableBit, GetOccupiedBit] at hi ⊢
    rw [hs.1, getD_set_eq]
    rw [hs.2, getD_set_eq] at hi
    by_cases hc : p.next_occupied_index_ = i ∧ p.next_occupied_index_ < p.readable_.length
    · obtain ⟨h1, h2⟩ := hc
      subst h1
      simp [h.len, h2]
    · simp only [hc, if_false] at hi
      split
      · rfl
      · exact hsub i hi

theorem Bits_run [Inhabited K] [Inhabited V] (n : Nat) (cmp : K → K → Int)
    (ops : List (BucketOp K V)) :
    ∀ p : HashTableBucketPage K V, Bits p → Bits (p.run n cmp ops) := by
  induction ops with
  | nil => intro p h; exact h
  | cons op ops ih => intro p h; exact ih _ (Bits_step n cmp p h op)

end HashTableBucketPage

theorem compareInt_self (k : Int) : compareInt k k = 0 := by
  simp [compareInt]

/-- C19: after every sequence of insert, remove and remove_at calls on an all-zero bucket page,
every slot whose readable bit is set has its occupied bit set; and no call, on any page, clears
an occupied bit that was set. -/
theorem bucket_bitmap_invariant {K V : Type} [Inhabited K] [Inhabited V]
    (BUCKET_ARRAY_SIZE : Nat) (cmp : K → K → Int) (ops : List (BucketOp K V)) :
    (∀ i, ((HashTableBucketPage.zeroed BUCKET_ARRAY_SIZE : HashTableBucketPage K V).run
          BUCKET_ARRAY_SIZE cmp ops).GetReadableBit i = true →
        ((HashTableBucketPage.zeroed BUCKET_ARRAY_SIZE : HashTableBucketPage K V).run
          BUCKET_ARRAY_SIZE cmp ops).GetOccupiedBit i = true) ∧
    (∀ (p : HashTableBucketPage K V) (op : BucketOp K V) (i : Nat),
      p.GetOccupiedBit i = true → (p.step BUCKET_ARRAY_SIZE cmp op).GetOccupiedBit i = true) :=
  ⟨(HashTableBucketPage.Bits_run BUCKET_ARRAY_SIZE cmp ops _
      (HashTableBucketPage.Bits_zeroed BUCKET_ARRAY_SIZE)).sub,
    fun p op i h => HashTableBucketPage.step_occupied BUCKET_ARRAY_SIZE cmp p op i h⟩

/-- Scenario of C19: after three inserts, `remove(1, 10)` leaves slot 0 occupied and not
readable, and slot 1 readable and occupied. -/
theorem bucket_bitmap_invariant_witness :
    bucket3.GetOccupiedBit 0 = true ∧
    (bucket3.step 4 compareInt (.remove 1 10)).GetReadableBit 0 = false ∧
    (bucket3.step 4 compareInt (.remove 1 10)).GetOccupiedBit 0 = true ∧
    ((HashTableBucketPage.zeroed 4 : HashTableBucketPage Int Int).run 4 compareInt
      [.insert 1 10, .insert 1 20]).GetOccupiedBit 1 = true :=
  ⟨by decide, by decide,
    (bucket_bitmap_invariant 4 compareInt ([] : List (BucketOp Int Int))).2 bucket3
      (.remove 1 10) 0 (by decide),
    (bucket_bitmap_invariant 4 compareInt [.insert 1 10, .insert 1 20]).1 1 (by decide)⟩

/-- C11 fails on the code: `GetValue` scans the slots below the cursor and never reads the
readable bit.  After inserting (1, 10), (1, 20), (2, 30), `remove(1, 10)` clears the readable bit
of slot 0, and `get(1)` still returns 10 and 20. -/
theorem get_value_returns_removed :
    (bucket3.GetValue 1 compareInt []).2 = [10, 20] ∧
    (bucket3.Remove 4 1 10 compareInt).1 = true ∧
    bucket3_removed.GetReadableBit 0 = false ∧
    bucket3_removed.entryAt 0 = (1, 10) ∧
    (bucket3_removed.GetValue 1 compareInt []).2 = [10, 20] ∧
    ((bucket3.RemoveAt 0).GetValue 1 compareInt []).2 = [10, 20] := by
  decide

/-- C12 fails on the code: `Remove` never reads its `value` argument.  With (1, 10) already
removed and (1, 20) live in slot 1, `remove(1, 10)` returns true and clears the readable bit of
slot 1. -/
theorem remove_ignores_value :
    bucket3_removed.GetReadableBit 0 = false ∧
    bucket3_removed.GetReadableBit 1 = true ∧
    bucket3_removed.entryAt 1 = (1, 20) ∧
    (bucket3_removed.Remove 4 1 10 compareInt).1 = true ∧
    (bucket3_removed.Remove 4 1 10 compareInt).2.GetReadableBit 1 = false := by
  decide

/-- C14 fails on the code: `Insert` makes no duplicate test.  With (1, 10) live in slot 0,
`insert(1, 10)` returns true and stores the pair again in slot 1. -/
theorem insert_accepts_duplicate :
    bucket1.GetReadableBit 0 = true ∧
    bucket1.entryAt 0 = (1, 10) ∧
    (bucket1.Insert 4 1 10 compareInt).1 = true ∧
    (bucket1.Insert 4 1 10 compareInt).2.entryAt 1 = (1, 10) ∧
    (bucket1.Insert 4 1 10 compareInt).2.GetReadableBit 1 = true ∧
    (bucket1.Insert 4 1 10 compareInt).2 ≠ bucket1 := by
  decide

/-- C13, as stated, fails: in a page of capacity 2, after inserting (1, 10) and (2, 20) and
removing (1, 10), slot 0 has readable bit 0 and no live slot holds (3, 30), and yet
`insert(3, 30)` returns false and changes nothing: the freed slot is not reused. -/
theorem insert_does_not_reuse_freed_slot :
    bucket_tombstone
      = (HashTableBucketPage.zeroed 2).run 2 compareInt
          [.insert 1 10, .insert 2 20, .remove 1 10] ∧
    bucket_tombstone.GetReadableBit 0 = false ∧
    bucket_tombstone.GetReadableBit 1 = true ∧
    bucket_tombstone.entryAt 1 = (2, 20) ∧
    (bucket_tombstone.Insert 2 3 30 compareInt).1 = false ∧
    (bucket_tombstone.Insert 2 3 30 compareInt).2 = bucket_tombstone := by
  decide

/-- C13, amended: for a comparator with `cmp k k = 0` (as the comparators the page is instantiated
with) and every page `p` reached from an all-zero page by insert, remove and remove_at, the
occupied slots are exactly the slots below the cursor.  When at least one slot has occupied bit 0
and no readable slot holds a pair with a key that compares equal and an equal value, `Insert`
returns true, stores the pair in the lowest-index slot whose occupied bit is 0 (the slot at the
cursor), sets the occupied and readable bits of that slot and changes no other slot; under the same
condition on the readable slots, `Insert` returns false only when every slot is occupied.  When
every slot is occupied `Insert` returns false and changes nothing, whether or not some slot is a
tombstone. -/
theorem bucket_insert_placement {K V : Type} [Inhabited K] [Inhabited V]
    (BUCKET_ARRAY_SIZE : Nat) (cmp : K → K → Int) (hcmp : ∀ k, cmp k k = 0)
    (ops : List (BucketOp K V)) (p : HashTableBucketPage K V)
    (hp : p = (HashTableBucketPage.zeroed BUCKET_ARRAY_SIZE).run BUCKET_ARRAY_SIZE cmp ops)
    (key : K) (value : V) :
    (∀ i, p.GetOccupiedBit i = true ↔ i < p.next_occupied_index_) ∧
    ((∀ i, i < BUCKET_ARRAY_SIZE → p.GetOccupiedBit i = true) →
      (p.Insert BUCKET_ARRAY_SIZE key value cmp).1 = false ∧
      (p.Insert BUCKET_ARRAY_SIZE key value cmp).2 = p) ∧
    ((∀ i, i < BUCKET_ARRAY_SIZE → p.GetReadableBit i = true →
        ¬ (cmp key (p.entryAt i).1 = 0 ∧ (p.entryAt i).2 = value)) →
      ((p.Insert BUCKET_ARRAY_SIZE key value cmp).1 = false →
        ∀ i, i < BUCKET_ARRAY_SIZE → p.GetOccupiedBit i = true) ∧
      ((∃ i, i < BUCKET_ARRAY_SIZE ∧ p.GetOccupiedBit i = false) →
        (p.Insert BUCKET_ARRAY_SIZE key value cmp).1 = true ∧
        p.next_occupied_index_ < BUCKET_ARRAY_SIZE ∧
        p.GetOccupiedBit p.next_occupied_index_ = false ∧
        (∀ j, j < p.next_occupied_index_ → p.GetOccupiedBit j = true) ∧
        (p.Insert BUCKET_ARRAY_SIZE key value cmp).2.entryAt p.next_occupied_index_
          = (key, value) ∧
        (p.Insert BUCKET_ARRAY_SIZE key value cmp).2.GetOccupiedBit p.next_occupied_index_
          = true ∧
        (p.Insert BUCKET_ARRAY_SIZE key value cmp).2.GetReadableBit p.next_occupied_index_
          = true ∧
        (∀ i, i ≠ p.next_occupied_index_ →
          (p.Insert BUCKET_ARRAY_SIZE key value cmp).2.entryAt i = p.entryAt i ∧
          (p.Insert BUCKET_ARRAY_SIZE key value cmp).2.GetOccupiedBit i = p.GetOccupiedBit i ∧
          (p.Insert BUCKET_ARRAY_SIZE key value cmp).2.GetReadableBit i
            = p.GetReadableBit i))) := by
  have hc : HashTableBucketPage.Cursor BUCKET_ARRAY_SIZE p := by
    rw [hp]
    exact HashTableBucketPage.Cursor_run BUCKET_ARRAY_SIZE cmp hcmp ops _
      (HashTableBucketPage.Cursor_zeroed BUCKET_ARRAY_SIZE)
  have hnot : p.GetOccupiedBit p.next_occupied_index_ = false := by
    cases h : p.GetOccupiedBit p.next_occupied_index_ with
    | false => rfl
    | true => exact absurd ((hc.occ _).1 h) (Nat.lt_irrefl _)
  refine ⟨hc.occ, ?_, ?_⟩
  · intro hall
    have hfull : BUCKET_ARRAY_SIZE ≤ p.next_occupied_index_ := by
      by_contra hlt
      have h := hall _ (Nat.lt_of_not_le hlt)
      rw [hnot] at h
      exact absurd h (by simp)
    rw [HashTableBucketPage.Insert_of_full BUCKET_ARRAY_SIZE p key value cmp hfull]
    exact ⟨rfl, rfl⟩
  · intro _
    by_cases hfull : BUCKET_ARRAY_SIZE ≤ p.next_occupied_index_
    · rw [HashTableBucketPage.Insert_of_full BUCKET_ARRAY_SIZE p key value cmp hfull]
      refine ⟨fun _ i hi => (hc.occ i).2 (lt_of_lt_of_le hi hfull), ?_⟩
      rintro ⟨i, hi, hocc⟩
      have h : p.GetOccupiedBit i = true := (hc.occ i).2 (lt_of_lt_of_le hi hfull)
      rw [h] at hocc
      exact absurd hocc (by simp)
    · have hlt : p.next_occupied_index_ < BUCKET_ARRAY_SIZE := Nat.lt_of_not_le hfull
      have harr : p.next_occupied_index_ < p.array_.length := by rw [hc.arr_len]; exact hlt
      rw [HashTableBucketPage.Insert_of_room BUCKET_ARRAY_SIZE p key value cmp hlt harr
        (hcmp key)]
      refine ⟨fun h => absurd h (by simp),
        fun _ => ⟨rfl, hlt, hnot, fun j hj => (hc.occ j).2 hj, ?_, ?_, ?_, ?_⟩⟩
      · simp only [HashTableBucketPage.entryAt]
        rw [getD_set_eq]
        simp [harr]
      · simp only [HashTableBucketPage.GetOccupiedBit]
        rw [getD_set_eq]
        simp [hc.occ_len, hlt]
      · simp only [HashTableBucketPage.GetReadableBit]
        rw [getD_set_eq]
        simp [hc.read_len, hlt]
      · intro i hi
        simp only [HashTableBucketPage.entryAt, HashTableBucketPage.GetOccupiedBit,
          HashTableBucketPage.GetReadableBit]
        rw [getD_set_eq, getD_set_eq, getD_set_eq]
        simp [Ne.symm hi]

/-- Scenario of C13: the page of capacity 4 with a tombstone (1, 10) in slot 0 and (1, 20) and
(2, 30) live has slot 3 never occupied, and no readable slot holds (5, 50); `insert(5, 50)`
returns true and stores the pair in slot 3, the lowest slot whose occupied bit is 0; slot 0 stays
a tombstone. -/
theorem bucket_insert_placement_witness :
    bucket3_removed.GetReadableBit 0 = false ∧
    bucket3_removed.GetOccupiedBit 0 = true ∧
    bucket3_removed.next_occupied_index_ = 3 ∧
    (∀ i, i < 4 → bucket3_removed.GetReadableBit i = true →
      ¬ (compareInt 5 (bucket3_removed.entryAt i).1 = 0 ∧ (bucket3_removed.entryAt i).2 = 50)) ∧
    (bucket3_removed.Insert 4 5 50 compareInt).1 = true ∧
    (bucket3_removed.Insert 4 5 50 compareInt).2.entryAt bucket3_removed.next_occupied_index_
      = (5, 50) ∧
    (bucket3_removed.Insert 4 5 50 compareInt).2.GetReadableBit 0 = false :=
  ⟨by decide, by decide, by decide, by decide,
    (((bucket_insert_placement 4 compareInt compareInt_self
      [.insert 1 10, .insert 1 20, .insert 2 30, .remove 1 10] bucket3_removed (by decide)
      5 50).2.2 (by decide)).2 ⟨3, by decide, by decide⟩).1,
    (((bucket_insert_placement 4 compareInt compareInt_self
      [.insert 1 10, .insert 1 20, .insert 2 30, .remove 1 10] bucket3_removed (by decide)
      5 50).2.2 (by decide)).2 ⟨3, by decide, by decide⟩).2.2.2.2.1,
    by decide⟩

/-! ## Agreement is kept by every operation -/

theorem PageTable.erase_sublist (t : PageTable) (p : page_id_t) :
    List.Sublist (PageTable.erase t p) t :=
  List.filter_sublist _

theorem PageTable.key_not_mem_erase (t : PageTable) (p : page_id_t) :
    p ∉ (PageTable.erase t p).map Prod.fst := by
  intro h
  obtain ⟨e, he, hk⟩ := List.mem_map.mp h
  have := (List.mem_filter.mp he).2
  simp at this
  exact this hk

theorem PageTable.keys_erase (t : PageTable) (p : page_id_t)
    (h : (t.map Prod.fst).Nodup) : ((PageTable.erase t p).map Prod.fst).Nodup :=
  h.sublist ((PageTable.erase_sublist t p).map _)

theorem PageTable.keys_assign (t : PageTable) (p : page_id_t) (f : frame_id_t)
    (h : (t.map Prod.fst).Nodup) : ((PageTable.assign t p f).map Prod.fst).Nodup := by
  simp only [PageTable.assign, List.map_cons]
  exact List.nodup_cons.mpr ⟨PageTable.key_not_mem_erase t p, PageTable.keys_erase t p h⟩

theorem PageTable.find_of_mem (t : PageTable) (h : (t.map Prod.fst).Nodup) (p : page_id_t)
    (f : frame_id_t) (hm : (p, f) ∈ t) : PageTable.find t p = some f := by
  induction t with
  | nil => simp at hm
  | cons e rest ih =>
    obtain ⟨k, v⟩ := e
    simp only [List.map_cons, List.nodup_cons] at h
    rcases List.mem_cons.mp hm with h1 | h1
    · simp only [Prod.mk.injEq] at h1
      simp [PageTable.find, h1.1, h1.2]
    · have hk : k ≠ p := by
        intro e
        apply h.1
        rw [e]
        exact List.mem_map.mpr ⟨(p, f), h1, rfl⟩
      simp only [PageTable.find, hk, if_false]
      exact ih h.2 h1

theorem PageTable.erase_of_not_key (t : PageTable) (p : page_id_t)
    (h : p ∉ t.map Prod.fst) : PageTable.erase t p = t := by
  unfold PageTable.erase
  rw [List.filter_eq_self]
  intro e he
  simp only [decide_eq_true_eq]
  intro hk
  exact h (List.mem_map.mpr ⟨e, he, hk⟩)

theorem PageTable.length_erase_of_key (t : PageTable) (h : (t.map Prod.fst).Nodup)
    (p : page_id_t) (hp : p ∈ t.map Prod.fst) :
    (PageTable.erase t p).length + 1 = t.length := by
  induction t with
  | nil => simp at hp
  | cons e rest ih =>
    obtain ⟨k, v⟩ := e
    simp only [List.map_cons, List.nodup_cons] at h
    rw [PageTable.erase_cons]
    by_cases hk : k = p
    · simp only [hk, if_true, List.length_cons]
      rw [PageTable.erase_of_not_key rest p (hk ▸ h.1)]
    · simp only [hk, if_false, List.length_cons]
      have : p ∈ rest.map Prod.fst := by
        simp only [List.map_cons, List.mem_cons] at hp
        rcases hp with h1 | h1
        · exact absurd h1.symm hk
        · exact h1
      rw [ih h.2 this]

theorem PageTable.not_key_of_find_none (t : PageTable) (p : page_id_t)
    (h : PageTable.find t p = none) : p ∉ t.map Prod.fst := by
  induction t with
  | nil => simp
  | cons e rest ih =>
    obtain ⟨k, v⟩ := e
    by_cases hk : k = p
    · simp [PageTable.find, hk] at h
    · simp only [PageTable.find, hk, if_false] at h
      simp only [List.map_cons, List.mem_cons, not_or]
      exact ⟨fun e => hk e.symm, ih h⟩

namespace BufferPoolManagerInstance

theorem Agree_create (PAGE_SIZE pool_size num_instances instance_index : Nat)
    (disk_manager : DiskManager) :
    (create PAGE_SIZE pool_size num_instances instance_index disk_manager).Agree := by
  refine ⟨Inv_create _ _ _ _ _, by simp [create], by simp [create], ?_⟩
  simp only [create, List.map_nil, List.append_nil]
  exact List.nodup_range pool_size

theorem Agree_of_fields (s t : BufferPoolManagerInstance) (hs : s.Agree) (ht : t.Inv)
    (h2 : t.pages_ = s.pages_) (h3 : t.page_table_ = s.page_table_)
    (h4 : t.free_list_ = s.free_list_) : t.Agree := by
  have hp : ∀ f, t.pageAt f = s.pageAt f := by
    intro f; simp [pageAt, h2]
  refine ⟨ht, by rw [h3]; exact hs.keys, ?_, by rw [h3, h4]; exact hs.frames⟩
  intro e he
  rw [hp]
  rw [h3] at he
  exact hs.ids e he

/-- A frame keeps its page id; page table and free list are untouched. -/
theorem Agree_same_id (s t : BufferPoolManagerInstance) (hs : s.Agree) (ht : t.Inv)
    (f : frame_id_t) (pg : Page) (hpages : t.pages_ = s.pages_.set f pg)
    (hid : pg.page_id_ = (s.pageAt f).page_id_) (h3 : t.page_table_ = s.page_table_)
    (h4 : t.free_list_ = s.free_list_) : t.Agree := by
  have hp : ∀ g, (t.pageAt g).page_id_ = (s.pageAt g).page_id_ := by
    intro g
    rw [pageAt_of_set s t f pg hpages g]
    split
    · rename_i h; rw [h.1]; exact hid
    · rfl
  refine ⟨ht, by rw [h3]; exact hs.keys, ?_, by rw [h3, h4]; exact hs.frames⟩
  intro e he
  rw [hp]
  rw [h3] at he
  exact hs.ids e he

/-- A page id is installed in the frame at the front of the free list. -/
theorem Agree_install_free (s t : BufferPoolManagerInstance) (hs : s.Agree) (ht : t.Inv)
    (f : frame_id_t) (rest : List frame_id_t) (pg : Page) (x : page_id_t)
    (hfree : s.free_list_ = f :: rest) (hpages : t.pages_ = s.pages_.set f pg)
    (hid : pg.page_id_ = x) (h3 : t.page_table_ = s.page_table_.assign x f)
    (h4 : t.free_list_ = rest) : t.Agree := by
  have hflt : f < s.pages_.length := by
    rw [hs.inv.len]; exact hs.inv.free f (by rw [hfree]; exact List.mem_cons_self _ _)
  have hfr := hs.frames
  rw [hfree] at hfr
  simp only [List.cons_append, List.nodup_cons, List.mem_append, not_or] at hfr
  refine ⟨ht, by rw [h3]; exact PageTable.keys_assign _ _ _ hs.keys, ?_, ?_⟩
  · intro e he
    rw [h3] at he
    rw [pageAt_of_set s t f pg hpages e.2]
    rcases List.mem_cons.mp he with h1 | h1
    · rw [h1]; simp [hflt, hid]
    · have hmem : e ∈ s.page_table_ := mem_erase _ _ e h1
      have hne : e.2 ≠ f := by
        intro heq
        exact hfr.1.2 (heq ▸ List.mem_map.mpr ⟨e, hmem, rfl⟩)
      simp only [hne, false_and, if_false]
      exact hs.ids e hmem
  · rw [h3, h4]
    simp only [PageTable.assign, List.map_cons]
    have hsub : List.Sublist (rest ++ (PageTable.erase s.page_table_ x).map Prod.snd)
        (rest ++ s.page_table_.map Prod.snd) :=
      List.Sublist.append (List.Sublist.refl _) ((PageTable.erase_sublist _ _).map _)
    have hnd : (f :: (rest ++ (PageTable.erase s.page_table_ x).map Prod.snd)).Nodup := by
      refine List.nodup_cons.mpr ⟨?_, hfr.2.sublist hsub⟩
      intro hm
      rcases List.mem_append.mp (hsub.subset hm) with h | h
      · exact hfr.1.1 h
      · exact hfr.1.2 h
    exact (List.perm_middle.nodup_iff).mpr hnd

/-- A page id is installed in a victim frame while the free list is empty. -/
theorem Agree_install_victim (s t : BufferPoolManagerInstance) (hs : s.Agree) (ht : t.Inv)
    (f : frame_id_t) (pg : Page) (x : page_id_t) (hf : f < s.pool_size_)
    (hfree : s.free_list_ = []) (hpages : t.pages_ = s.pages_.set f pg)
    (hid : pg.page_id_ = x)
    (h3 : t.page_table_ = (s.page_table_.erase (s.pageAt f).page_id_).assign x f)
    (h4 : t.free_list_ = []) : t.Agree := by
  have hflt : f < s.pages_.length := by rw [hs.inv.len]; exact hf
  have hfr := hs.frames
  rw [hfree] at hfr
  simp only [List.nil_append] at hfr
  have hkeep : ∀ e ∈ PageTable.erase (PageTable.erase s.page_table_ (s.pageAt f).page_id_) x,
      e ∈ s.page_table_ ∧ e.2 ≠ f := by
    intro e he
    have h1 : e ∈ PageTable.erase s.page_table_ (s.pageAt f).page_id_ := mem_erase _ _ e he
    have h2 : e ∈ s.page_table_ := mem_erase _ _ e h1
    refine ⟨h2, ?_⟩
    intro heq
    have hq := hs.ids e h2
    rw [heq] at hq
    have := (List.mem_filter.mp h1).2
    simp at this
    exact this hq.symm
  refine ⟨ht, ?_, ?_, ?_⟩
  · rw [h3]
    exact PageTable.keys_assign _ _ _ (PageTable.keys_erase _ _ hs.keys)
  · intro e he
    rw [h3] at he
    rw [pageAt_of_set s t f pg hpages e.2]
    rcases List.mem_cons.mp he with h1 | h1
    · rw [h1]; simp [hflt, hid]
    · obtain ⟨hmem, hne⟩ := hkeep e h1
      simp only [hne, false_and, if_false]
      exact hs.ids e hmem
  · rw [h3, h4]
    simp only [PageTable.assign, List.map_cons, List.nil_append]
    refine List.nodup_cons.mpr ⟨?_, ?_⟩
    · intro hm
      obtain ⟨e, he, hef⟩ := List.mem_map.mp hm
      exact (hkeep e he).2 hef
    · exact hfr.sublist (((PageTable.erase_sublist _ _).trans
        (PageTable.erase_sublist _ _)).map _)

/-- A resident page is deleted: its frame goes to the back of the free list. -/
theorem Agree_delete (s t : BufferPoolManagerInstance) (hs : s.Agree) (ht : t.Inv)
    (page_id : page_id_t) (f : frame_id_t) (pg : Page)
    (hres : s.page_table_.find page_id = some f) (hpages : t.pages_ = s.pages_.set f pg)
    (hid : pg.page_id_ = (s.pageAt f).page_id_)
    (h3 : t.page_table_ = s.page_table_.erase page_id)
    (h4 : t.free_list_ = s.free_list_ ++ [f]) : t.Agree := by
  have hmemf : (page_id, f) ∈ s.page_table_ := PageTable.mem_of_find _ _ _ hres
  have hp : ∀ g, (t.pageAt g).page_id_ = (s.pageAt g).page_id_ := by
    intro g
    rw [pageAt_of_set s t f pg hpages g]
    split
    · rename_i h; rw [h.1]; exact hid
    · rfl
  have hfr := hs.frames
  rw [List.nodup_append] at hfr
  refine ⟨ht, by rw [h3]; exact PageTable.keys_erase _ _ hs.keys, ?_, ?_⟩
  · intro e he
    rw [h3] at he
    rw [hp]
    exact hs.ids e (mem_erase _ _ e he)
  · rw [h3, h4]
    have hf_free : f ∉ s.free_list_ := by
      intro hm
      exact hfr.2.2 hm (List.mem_map.mpr ⟨(page_id, f), hmemf, rfl⟩)
    have hf_tab : f ∉ (PageTable.erase s.page_table_ page_id).map Prod.snd := by
      intro hm
      obtain ⟨e, he, hef⟩ := List.mem_map.mp hm
      have h2 : e ∈ s.page_table_ := mem_erase _ _ e he
      have hq := hs.ids e h2
      have hq2 := hs.ids (page_id, f) hmemf
      rw [hef] at hq
      simp only at hq2
      have := (List.mem_filter.mp he).2
      simp at this
      exact this (hq.symm.trans hq2)
    have hnd : (s.free_list_ ++ (PageTable.erase s.page_table_ page_id).map Prod.snd).Nodup :=
      hs.frames.sublist
        (List.Sublist.append (List.Sublist.refl _) ((PageTable.erase_sublist _ _).map _))
    rw [List.append_assoc, List.singleton_append]
    refine (List.perm_middle.nodup_iff).mpr (List.nodup_cons.mpr ⟨?_, hnd⟩)
    intro hm
    rcases List.mem_append.mp hm with h | h
    · exact hf_free h
    · exact hf_tab h

end BufferPoolManagerInstance

theorem mem_of_nodup_full (l : List Nat) (n : Nat) (hnd : l.Nodup) (hlt : ∀ x ∈ l, x < n)
    (hlen : l.length = n) (k : Nat) (hk : k < n) : k ∈ l := by
  have hsub : l ⊆ List.range n := fun x hx => List.mem_range.mpr (hlt x hx)
  have hperm : l.Perm (List.range n) :=
    (hnd.subperm hsub).perm_of_length_le (by rw [List.length_range, hlen])
  exact hperm.mem_iff.mpr (List.mem_range.mpr hk)

theorem length_le_of_nodup_bounded (l : List Nat) (n : Nat) (hnd : l.Nodup)
    (hlt : ∀ x ∈ l, x < n) : l.length ≤ n := by
  have hsub : l ⊆ List.range n := fun x hx => List.mem_range.mpr (hlt x hx)
  have := (hnd.subperm hsub).length_le
  rwa [List.length_range] at this

namespace BufferPoolManagerInstance

theorem Agree_NewPgImp (s : BufferPoolManagerInstance) (hs : s.Agree) : s.NewPgImp.2.Agree := by
  have ht := Inv_NewPgImp s hs.inv
  by_cases hpa : s.pin_all = true
  · rw [NewPgImp_of_pin_all s hpa]; exact hs
  · have hpa2 : s.pin_all = false := by simpa using hpa
    cases hfree : s.free_list_ with
    | cons f rest =>
      rw [NewPgImp_of_free s f rest hpa2 hfree] at ht ⊢
      exact Agree_install_free s _ hs ht f rest _ s.next_page_id_ hfree rfl rfl rfl rfl
    | nil =>
      cases hv : s.replacer_.Victim.1 with
      | none => rw [NewPgImp_of_empty s hfree hv]; exact hs
      | some f =>
        rw [NewPgImp_of_victim s f hpa2 hfree hv] at ht ⊢
        have hfl : f ∈ s.replacer_.lists_ := by
          rw [LRUReplacer.Victim_some_split _ f hv]; simp
        exact Agree_install_victim s _ hs ht f _ s.next_page_id_ (hs.inv.repl f hfl) hfree
          rfl rfl rfl hfree

theorem Agree_FetchPgImp (PAGE_SIZE : Nat) (s : BufferPoolManagerInstance) (hs : s.Agree)
    (page_id : page_id_t) : (s.FetchPgImp PAGE_SIZE page_id).2.Agree := by
  have ht := Inv_FetchPgImp PAGE_SIZE s hs.inv page_id
  cases hres : s.page_table_.find page_id with
  | some f =>
    rw [FetchPgImp_of_resident PAGE_SIZE s page_id f hres] at ht ⊢
    exact Agree_same_id s _ hs ht f _ rfl rfl rfl rfl
  | none =>
    cases hfree : s.free_list_ with
    | cons f rest =>
      rw [FetchPgImp_of_free PAGE_SIZE s page_id f rest hres hfree] at ht ⊢
      exact Agree_install_free s _ hs ht f rest _ page_id hfree rfl rfl rfl rfl
    | nil =>
      cases hv : s.replacer_.Victim.1 with
      | none => rw [FetchPgImp_of_empty PAGE_SIZE s page_id hres hfree hv]; exact hs
      | some f =>
        rw [FetchPgImp_of_victim PAGE_SIZE s page_id f hres hfree hv] at ht ⊢
        have hfl : f ∈ s.replacer_.lists_ := by
          rw [LRUReplacer.Victim_some_split _ f hv]; simp
        exact Agree_install_victim s _ hs ht f _ page_id (hs.inv.repl f hfl) hfree
          rfl rfl rfl hfree

theorem Agree_UnpinPgImp (s : BufferPoolManagerInstance) (hs : s.Agree) (page_id : page_id_t)
    (is_dirty : Bool) : (s.UnpinPgImp page_id is_dirty).2.Agree := by
  have ht := Inv_UnpinPgImp s hs.inv page_id is_dirty
  cases hres : s.page_table_.find page_id with
  | none => rw [UnpinPgImp_of_absent s page_id is_dirty hres]; exact hs
  | some f =>
    by_cases hpin : (s.pageAt f).pin_count_ ≤ 0
    · rw [UnpinPgImp_of_nonpos s page_id is_dirty f hres hpin] at ht ⊢
      refine Agree_same_id s _ hs ht f _ rfl ?_ rfl rfl
      cases is_dirty <;> rfl
    · rw [UnpinPgImp_of_pos s page_id is_dirty f hres (not_le.mp hpin)] at ht ⊢
      exact Agree_same_id s _ hs ht f _ rfl rfl rfl rfl

theorem Agree_DeletePgImp (PAGE_SIZE : Nat) (s : BufferPoolManagerInstance) (hs : s.Agree)
    (page_id : page_id_t) : (s.DeletePgImp PAGE_SIZE page_id).2.Agree := by
  have ht := Inv_DeletePgImp PAGE_SIZE s hs.inv page_id
  cases hres : s.page_table_.find page_id with
  | none => rw [DeletePgImp_of_absent PAGE_SIZE s page_id hres]; exact hs
  | some f =>
    by_cases hpin : (s.pageAt f).pin_count_ = 0
    · rw [DeletePgImp_of_unpinned PAGE_SIZE s page_id f hres hpin] at ht ⊢
      exact Agree_delete s _ hs ht page_id f _ hres rfl rfl rfl rfl
    · rw [DeletePgImp_of_pinned PAGE_SIZE s page_id f hres hpin]; exact hs

theorem Agree_FlushPgImp (s : BufferPoolManagerInstance) (hs : s.Agree)
    (page_id : page_id_t) : (s.FlushPgImp page_id).2.Agree := by
  have ht := Inv_FlushPgImp s hs.inv page_id
  cases hres : s.page_table_.find page_id with
  | none => rw [FlushPgImp_of_absent s page_id hres]; exact hs
  | some f =>
    rw [FlushPgImp_of_resident s page_id f hres] at ht ⊢
    exact Agree_of_fields s _ hs ht rfl rfl rfl

theorem Agree_step (PAGE_SIZE : Nat) (s : BufferPoolManagerInstance) (hs : s.Agree)
    (op : PoolOp) : (s.step PAGE_SIZE op).Agree := by
  cases op with
  | new_page => exact Agree_NewPgImp s hs
  | fetch_page p => exact Agree_FetchPgImp PAGE_SIZE s hs p
  | unpin_page p d => exact Agree_UnpinPgImp s hs p d
  | flush_page p => exact Agree_FlushPgImp s hs p
  | delete_page p => exact Agree_DeletePgImp PAGE_SIZE s hs p

end BufferPoolManagerInstance

theorem Reachable.agree {PAGE_SIZE pool_size num_instances instance_index : Nat}
    {disk_manager : DiskManager} {s : BufferPoolManagerInstance}
    (h : Reachable PAGE_SIZE pool_size num_instances instance_index disk_manager s) :
    s.Agree := by
  induction h with
  | init => exact BufferPoolManagerInstance.Agree_create _ _ _ _ _
  | step s op _ ih => exact BufferPoolManagerInstance.Agree_step PAGE_SIZE s ih op

/-! ## Frame accounting -/

namespace BufferPoolManagerInstance

theorem Accounted_create (PAGE_SIZE pool_size num_instances instance_index : Nat)
    (disk_manager : DiskManager) (hN : 0 < num_instances) :
    (create PAGE_SIZE pool_size num_instances instance_index disk_manager).Accounted := by
  refine ⟨Agree_create _ _ _ _ _, hN, by simp [create], by simp [create]⟩

theorem not_key_of_below (s : BufferPoolManagerInstance)
    (hb : ∀ e ∈ s.page_table_, e.1 < s.next_page_id_) (t : PageTable)
    (ht : List.Sublist t s.page_table_) (x : page_id_t) (hx : s.next_page_id_ ≤ x) :
    x ∉ t.map Prod.fst := by
  intro hm
  obtain ⟨e, he, hk⟩ := List.mem_map.mp hm
  have := hb e (ht.subset he)
  rw [hk] at this
  exact absurd (lt_of_lt_of_le this hx) (lt_irrefl _)

/-- With an empty free list and full accounting, the frame of a valid index is resident and its
page id is a key of the page table. -/
theorem key_of_frame (s : BufferPoolManagerInstance) (hs : s.Accounted)
    (hfree : s.free_list_ = []) (f : frame_id_t) (hf : f < s.pool_size_) :
    (s.pageAt f).page_id_ ∈ s.page_table_.map Prod.fst := by
  have hfr := hs.agree.frames
  have hc := hs.count
  rw [hfree] at hfr hc
  simp only [List.nil_append, List.length_nil, Nat.zero_add] at hfr hc
  have hmem : f ∈ s.page_table_.map Prod.snd := by
    refine mem_of_nodup_full _ s.pool_size_ hfr ?_ (by rw [List.length_map]; exact hc) f hf
    intro x hx
    obtain ⟨e, he, hex⟩ := List.mem_map.mp hx
    rw [← hex]
    exact hs.agree.inv.table e he
  obtain ⟨e, he, hef⟩ := List.mem_map.mp hmem
  have := hs.agree.ids e he
  rw [hef] at this
  rw [this]
  exact List.mem_map.mpr ⟨e, he, rfl⟩

theorem count_install_free (s : BufferPoolManagerInstance) (hs : s.Accounted)
    (f : frame_id_t) (rest : List frame_id_t) (x : page_id_t)
    (hfree : s.free_list_ = f :: rest) (hx : x ∉ s.page_table_.map Prod.fst) :
    rest.length + (s.page_table_.assign x f).length = s.pool_size_ := by
  have hc := hs.count
  rw [hfree] at hc
  simp only [PageTable.assign, List.length_cons, PageTable.erase_of_not_key _ _ hx] at hc ⊢
  omega

theorem count_install_victim (s : BufferPoolManagerInstance) (hs : s.Accounted)
    (f : frame_id_t) (x : page_id_t) (hf : f < s.pool_size_) (hfree : s.free_list_ = [])
    (hx : x ∉ (s.page_table_.erase (s.pageAt f).page_id_).map Prod.fst) :
    ([] : List frame_id_t).length
        + ((s.page_table_.erase (s.pageAt f).page_id_).assign x f).length
      = s.pool_size_ := by
  have hc := hs.count
  rw [hfree] at hc
  have hq := PageTable.length_erase_of_key _ hs.agree.keys _ (key_of_frame s hs hfree f hf)
  simp only [PageTable.assign, List.length_cons, List.length_nil,
    PageTable.erase_of_not_key _ _ hx] at hc ⊢
  omega

theorem Accounted_NewPgImp (s : BufferPoolManagerInstance) (hs : s.Accounted) :
    s.NewPgImp.2.Accounted := by
  have ha := Agree_NewPgImp s hs.agree
  have hpos : (0 : Int) < (s.num_instances_ : Int) := by exact_mod_cast hs.pos
  by_cases hpa : s.pin_all = true
  · rw [NewPgImp_of_pin_all s hpa]; exact hs
  · have hpa2 : s.pin_all = false := by simpa using hpa
    cases hfree : s.free_list_ with
    | cons f rest =>
      have hx := not_key_of_below s hs.below s.page_table_ (List.Sublist.refl _)
        s.next_page_id_ (le_refl _)
      rw [NewPgImp_of_free s f rest hpa2 hfree] at ha ⊢
      refine ⟨ha, hs.pos, ?_, count_install_free s hs f rest _ hfree hx⟩
      intro e he
      show e.1 < s.next_page_id_ + (s.num_instances_ : Int)
      rcases List.mem_cons.mp he with h1 | h1
      · rw [h1]; exact lt_add_of_pos_right _ hpos
      · exact lt_trans (hs.below e (mem_erase _ _ e h1)) (lt_add_of_pos_right _ hpos)
    | nil =>
      cases hv : s.replacer_.Victim.1 with
      | none => rw [NewPgImp_of_empty s hfree hv]; exact hs
      | some f =>
        have hfl : f ∈ s.replacer_.lists_ := by
          rw [LRUReplacer.Victim_some_split _ f hv]; simp
        have hf := hs.agree.inv.repl f hfl
        have hx := not_key_of_below s hs.below _
          (PageTable.erase_sublist s.page_table_ (s.pageAt f).page_id_)
          s.next_page_id_ (le_refl _)
        rw [NewPgImp_of_victim s f hpa2 hfree hv] at ha ⊢
        refine ⟨ha, hs.pos, ?_, ?_⟩
        · intro e he
          show e.1 < s.next_page_id_ + (s.num_instances_ : Int)
          rcases List.mem_cons.mp he with h1 | h1
          · rw [h1]; exact lt_add_of_pos_right _ hpos
          · exact lt_trans (hs.below e (mem_erase _ _ e (mem_erase _ _ e h1)))
              (lt_add_of_pos_right _ hpos)
        · have := count_install_victim s hs f s.next_page_id_ hf hfree hx
          rw [hfree]
          exact this

theorem Accounted_FetchPgImp (PAGE_SIZE : Nat) (s : BufferPoolManagerInstance)
    (hs : s.Accounted) (page_id : page_id_t) (hp : page_id < s.next_page_id_) :
    (s.FetchPgImp PAGE_SIZE page_id).2.Accounted := by
  have ha := Agree_FetchPgImp PAGE_SIZE s hs.agree page_id
  cases hres : s.page_table_.find page_id with
  | some f =>
    rw [FetchPgImp_of_resident PAGE_SIZE s page_id f hres] at ha ⊢
    exact ⟨ha, hs.pos, hs.below, hs.count⟩
  | none =>
    have hx := PageTable.not_key_of_find_none _ _ hres
    cases hfree : s.free_list_ with
    | cons f rest =>
      rw [FetchPgImp_of_free PAGE_SIZE s page_id f rest hres hfree] at ha ⊢
      refine ⟨ha, hs.pos, ?_, count_install_free s hs f rest _ hfree hx⟩
      intro e he
      show e.1 < s.next_page_id_
      rcases List.mem_cons.mp he with h1 | h1
      · rw [h1]; exact hp
      · exact hs.below e (mem_erase _ _ e h1)
    | nil =>
      cases hv : s.replacer_.Victim.1 with
      | none => rw [FetchPgImp_of_empty PAGE_SIZE s page_id hres hfree hv]; exact hs
      | some f =>
        have hfl : f ∈ s.replacer_.lists_ := by
          rw [LRUReplacer.Victim_some_split _ f hv]; simp
        have hf := hs.agree.inv.repl f hfl
        have hx2 : page_id ∉ (s.page_table_.erase (s.pageAt f).page_id_).map Prod.fst :=
          fun hm => hx (((PageTable.erase_sublist _ _).map _).subset hm)
        rw [FetchPgImp_of_victim PAGE_SIZE s page_id f hres hfree hv] at ha ⊢
        refine ⟨ha, hs.pos, ?_, ?_⟩
        · intro e he
          show e.1 < s.next_page_id_
          rcases List.mem_cons.mp he with h1 | h1
          · rw [h1]; exact hp
          · exact hs.below e (mem_erase _ _ e (mem_erase _ _ e h1))
        · have := count_install_victim s hs f page_id hf hfree hx2
          rw [hfree]
          exact this

theorem Accounted_UnpinPgImp (s : BufferPoolManagerInstance) (hs : s.Accounted)
    (page_id : page_id_t) (is_dirty : Bool) : (s.UnpinPgImp page_id is_dirty).2.Accounted := by
  have ha := Agree_UnpinPgImp s hs.agree page_id is_dirty
  cases hres : s.page_table_.find page_id with
  | none => rw [UnpinPgImp_of_absent s page_id is_dirty hres]; exact hs
  | some f =>
    by_cases hpin : (s.pageAt f).pin_count_ ≤ 0
    · rw [UnpinPgImp_of_nonpos s page_id is_dirty f hres hpin] at ha ⊢
      exact ⟨ha, hs.pos, hs.below, hs.count⟩
    · rw [UnpinPgImp_of_pos s page_id is_dirty f hres (not_le.mp hpin)] at ha ⊢
      exact ⟨ha, hs.pos, hs.below, hs.count⟩

theorem Accounted_FlushPgImp (s : BufferPoolManagerInstance) (hs : s.Accounted)
    (page_id : page_id_t) : (s.FlushPgImp page_id).2.Accounted := by
  have ha := Agree_FlushPgImp s hs.agree page_id
  cases hres : s.page_table_.find page_id with
  | none => rw [FlushPgImp_of_absent s page_id hres]; exact hs
  | some f =>
    rw [FlushPgImp_of_resident s page_id f hres] at ha ⊢
    exact ⟨ha, hs.pos, hs.below, hs.count⟩

theorem Accounted_DeletePgImp (PAGE_SIZE : Nat) (s : BufferPoolManagerInstance)
    (hs : s.Accounted) (page_id : page_id_t) :
    (s.DeletePgImp PAGE_SIZE page_id).2.Accounted := by
  have ha := Agree_DeletePgImp PAGE_SIZE s hs.agree page_id
  cases hres : s.page_table_.find page_id with
  | none => rw [DeletePgImp_of_absent PAGE_SIZE s page_id hres]; exact hs
  | some f =>
    by_cases hpin : (s.pageAt f).pin_count_ = 0
    · have hkey : page_id ∈ s.page_table_.map Prod.fst :=
        List.mem_map.mpr ⟨(page_id, f), PageTable.mem_of_find _ _ _ hres, rfl⟩
      have hq := PageTable.length_erase_of_key _ hs.agree.keys _ hkey
      have hc := hs.count
      rw [DeletePgImp_of_unpinned PAGE_SIZE s page_id f hres hpin] at ha ⊢
      refine ⟨ha, hs.pos, ?_, ?_⟩
      · intro e he
        exact hs.below e (mem_erase _ _ e he)
      · show (s.free_list_ ++ [f]).length + (PageTable.erase s.page_table_ page_id).length
          = s.pool_size_
        rw [List.length_append, List.length_singleton]
        omega
    · rw [DeletePgImp_of_pinned PAGE_SIZE s page_id f hres hpin]; exact hs

end BufferPoolManagerInstance

theorem ReachableAllocated.accounted {PAGE_SIZE pool_size num_instances instance_index : Nat}
    {disk_manager : DiskManager} {s : BufferPoolManagerInstance} (hN : 0 < num_instances)
    (h : ReachableAllocated PAGE_SIZE pool_size num_instances instance_index disk_manager s) :
    s.Accounted := by
  induction h with
  | init => exact BufferPoolManagerInstance.Accounted_create _ _ _ _ _ hN
  | step s op _ hop ih =>
    cases op with
    | new_page => exact BufferPoolManagerInstance.Accounted_NewPgImp s ih
    | fetch_page p =>
      exact BufferPoolManagerInstance.Accounted_FetchPgImp PAGE_SIZE s ih p (hop p rfl)
    | unpin_page p d => exact BufferPoolManagerInstance.Accounted_UnpinPgImp s ih p d
    | flush_page p => exact BufferPoolManagerInstance.Accounted_FlushPgImp s ih p
    | delete_page p => exact BufferPoolManagerInstance.Accounted_DeletePgImp PAGE_SIZE s ih p

theorem ReachableAllocated.after_ops {PAGE_SIZE pool_size num_instances instance_index : Nat}
    {disk_manager : DiskManager} {s : BufferPoolManagerInstance}
    (h : ReachableAllocated PAGE_SIZE pool_size num_instances instance_index disk_manager s)
    (op : PoolOp) (hop : ∀ p, op ≠ .fetch_page p) :
    ReachableAllocated PAGE_SIZE pool_size num_instances instance_index disk_manager
      (s.step PAGE_SIZE op) :=
  ReachableAllocated.step s op h (fun p hp => absurd hp (hop p))

/-- C17, as stated, fails: on a fresh instance with two frames, `fetch_page(0)` makes page 0
resident in frame 0 without allocating its id; `new_page` then allocates id 0 and overwrites the
page-table entry.  The free list is empty and the page table has one entry, while the pool has
two frames. -/
theorem frame_accounting_breaks_on_collision :
    pool2_collision = pool2.run 4 [.fetch_page 0, .new_page] ∧
    pool2_collision.free_list_ = [] ∧
    pool2_collision.page_table_ = [(0, 1)] ∧
    pool2_collision.pool_size_ = 2 ∧
    pool2_collision.free_list_.length + pool2_collision.page_table_.length
      ≠ pool2_collision.pool_size_ := by
  decide

/-- C17, amended: in every state reachable from a fresh instance (instance count positive) by
calls in which `fetch_page` is only applied to page ids below the id that `new_page` would
allocate next, the free list and the page table together hold exactly `pool_size_` entries; in
every reachable state, without that restriction, they hold at most `pool_size_` entries. -/
theorem frame_accounting (PAGE_SIZE pool_size num_instances instance_index : Nat)
    (disk_manager : DiskManager) (hN : 0 < num_instances) (s : BufferPoolManagerInstance) :
    (ReachableAllocated PAGE_SIZE pool_size num_instances instance_index disk_manager s →
      s.free_list_.length + s.page_table_.length = s.pool_size_) ∧
    (Reachable PAGE_SIZE pool_size num_instances instance_index disk_manager s →
      s.free_list_.length + s.page_table_.length ≤ s.pool_size_) := by
  refine ⟨fun h => (h.accounted hN).count, fun h => ?_⟩
  have ha := h.agree
  have hb : ∀ x ∈ s.free_list_ ++ s.page_table_.map Prod.snd, x < s.pool_size_ := by
    intro x hx
    rcases List.mem_append.mp hx with h1 | h1
    · exact ha.inv.free x h1
    · obtain ⟨e, he, hex⟩ := List.mem_map.mp h1
      rw [← hex]
      exact ha.inv.table e he
  have := length_le_of_nodup_bounded _ s.pool_size_ ha.frames hb
  rwa [List.length_append, List.length_map] at this

/-- Scenario of C17: after `new_page`, `unpin_page(0, false)`, `delete_page(0)` and
`fetch_page(0)` on two frames, the free list holds frame 0 and the page table holds page 0: two
entries for two frames. -/
theorem frame_accounting_witness :
    pool2_refetched.free_list_ = [0] ∧
    pool2_refetched.page_table_ = [(0, 1)] ∧
    pool2_refetched.free_list_.length + pool2_refetched.page_table_.length
      = pool2_refetched.pool_size_ :=
  ⟨by decide, by decide,
    (frame_accounting 4 2 1 0 { writes := [] } (by decide) pool2_refetched).1
      (ReachableAllocated.step _ (.fetch_page 0)
        (((ReachableAllocated.init.after_ops .new_page
          (fun _ h => PoolOp.noConfusion h)).after_ops (.unpin_page 0 false)
          (fun _ h => PoolOp.noConfusion h)).after_ops (.delete_page 0)
          (fun _ h => PoolOp.noConfusion h))
        (fun p hp => by
          injection hp with hp
          rw [← hp]
          decide))⟩

/-- C18, as stated, fails.  After `fetch_page(0)` and `new_page` on two frames, page 0 is
resident in frame 1, while frame 0, pinned and not on the free list, carries page id 0 too.
After `new_page`, `unpin_page(0, false)`, `delete_page(0)` and `fetch_page(0)`, page 0 is
resident in frame 1 and frame 0, on the free list, still carries page id 0. -/
theorem frame_carries_resident_id :
    pool2_collision.page_table_.find 0 = some 1 ∧
    (pool2_collision.pageAt 0).page_id_ = 0 ∧
    0 ∉ pool2_collision.free_list_ ∧
    pool2_collision.page_table_.find 0 ≠ some 0 ∧
    (pool2_refetched.page_table_.find 0 = some 1 ∧
      (pool2_refetched.pageAt 0).page_id_ = 0 ∧
      pool2_refetched.free_list_ = [0] ∧
      pool2_refetched.page_table_.find 0 ≠ some 0) := by
  decide

/-- C18, amended: in every reachable state, `page_table[p] = f` implies that frame `f` carries
page id `p`; and in every state reachable by calls in which `fetch_page` is only applied to page
ids below the id that `new_page` would allocate next, for every frame index `f` below
`pool_size_` that is not on the free list, `page_table[p] = f` holds if and only if frame `f`
carries page id `p`. -/
theorem page_table_frame_agreement (PAGE_SIZE pool_size num_instances instance_index : Nat)
    (disk_manager : DiskManager) (hN : 0 < num_instances) (s : BufferPoolManagerInstance) :
    (Reachable PAGE_SIZE pool_size num_instances instance_index disk_manager s →
      ∀ p f, s.page_table_.find p = some f → (s.pageAt f).page_id_ = p) ∧
    (ReachableAllocated PAGE_SIZE pool_size num_instances instance_index disk_manager s →
      ∀ p f, f < s.pool_size_ → f ∉ s.free_list_ →
        (s.page_table_.find p = some f ↔ (s.pageAt f).page_id_ = p)) := by
  refine ⟨fun h p f hres => ?_, fun h p f hf hfree => ?_⟩
  · exact h.agree.ids (p, f) (PageTable.mem_of_find _ _ _ hres)
  · have hs := h.accounted hN
    constructor
    · intro hres
      exact hs.agree.ids (p, f) (PageTable.mem_of_find _ _ _ hres)
    · intro hid
      have hb : ∀ x ∈ s.free_list_ ++ s.page_table_.map Prod.snd, x < s.pool_size_ := by
        intro x hx
        rcases List.mem_append.mp hx with h1 | h1
        · exact hs.agree.inv.free x h1
        · obtain ⟨e, he, hex⟩ := List.mem_map.mp h1
          rw [← hex]
          exact hs.agree.inv.table e he
      have hmem := mem_of_nodup_full _ s.pool_size_ hs.agree.frames hb
        (by rw [List.length_append, List.length_map]; exact hs.count) f hf
      rcases List.mem_append.mp hmem with h1 | h1
      · exact absurd h1 hfree
      · obtain ⟨e, he, hef⟩ := List.mem_map.mp h1
        have hk := hs.agree.ids e he
        rw [hef, hid] at hk
        have he2 : (p, f) ∈ s.page_table_ := by
          have : e = (p, f) := Prod.ext hk.symm hef
          rw [← this]; exact he
        exact PageTable.find_of_mem _ hs.agree.keys p f he2

/-- Scenario of C18: after `new_page`, `unpin_page(0, false)`, `delete_page(0)` and
`fetch_page(0)` on two frames, frame 1 is not on the free list, carries page id 0 and is the
frame of page 0. -/
theorem page_table_frame_agreement_witness :
    1 < pool2_refetched.pool_size_ ∧ 1 ∉ pool2_refetched.free_list_ ∧
    (pool2_refetched.pageAt 1).page_id_ = 0 ∧
    pool2_refetched.page_table_.find 0 = some 1 :=
  ⟨by decide, by decide, by decide,
    ((page_table_frame_agreement 4 2 1 0 { writes := [] } (by decide) pool2_refetched).2
      (ReachableAllocated.step _ (.fetch_page 0)
        (((ReachableAllocated.init.after_ops .new_page
          (fun _ h => PoolOp.noConfusion h)).after_ops (.unpin_page 0 false)
          (fun _ h => PoolOp.noConfusion h)).after_ops (.delete_page 0)
          (fun _ h => PoolOp.noConfusion h))
        (fun p hp => by
          injection hp with hp
          rw [← hp]
          decide))
      0 1 (by decide) (by decide)).2 (by decide)⟩

/-! ## Capacity of the parallel pool -/

namespace BufferPoolManagerInstance

theorem Filled_create (PAGE_SIZE N s j : Nat) (disk_manager : DiskManager) :
    Filled N s j 0 (create PAGE_SIZE s N j disk_manager) := by
  refine ⟨rfl, by simp [create], rfl, by simp [create], ?_, ?_, ?_, Nat.zero_le _⟩
  · simp [create, List.range_eq_range']
  · intro f hf; exact absurd hf (Nat.not_lt_zero _)
  · intro f _
    simp only [pageAt, create, List.getD_eq_getElem?_getD]
    by_cases hf : f < s
    · simp [List.getElem?_replicate, hf, Page.create]
    · simp [List.getElem?_replicate, hf]

theorem Filled_new_full (N s j : Nat) (st : BufferPoolManagerInstance)
    (h : Filled N s j s st) : st.NewPgImp = (none, st) := by
  apply NewPgImp_of_pin_all
  rw [pin_all_iff]
  intro f hf
  rw [h.size] at hf
  exact h.pinned f hf

theorem Filled_new_room (N s j k : Nat) (st : BufferPoolManagerInstance)
    (h : Filled N s j k st) (hk : k < s) :
    st.NewPgImp.1 = some (k, (j : Int) + (k : Int) * (N : Int)) ∧
    Filled N s j (k + 1) st.NewPgImp.2 := by
  have hpa : st.pin_all = false := by
    cases hp : st.pin_all with
    | false => rfl
    | true =>
      have := (pin_all_iff st).1 hp k (by rw [h.size]; exact hk)
      exact absurd (h.unpinned k (le_refl _)) this
  have hfree : st.free_list_ = k :: List.range' (k + 1) (s - (k + 1)) := by
    rw [h.free]
    have : s - k = (s - (k + 1)) + 1 := by omega
    rw [this, List.range'_succ]
  have hklen : k < st.pages_.length := by rw [h.len]; exact hk
  rw [NewPgImp_of_free st k _ hpa hfree]
  refine ⟨by rw [h.next], ?_⟩
  have hp := pageAt_of_set st
    { st with
      next_page_id_ := st.next_page_id_ + (st.num_instances_ : Int)
      free_list_ := List.range' (k + 1) (s - (k + 1))
      pages_ := st.pages_.set k
        { st.pageAt k with
          page_id_ := st.next_page_id_
          pin_count_ := (st.pageAt k).pin_count_ + 1
          is_dirty_ := false }
      disk_manager_ := st.disk_manager_.WritePage st.next_page_id_ (st.pageAt k).data_
      page_table_ := st.page_table_.assign st.next_page_id_ k } k _ rfl
  refine ⟨h.size, by simp [h.len], h.num, ?_, rfl, ?_, ?_, hk⟩
  · show st.next_page_id_ + (st.num_instances_ : Int) = _
    rw [h.next, h.num]
    push_cast
    ring
  · intro f hf
    rw [hp f]
    by_cases hfk : f = k
    · simp only [hfk, hklen, and_self, if_true]
      rw [h.unpinned k (le_refl _)]
      decide
    · simp only [hfk, false_and, if_false]
      exact h.pinned f (by omega)
  · intro f hf
    rw [hp f]
    have hfk : f ≠ k := by omega
    simp only [hfk, false_and, if_false]
    exact h.unpinned f (by omega)

end BufferPoolManagerInstance

theorem set_getD_self {α : Type} (l : List α) (i : Nat) (d : α) (h : i < l.length) :
    l.set i (l.getD i d) = l := by
  apply List.ext_getElem?
  intro n
  by_cases hn : i = n
  · subst hn
    simp [List.getD_eq_getElem?_getD, h]
  · simp [List.getElem?_set_ne hn]

theorem rotation_onto (N start j : Nat) (hj : j < N) :
    ∃ i, i < N ∧ (i + start) % N = j := by
  have hN : 0 < N := lt_of_le_of_lt (Nat.zero_le _) hj
  have ha : start % N < N := Nat.mod_lt _ hN
  refine ⟨(j + (N - start % N)) % N, Nat.mod_lt _ hN, ?_⟩
  rw [Nat.mod_add_mod]
  have : j + (N - start % N) + start = j + N * (start / N + 1) := by
    have hd := Nat.div_add_mod start N
    rw [Nat.mul_add, Nat.mul_one]
    generalize start % N = a at ha hd ⊢
    generalize N * (start / N) = m at hd ⊢
    omega
  rw [this, Nat.add_mul_mod_self_left]
  exact Nat.mod_eq_of_lt hj

namespace ParallelBufferPoolManager

theorem bpiAt_set (bpis : List BufferPoolManagerInstance) (j j0 : Nat)
    (st : BufferPoolManagerInstance) (hj : j < bpis.length) :
    bpiAt (bpis.set j st) j0 = if j = j0 then st else bpiAt bpis j0 := by
  simp only [bpiAt]
  rw [getD_set_eq]
  by_cases h : j = j0 <;> simp [h, hj]
  subst h
  intro hc
  exact absurd hj (Nat.not_lt.mpr hc)

theorem Filled_set (N s : Nat) (ks : Nat → Nat) (bpis : List BufferPoolManagerInstance)
    (hF : Filled N s ks bpis) (j : Nat) (hj : j < N) (st : BufferPoolManagerInstance)
    (hst : BufferPoolManagerInstance.Filled N s j (ks j + 1) st) :
    Filled N s (Function.update ks j (ks j + 1)) (bpis.set j st) := by
  refine ⟨by rw [List.length_set]; exact hF.1, ?_⟩
  intro j0 hj0
  rw [bpiAt_set bpis j j0 st (by rw [hF.1]; exact hj)]
  by_cases h : j = j0
  · subst h
    simp only [if_true, Function.update_same]
    exact hst
  · simp only [h, if_false, Function.update_noteq (Ne.symm h)]
    exact hF.2 j0 hj0

theorem probe_cases (N s start : Nat) (hN : 0 < N) (ks : Nat → Nat)
    (bpis : List BufferPoolManagerInstance) (hF : Filled N s ks bpis) :
    ∀ r i,
      (probe N start r i bpis = (none, bpis) ∧
        ∀ i', i ≤ i' → i' < i + r → ks ((i' + start) % N) = s) ∨
      (∃ i', i ≤ i' ∧ i' < i + r ∧ ks ((i' + start) % N) < s ∧
        probe N start r i bpis =
          (some (i', ks ((i' + start) % N),
              (((i' + start) % N : Nat) : Int)
                + ((ks ((i' + start) % N) : Nat) : Int) * (N : Int)),
            bpis.set ((i' + start) % N) (bpiAt bpis ((i' + start) % N)).NewPgImp.2)) := by
  intro r
  induction r with
  | zero =>
    intro i
    left
    exact ⟨rfl, fun i' h1 h2 => absurd h2 (by omega)⟩
  | succ r ih =>
    intro i
    have hj : (i + start) % N < N := Nat.mod_lt _ hN
    have hFj := hF.2 _ hj
    by_cases hroom : ks ((i + start) % N) < s
    · right
      have hres := (BufferPoolManagerInstance.Filled_new_room N s _ _ _ hFj hroom).1
      refine ⟨i, le_refl _, by omega, hroom, ?_⟩
      simp only [probe, hres]
    · have hfull : ks ((i + start) % N) = s := le_antisymm hFj.bound (Nat.le_of_not_lt hroom)
      have hFj2 := hFj
      rw [hfull] at hFj2
      have hres := BufferPoolManagerInstance.Filled_new_full N s _ _ hFj2
      have hstep : probe N start (r + 1) i bpis = probe N start r (i + 1) bpis := by
        simp only [probe, hres]
        rw [show bpis.set ((i + start) % N) (bpiAt bpis ((i + start) % N)) = bpis from
          set_getD_self bpis _ _ (by rw [hF.1]; exact hj)]
      rw [hstep]
      rcases ih (i + 1) with ⟨h1, h2⟩ | ⟨i', h1, h2, h3, h4⟩
      · left
        refine ⟨h1, ?_⟩
        intro i' hi1 hi2
        by_cases hi : i' = i
        · rw [hi]; exact hfull
        · exact h2 i' (by omega) (by omega)
      · right
        exact ⟨i', by omega, by omega, h3, h4⟩

theorem NewPgImp_cases (N s : Nat) (hN : 0 < N) (ks : Nat → Nat)
    (p : ParallelBufferPoolManager) (hp : p.num_instances_ = N)
    (hF : Filled N s ks p.bpis_) :
    (p.NewPgImp.1 = none ∧ p.NewPgImp.2.bpis_ = p.bpis_ ∧ p.NewPgImp.2.num_instances_ = N ∧
      ∀ j, j < N → ks j = s) ∨
    (∃ j, j < N ∧ ks j < s ∧
      p.NewPgImp.1 = some (j, ks j, (j : Int) + (ks j : Int) * (N : Int)) ∧
      p.NewPgImp.2.num_instances_ = N ∧
      Filled N s (Function.update ks j (ks j + 1)) p.NewPgImp.2.bpis_) := by
  rcases probe_cases N s p.start_index_ hN ks p.bpis_ hF N 0 with
    ⟨h1, h2⟩ | ⟨i', _, _, h3, h4⟩
  · left
    unfold NewPgImp
    rw [hp, h1]
    refine ⟨rfl, rfl, rfl, ?_⟩
    intro j hj
    obtain ⟨i, hi, hij⟩ := rotation_onto N p.start_index_ j hj
    rw [← hij]
    exact h2 i (Nat.zero_le _) (by omega)
  · right
    have hj : (i' + p.start_index_) % N < N := Nat.mod_lt _ hN
    refine ⟨(i' + p.start_index_) % N, hj, h3, ?_⟩
    unfold NewPgImp
    rw [hp, h4]
    refine ⟨rfl, rfl, ?_⟩
    exact Filled_set N s ks p.bpis_ hF _ hj _
      (BufferPoolManagerInstance.Filled_new_room N s _ _ _ (hF.2 _ hj) h3).2

end ParallelBufferPoolManager

theorem stripe_unique (N a b k k' : Nat) (ha : a < N) (hb : b < N)
    (h : (a : Int) + (k : Int) * (N : Int) = (b : Int) + (k' : Int) * (N : Int)) :
    a = b ∧ k = k' := by
  have hN : 0 < N := lt_of_le_of_lt (Nat.zero_le _) ha
  have hnat : a + k * N = b + k' * N := by exact_mod_cast h
  have hab : a = b := by
    have h1 := congrArg (fun x => x % N) hnat
    simp only [Nat.add_mul_mod_self_right] at h1
    rwa [Nat.mod_eq_of_lt ha, Nat.mod_eq_of_lt hb] at h1
  refine ⟨hab, ?_⟩
  rw [hab] at hnat
  have : k * N = k' * N := Nat.add_left_cancel hnat
  exact Nat.eq_of_mul_eq_mul_right hN this

namespace ParallelBufferPoolManager

theorem newPages_full (N s : Nat) (hN : 0 < N) (ks : Nat → Nat)
    (hfull : ∀ j, j < N → ks j = s) :
    ∀ n (p : ParallelBufferPoolManager), p.num_instances_ = N → Filled N s ks p.bpis_ →
      (p.newPages n).1 = List.replicate n none ∧ (p.newPages n).2.num_instances_ = N ∧
      Filled N s ks (p.newPages n).2.bpis_ := by
  intro n
  induction n with
  | zero => intro p hp hF; exact ⟨rfl, hp, hF⟩
  | succ n ih =>
    intro p hp hF
    rcases NewPgImp_cases N s hN ks p hp hF with ⟨h1, h2, h3, _⟩ | ⟨j, hj, hlt, _⟩
    · obtain ⟨r1, r2, r3⟩ := ih p.NewPgImp.2 h3 (by rw [h2]; exact hF)
      simp only [newPages]
      exact ⟨by rw [h1, r1]; rfl, r2, r3⟩
    · exact absurd (hfull j hj) (Nat.ne_of_lt hlt)

theorem newPages_served (N s : Nat) (hN : 0 < N) :
    ∀ n (p : ParallelBufferPoolManager) (ks : Nat → Nat), p.num_instances_ = N →
      Filled N s ks p.bpis_ →
      ∃ (served : List (Nat × frame_id_t × page_id_t)) (ks' : Nat → Nat),
        (p.newPages n).1 = served.map some ++ List.replicate (n - served.length) none ∧
        served.length ≤ n ∧
        Filled N s ks' (p.newPages n).2.bpis_ ∧
        (∀ j, ks' j = ks j + (served.filter (fun e => decide (e.1 = j))).length) ∧
        (∀ e ∈ served, e.1 < N ∧ ∃ k, ks e.1 ≤ k ∧ k < ks' e.1 ∧
          e.2.2 = (e.1 : Int) + (k : Int) * (N : Int)) ∧
        (served.map (fun e => e.2.2)).Nodup ∧
        (served.length < n → ∀ j, j < N → ks' j = s) := by
  intro n
  induction n with
  | zero =>
    intro p ks _ hF
    exact ⟨[], ks, rfl, le_refl _, hF, by simp, by simp, by simp, by simp⟩
  | succ n ih =>
    intro p ks hp hF
    rcases NewPgImp_cases N s hN ks p hp hF with ⟨h1, h2, h3, h4⟩ | ⟨j, hj, hlt, h1, h3, hF1⟩
    · obtain ⟨r1, _, r3⟩ := newPages_full N s hN ks h4 n p.NewPgImp.2 h3
        (by rw [h2]; exact hF)
      refine ⟨[], ks, ?_, Nat.zero_le _, r3, by simp, by simp, by simp, fun _ => h4⟩
      simp only [newPages, List.map_nil, List.nil_append, List.length_nil, Nat.sub_zero]
      rw [h1, r1]
      rfl
    · obtain ⟨served, ks', r1, r2, r3, r4, r5, r6, r7⟩ :=
        ih p.NewPgImp.2 (Function.update ks j (ks j + 1)) h3 hF1
      refine ⟨(j, ks j, (j : Int) + (ks j : Int) * (N : Int)) :: served, ks',
        ?_, ?_, r3, ?_, ?_, ?_, ?_⟩
      · simp only [newPages, List.map_cons, List.cons_append, List.length_cons,
          Nat.succ_sub_succ]
        rw [h1, r1]
      · simp only [List.length_cons]; omega
      · intro j0
        rw [r4 j0]
        by_cases h : j0 = j
        · subst h
          simp [List.filter_cons]
          omega
        · have h' : ¬ j = j0 := fun e => h e.symm
          simp [List.filter_cons, Function.update_noteq h, h']
      · intro e he
        rcases List.mem_cons.mp he with h | h
        · rw [h]
          refine ⟨hj, ks j, le_refl _, ?_, rfl⟩
          rw [r4 j]
          simp only [Function.update_same]
          omega
        · obtain ⟨q1, k, q2, q3, q4⟩ := r5 e h
          refine ⟨q1, k, ?_, q3, q4⟩
          by_cases hej : e.1 = j
          · rw [hej] at q2 ⊢
            simp at q2
            omega
          · simpa [Function.update_noteq hej] using q2
      · simp only [List.map_cons]
        refine List.nodup_cons.mpr ⟨?_, r6⟩
        intro hm
        obtain ⟨e, he, heq⟩ := List.mem_map.mp hm
        obtain ⟨q1, k, q2, _, q4⟩ := r5 e he
        rw [q4] at heq
        obtain ⟨hej, hk⟩ := stripe_unique N e.1 j k (ks j) q1 hj heq
        rw [hej, hk] at q2
        simp at q2
      · intro hlen j0 hj0
        simp only [List.length_cons] at hlen
        exact r7 (by omega) j0 hj0

end ParallelBufferPoolManager

theorem length_eq_sum_counts {α : Type} (N : Nat) (l : List (Nat × α))
    (h : ∀ e ∈ l, e.1 < N) :
    l.length = ∑ j in Finset.range N, (l.filter (fun e => decide (e.1 = j))).length := by
  induction l with
  | nil => simp
  | cons e rest ih =>
    have hrest : ∀ x ∈ rest, x.1 < N := fun x hx => h x (List.mem_cons_of_mem _ hx)
    have he : e.1 < N := h e (List.mem_cons_self _ _)
    have hsplit : ∀ j, ((e :: rest).filter (fun x => decide (x.1 = j))).length
        = (if e.1 = j then 1 else 0) + (rest.filter (fun x => decide (x.1 = j))).length := by
      intro j
      by_cases hj : e.1 = j <;> simp [List.filter_cons, hj, Nat.add_comm]
    simp only [hsplit, Finset.sum_add_distrib, List.length_cons]
    rw [← ih hrest, Finset.sum_ite_eq]
    simp [he, Nat.add_comm]

theorem all_full_of_sum (N s : Nat) (c : Nat → Nat) (hle : ∀ j, j < N → c j ≤ s)
    (hsum : ∑ j in Finset.range N, c j = N * s) : ∀ j, j < N → c j = s := by
  intro j hj
  by_contra hne
  have hlt : c j < s := lt_of_le_of_ne (hle j hj) hne
  have : ∑ j in Finset.range N, c j < ∑ _j in Finset.range N, s :=
    Finset.sum_lt_sum (fun i hi => hle i (Finset.mem_range.mp hi))
      ⟨j, Finset.mem_range.mpr hj, hlt⟩
  simp only [Finset.sum_const, Finset.card_range, smul_eq_mul] at this
  omega

theorem ParallelBufferPoolManager.Filled_fresh (PAGE_SIZE N s start : Nat)
    (disk_manager : DiskManager) :
    ParallelBufferPoolManager.Filled N s (fun _ => 0)
      (ParallelBufferPoolManager.create PAGE_SIZE N s start disk_manager).bpis_ := by
  refine ⟨by simp [ParallelBufferPoolManager.create], ?_⟩
  intro j hj
  have : ParallelBufferPoolManager.bpiAt
      (ParallelBufferPoolManager.create PAGE_SIZE N s start disk_manager).bpis_ j
      = BufferPoolManagerInstance.create PAGE_SIZE s N j disk_manager := by
    simp [ParallelBufferPoolManager.bpiAt, ParallelBufferPoolManager.create,
      List.getD_eq_getElem?_getD, List.getElem?_map, List.getElem?_range hj]
  rw [this]
  exact BufferPoolManagerInstance.Filled_create PAGE_SIZE N s j disk_manager

/-- C15: for `N ≥ 1` instances of `s` frames (any `s`, in particular `s ≥ 1`) and any initial
cursor, the first `N * s` `new_page` calls on a fresh parallel pool all succeed and the next one
returns nothing; the ids
handed out are pairwise distinct, every instance serves exactly `s` of them, and the ids served
by instance `j` are congruent to `j` modulo `N`; for `s = 1` the residues of the `N` ids are a
rearrangement of `0, ..., N - 1`. -/
theorem parallel_pool_capacity (PAGE_SIZE N s start : Nat) (disk_manager : DiskManager)
    (hN : 1 ≤ N) :
    ∃ served : List (Nat × frame_id_t × page_id_t),
      ((ParallelBufferPoolManager.create PAGE_SIZE N s start disk_manager).newPages
          (N * s + 1)).1 = served.map some ++ [none] ∧
      served.length = N * s ∧
      (served.map (fun e => e.2.2)).Nodup ∧
      (∀ j, j < N → (served.filter (fun e => decide (e.1 = j))).length = s) ∧
      (∀ e ∈ served, e.1 < N ∧ e.2.2 % (N : Int) = (e.1 : Int)) ∧
      (s = 1 →
        (served.map (fun e => (e.2.2 % (N : Int)).toNat)).Perm (List.range N)) := by
  have hNpos : 0 < N := hN
  obtain ⟨served, ks', r1, _, r3, r4, r5, r6, r7⟩ :=
    ParallelBufferPoolManager.newPages_served N s hNpos (N * s + 1)
      (ParallelBufferPoolManager.create PAGE_SIZE N s start disk_manager) (fun _ => 0) rfl
      (ParallelBufferPoolManager.Filled_fresh PAGE_SIZE N s start disk_manager)
  have hcount : ∀ j, ks' j = (served.filter (fun e => decide (e.1 = j))).length := by
    intro j; rw [r4 j]; simp
  have hlt : ∀ e ∈ served, e.1 < N := fun e he => (r5 e he).1
  have hle : ∀ j, j < N → ks' j ≤ s := fun j hj => (r3.2 j hj).bound
  have hsum : served.length = ∑ j in Finset.range N, ks' j := by
    rw [length_eq_sum_counts N served hlt]
    exact Finset.sum_congr rfl (fun j _ => (hcount j).symm)
  have hbound : served.length ≤ N * s := by
    rw [hsum]
    have : ∑ j in Finset.range N, ks' j ≤ ∑ _j in Finset.range N, s :=
      Finset.sum_le_sum (fun i hi => hle i (Finset.mem_range.mp hi))
    simpa [Finset.sum_const, Finset.card_range, smul_eq_mul] using this
  have hfull : ∀ j, j < N → ks' j = s := r7 (by omega)
  have hlen : served.length = N * s := by
    rw [hsum, Finset.sum_congr rfl (fun j hj => hfull j (Finset.mem_range.mp hj))]
    simp [Finset.sum_const, Finset.card_range, smul_eq_mul]
  have hres : ∀ e ∈ served, e.2.2 % (N : Int) = (e.1 : Int) := by
    intro e he
    obtain ⟨q1, k, _, _, q4⟩ := r5 e he
    rw [q4, Int.add_mul_emod_self]
    exact Int.emod_eq_of_lt (by positivity) (by exact_mod_cast q1)
  refine ⟨served, ?_, hlen, r6, ?_, fun e he => ⟨hlt e he, hres e he⟩, ?_⟩
  · rw [r1, hlen]
    simp
  · intro j hj
    rw [← hcount j]
    exact hfull j hj
  · intro hs1
    have hmap : served.map (fun e => (e.2.2 % (N : Int)).toNat) = served.map Prod.fst := by
      apply List.map_congr_left
      intro e he
      rw [hres e he]
      simp
    rw [hmap]
    have hid : ∀ e ∈ served, e.2.2 = (e.1 : Int) := by
      intro e he
      obtain ⟨q1, k, _, q3, q4⟩ := r5 e he
      rw [hfull e.1 q1, hs1] at q3
      have hk : k = 0 := by omega
      rw [q4, hk]
      simp
    have hnd : (served.map Prod.fst).Nodup := by
      have h1 : served.map (fun e => e.2.2)
          = (served.map Prod.fst).map (fun (n : Nat) => (n : Int)) := by
        rw [List.map_map]
        apply List.map_congr_left
        intro e he
        exact hid e he
      rw [h1] at r6
      exact List.Nodup.of_map _ r6
    have hsub : served.map Prod.fst ⊆ List.range N := by
      intro x hx
      obtain ⟨e, he, hex⟩ := List.mem_map.mp hx
      rw [← hex]
      exact List.mem_range.mpr (hlt e he)
    exact (hnd.subperm hsub).perm_of_length_le
      (by rw [List.length_range, List.length_map, hlen, hs1, Nat.mul_one])

/-- Scenario of C15: four instances of one frame each; four `new_page` calls return ids 0, 1, 2
and 3 from instances 0, 1, 2 and 3, and the fifth returns nothing. -/
theorem parallel_pool_capacity_witness :
    (ppool4x1.newPages 5).1
      = [some (0, 0, 0), some (1, 0, 1), some (2, 0, 2), some (3, 0, 3), none] ∧
    ∃ served : List (Nat × frame_id_t × page_id_t),
      ((ParallelBufferPoolManager.create 4 4 1 0 { writes := [] }).newPages (4 * 1 + 1)).1
        = served.map some ++ [none] ∧
      served.length = 4 * 1 ∧
      (served.map (fun e => e.2.2)).Nodup ∧
      (∀ j, j < 4 → (served.filter (fun e => decide (e.1 = j))).length = 1) ∧
      (∀ e ∈ served, e.1 < 4 ∧ e.2.2 % ((4 : Nat) : Int) = (e.1 : Int)) ∧
      (1 = 1 →
        (served.map (fun e => (e.2.2 % ((4 : Nat) : Int)).toNat)).Perm (List.range 4)) :=
  ⟨by decide, parallel_pool_capacity 4 4 1 0 { writes := [] } (by decide)⟩

/-- C20 fails on the code: on success `NewPgImp` sets the cursor to one past the loop index, not
one past the index of the instance that served the call.  In a fresh pool of two instances with
two frames each, the second call starts at instance 1, is served by instance 1 at loop index 0,
and leaves the cursor at 1 instead of `(1 + 1) % 2 = 0`; the third call is served by instance 1
again. -/
theorem cursor_follows_loop_index :
    (ppool2x2.newPages 1).1 = [some (0, 0, 0)] ∧
    (ppool2x2.newPages 1).2.start_index_ = 1 ∧
    (ppool2x2.newPages 1).2.NewPgImp.1 = some (1, 0, 1) ∧
    (ppool2x2.newPages 1).2.NewPgImp.2.start_index_ = 1 ∧
    (ppool2x2.newPages 1).2.NewPgImp.2.start_index_ ≠ (1 + 1) % 2 ∧
    (ppool2x2.newPages 2).2.NewPgImp.1 = some (1, 1, 3) ∧
    (ppool2x2.newPages 5).1
      = [some (0, 0, 0), some (1, 0, 1), some (1, 1, 3), some (0, 1, 2), none] ∧
    (ppool2x2.newPages 4).2.start_index_ = 0 ∧
    (ppool2x2.newPages 5).2.start_index_ = 1 := by
  decide

/-! ## Representation invariant of the replacer -/

theorem size_t_inc_length (n : Nat) : size_t_inc (n % 2 ^ 64) = (n + 1) % 2 ^ 64 := by
  simp only [size_t_inc]
  norm_num

theorem size_t_dec_length (n : Nat) (h : 0 < n) :
    size_t_dec (n % 2 ^ 64) = (n - 1) % 2 ^ 64 := by
  simp only [size_t_dec]
  norm_num
  omega

theorem LRUReplacer.Counted_create (n : Nat) : (LRUReplacer.create n).Counted := by
  refine ⟨LRUReplacer.WF_create n, ?_, ?_⟩ <;> simp [LRUReplacer.create]

theorem LRUReplacer.Counted_apply (r : LRUReplacer) (h : r.Counted) (op : ReplacerOp) :
    (r.apply op).2.Counted := by
  obtain ⟨hwf, hk, hc⟩ := h
  refine ⟨LRUReplacer.WF_apply r hwf op, ?_, ?_⟩
  · cases op with
    | victim =>
      simp only [LRUReplacer.apply]
      cases hv : r.Victim.1 with
      | none => rw [LRUReplacer.Victim_none_state r hv]; exact hk
      | some v =>
        rw [LRUReplacer.Victim_some_frames r v hv]
        exact hk.sublist (List.filter_sublist _)
    | pin f =>
      simp only [LRUReplacer.apply, LRUReplacer.Pin]
      split
      · exact hk.sublist (List.filter_sublist _)
      · exact hk
    | unpin f =>
      simp only [LRUReplacer.apply, LRUReplacer.Unpin]
      split
      · exact hk
      · rename_i hf
        exact List.nodup_cons.mpr ⟨hf, hk⟩
  · cases op with
    | victim =>
      simp only [LRUReplacer.apply]
      cases hv : r.Victim.1 with
      | none => rw [LRUReplacer.Victim_none_state r hv]; exact hc
      | some v =>
        have hne : r.lists_ ≠ [] := by
          intro he
          rw [(LRUReplacer.Victim_none_iff r).2 he] at hv
          exact absurd hv (by simp)
        have hpos : 0 < r.lists_.length := List.length_pos.mpr hne
        have hl := LRUReplacer.Victim_some_lists r v hv
        have hn : r.Victim.2.num_pages_ = size_t_dec r.num_pages_ := by
          rw [LRUReplacer.Victim_fst] at hv
          unfold LRUReplacer.Victim
          simp [hv]
        rw [hn, hl, hc, List.length_dropLast]
        exact size_t_dec_length _ hpos
    | pin f =>
      simp only [LRUReplacer.apply, LRUReplacer.Pin]
      split
      · rename_i hf
        have hmem : f ∈ r.lists_ := (hwf.2 f).1 hf
        have hpos : 0 < r.lists_.length := List.length_pos_of_mem hmem
        show size_t_dec r.num_pages_ = (r.lists_.erase f).length % 2 ^ 64
        rw [hc, List.length_erase_of_mem hmem]
        exact size_t_dec_length _ hpos
      · exact hc
    | unpin f =>
      simp only [LRUReplacer.apply, LRUReplacer.Unpin]
      split
      · exact hc
      · show size_t_inc r.num_pages_ = (f :: r.lists_).length % 2 ^ 64
        rw [hc, List.length_cons]
        exact size_t_inc_length _

theorem LRUReplacer.Counted_run (ops : List ReplacerOp) :
    ∀ r : LRUReplacer, r.Counted → (r.run ops).2.Counted := by
  induction ops with
  | nil => intro r h; exact h
  | cons op ops ih => intro r h; exact ih _ (LRUReplacer.Counted_apply r h op)

theorem LRUReplacer.bounded_apply (r : LRUReplacer) (h : ∀ f ∈ r.lists_, f < 2 ^ 32)
    (op : ReplacerOp) (hop : op.representable = true) :
    ∀ f ∈ (r.apply op).2.lists_, f < 2 ^ 32 := by
  cases op with
  | victim =>
    simp only [LRUReplacer.apply]
    cases hv : r.Victim.1 with
    | none => rw [LRUReplacer.Victim_none_state r hv]; exact h
    | some v =>
      rw [LRUReplacer.Victim_some_lists r v hv]
      exact fun f hf => h f ((List.dropLast_sublist _).subset hf)
  | pin g =>
    simp only [LRUReplacer.apply, LRUReplacer.Pin]
    split
    · exact fun f hf => h f (List.mem_of_mem_erase hf)
    · exact h
  | unpin g =>
    simp only [LRUReplacer.apply, LRUReplacer.Unpin]
    split
    · exact h
    · intro f hf
      rcases List.mem_cons.mp hf with h1 | h1
      · rw [h1]
        simpa [ReplacerOp.representable] using hop
      · exact h f h1

theorem LRUReplacer.bounded_run (ops : List ReplacerOp) :
    ∀ r : LRUReplacer, (∀ f ∈ r.lists_, f < 2 ^ 32) →
      ops.all ReplacerOp.representable = true →
      ∀ f ∈ (r.run ops).2.lists_, f < 2 ^ 32 := by
  induction ops with
  | nil => intro r h _; exact h
  | cons op ops ih =>
    intro r h hall
    simp only [List.all_cons, Bool.and_eq_true] at hall
    exact ih _ (LRUReplacer.bounded_apply r h op hall.1) hall.2

/-- C21: after every sequence of victim, pin and unpin calls on an initially empty replacer, no
frame is twice in the list, the side table has no key twice and its keys are exactly the frames
of the list, and the counter is the length of the list modulo `2 ^ 64`; when the frame ids of
the calls are values of the 32-bit `frame_id_t`, `Size` equals the number of frames in the list,
and the counter is positive whenever `Victim` or `Pin` is about to decrement it, so it never
underflows. -/
theorem replacer_representation (num_pages : Nat) (ops : List ReplacerOp) :
    ((LRUReplacer.create num_pages).run ops).2.lists_.Nodup ∧
    ((LRUReplacer.create num_pages).run ops).2.frames_.Nodup ∧
    (∀ f, f ∈ ((LRUReplacer.create num_pages).run ops).2.frames_ ↔
      f ∈ ((LRUReplacer.create num_pages).run ops).2.lists_) ∧
    ((LRUReplacer.create num_pages).run ops).2.frames_.Perm
      ((LRUReplacer.create num_pages).run ops).2.lists_ ∧
    ((LRUReplacer.create num_pages).run ops).2.Size
      = ((LRUReplacer.create num_pages).run ops).2.lists_.length % 2 ^ 64 ∧
    (ops.all ReplacerOp.representable = true →
      ((LRUReplacer.create num_pages).run ops).2.Size
        = ((LRUReplacer.create num_pages).run ops).2.lists_.length ∧
      (((LRUReplacer.create num_pages).run ops).2.Victim.1 ≠ none →
        0 < ((LRUReplacer.create num_pages).run ops).2.Size) ∧
      (∀ f, f ∈ ((LRUReplacer.create num_pages).run ops).2.frames_ →
        0 < ((LRUReplacer.create num_pages).run ops).2.Size)) := by
  have hc := LRUReplacer.Counted_run ops (LRUReplacer.create num_pages)
    (LRUReplacer.Counted_create num_pages)
  have hb := LRUReplacer.bounded_run ops (LRUReplacer.create num_pages)
    (by simp [LRUReplacer.create])
  generalize ((LRUReplacer.create num_pages).run ops).2 = r at hc hb ⊢
  obtain ⟨hwf, hk, hn⟩ := hc
  refine ⟨hwf.1, hk, hwf.2, (List.perm_ext_iff_of_nodup hk hwf.1).2 hwf.2, hn, ?_⟩
  intro hall
  have hlen : r.lists_.length ≤ 2 ^ 32 :=
    length_le_of_nodup_bounded _ _ hwf.1 (hb hall)
  have hsize : r.Size = r.lists_.length := by
    show r.num_pages_ = r.lists_.length
    rw [hn]
    apply Nat.mod_eq_of_lt
    exact lt_of_le_of_lt hlen (by norm_num)
  refine ⟨hsize, ?_, ?_⟩
  · intro hv
    rw [hsize]
    apply List.length_pos.mpr
    intro he
    exact hv ((LRUReplacer.Victim_none_iff r).2 he)
  · intro f hf
    rw [hsize]
    exact List.length_pos_of_mem ((hwf.2 f).1 hf)

/-- Scenario of C21: after unpin(1), unpin(2), unpin(3), unpin(1), pin(2), pin(9) and one
victim call the list holds frame 3 alone, the side table has the key 3 and the size is 1; one
more victim call empties the replacer and a further one leaves the size at 0. -/
theorem replacer_representation_witness :
    ((LRUReplacer.create 7).run
      [.unpin 1, .unpin 2, .unpin 3, .unpin 1, .pin 2, .pin 9, .victim]).2
      = { lists_ := [3], frames_ := [3], num_pages_ := 1, max_pages_ := 7 } ∧
    ((LRUReplacer.create 7).run
      [.unpin 1, .unpin 2, .unpin 3, .unpin 1, .pin 2, .pin 9, .victim, .victim, .victim]).2.Size
      = 0 ∧
    ((LRUReplacer.create 7).run
      [.unpin 1, .unpin 2, .unpin 3, .unpin 1, .pin 2, .pin 9, .victim]).2.Size
      = ((LRUReplacer.create 7).run
        [.unpin 1, .unpin 2, .unpin 3, .unpin 1, .pin 2, .pin 9, .victim]).2.lists_.length :=
  ⟨by decide, by decide,
    ((replacer_representation 7
      [.unpin 1, .unpin 2, .unpin 3, .unpin 1, .pin 2, .pin 9, .victim]).2.2.2.2.2
      (by decide)).1⟩

end bustub
